import Mathlib

/-! Process control primitives of `machine/builtin/system.cpp`.

A shallow embedding of the command builder (`exec_sh_fallback`, `ExecCommand`),
the spawn configuration applier (`redirect_file_descriptor`, `vm_spawn_setup`)
and the parent side of the error channel of `System::vm_spawn`, followed by the
theorems that settle the specification's claims about them.

Conventions of the embedding:
* a `char` is a natural number (its byte value), a C buffer is a `List Nat`,
  a pointer into a buffer is an index into that list;
* an access outside a buffer is undefined behaviour and is reported as
  `Run.undefined`;
* loops that walk a buffer or wait for the kernel take an explicit iteration
  budget and report `Run.outOfFuel` when it is used up; the theorems show the
  budget that is enough;
* a C `int` that holds a descriptor number, a flag word, a process id or an
  `errno` is an integer of `Int`: the code does no arithmetic on these values
  that could leave the `int` range for descriptor numbers of a real process;
* the kernel is a state `OS` that every system call transforms and that keeps
  the trace of the calls issued.
-/

namespace Rubinius

/-! ## Outcome of running a piece of C code -/

/-- Outcome of a modelled C fragment: a value, undefined behaviour (an access
outside an allocated buffer), or an exhausted iteration budget. -/
inductive Run (α : Type) where
  | ok (a : α)
  | undefined
  | outOfFuel
  deriving Repr, DecidableEq

/-! ## Characters and C strings -/

/-- The character code of the space character. -/
def SPACE : Nat := 32

/-- The `ISALPHA` macro. Modelled from the spec: the macro is declared outside
`src/` (in the VM's character-class header); it is the ASCII letter test
(`A`..`Z`, `a`..`z`) behind the spec's word "alphanumeric". -/
def ISALPHA (c : Nat) : Bool :=
  (65 ≤ c && c ≤ 90) || (97 ≤ c && c ≤ 122)

/-- The string literal given to `strchr` in `exec_sh_fallback`, as character
codes: `* ? { } [ ] < > ( ) ~ & | \ $ ; ' backquote " \n \t \r \f \v`. -/
def sh_metachars : List Nat :=
  [42, 63, 123, 125, 91, 93, 60, 62, 40, 41, 126, 38, 124, 92, 36, 59, 39, 96, 34,
   10, 9, 13, 12, 11]

/-- C `strchr(str, c) != NULL`: the character occurs in the string, where the
terminating NUL of the string counts as part of it. -/
def strchr (str : List Nat) (c : Nat) : Bool :=
  decide (c ∈ str) || c == 0

/-- The NUL-terminated string that starts at pointer `p` of buffer `buf`: the
bytes from `p` up to (not including) the first NUL. -/
def cstr (buf : List Nat) (p : Nat) : List Nat :=
  (buf.drop p).takeWhile (fun c => c != 0)

/-! ## `exec_sh_fallback` -/

/-- A slot of a `char*` array: not yet written, the null pointer, or a pointer
to a NUL-terminated string (given by the bytes before its NUL). -/
inductive CharPtr where
  | uninit
  | null
  | ptr (str : List Nat)
  deriving Repr, DecidableEq

/-- The `exec` family calls the launcher can issue, with the strings the
kernel reads through the pointers it is given. -/
inductive Exec where
  /-- The call `execl(path, arg0, ..., (char*)0)`; `args` are the strings before
  the terminating null pointer. -/
  | execl (path : List Nat) (args : List (List Nat))
  /-- The call `execvp(file, argv)`; `argv` lists the slots of the vector. -/
  | execvp (file : List Nat) (argv : List CharPtr)
  deriving Repr, DecidableEq

/-- The literal `"/bin/sh"`. -/
def bin_sh : List Nat := [47, 98, 105, 110, 47, 115, 104]

/-- The literal `"sh"`. -/
def sh_arg0 : List Nat := [115, 104]

/-- The literal `"-c"`. -/
def sh_dash_c : List Nat := [45, 99]

/-- The first loop of `exec_sh_fallback`,
`for(;*s;s++) if(*s != ' ' && !ISALPHA(*s) && strchr(..., *s)) { use_sh = true; break; }`,
run on the bytes from `s` on; the result is `use_sh`. Running off the end of
the buffer before a NUL is found is undefined. -/
def scan_metachar : List Nat → Run Bool
  | [] => .undefined
  | c :: rest =>
    if c = 0 then .ok false
    else if c != SPACE && !ISALPHA c && strchr sh_metachars c then .ok true
    else scan_metachar rest

/-- The loop `while(s < s_end && *s == ' ') { *s = 0; s++; }`: returns the
buffer after the writes and the final `s`. -/
def skip_spaces : Nat → List Nat → Nat → Nat → Run (List Nat × Nat)
  | 0, _, _, _ => .outOfFuel
  | fuel + 1, buf, s_end, s =>
    if s < s_end then
      match buf[s]? with
      | none => .undefined
      | some c =>
        if c = SPACE then skip_spaces fuel (buf.set s 0) s_end (s + 1)
        else .ok (buf, s)
    else .ok (buf, s)

/-- The loop `while(s < s_end && *s != ' ') s++;`: returns the final `s`. -/
def skip_token : Nat → List Nat → Nat → Nat → Run Nat
  | 0, _, _, _ => .outOfFuel
  | fuel + 1, buf, s_end, s =>
    if s < s_end then
      match buf[s]? with
      | none => .undefined
      | some c =>
        if c ≠ SPACE then skip_token fuel buf s_end (s + 1)
        else .ok s
    else .ok s

/-- The `for(;;)` loop of the tokenizer. `args` is the part `args[0..idx)` of
the pointer array written so far (`idx = args.length`), `max_spaces` is the
number of slots allocated for it; a store `args[idx++] = s` beyond the
allocation is undefined. `inner` is the iteration budget handed to each of the
two inner loops. The counter `idx` is an `int` in the source and is kept as a
natural number here: it never exceeds `max_spaces`. -/
def tokenize (inner : Nat) (max_spaces s_end : Nat) :
    Nat → List Nat → Nat → List Nat → Run (List Nat × List Nat)
  | 0, _, _, _ => .outOfFuel
  | fuel + 1, buf, s, args =>
    match skip_spaces inner buf s_end s with
    | .undefined => .undefined
    | .outOfFuel => .outOfFuel
    | .ok (buf1, s1) =>
      if s1 = s_end then .ok (buf1, args)
      else if args.length < max_spaces then
        match skip_token inner buf1 s_end s1 with
        | .undefined => .undefined
        | .outOfFuel => .outOfFuel
        | .ok s2 => tokenize inner max_spaces s_end fuel buf1 s2 (args ++ [s1])
      else .undefined

/-- What a call of `exec_sh_fallback` leaves behind: the command buffer as the
call left it and the `exec` call it issued, if any. -/
structure ShFallback where
  buf : List Nat
  call : Option Exec
  deriving Repr, DecidableEq

/-- The function `exec_sh_fallback(state, c_str, c_len)`. `buf` is the buffer
`c_str` points to, `fuel` the iteration budget of the tokenizer loops. The
`exec` call is recorded with the strings its pointers denote at the time of
the call; whether the call then succeeds (and replaces the process image) or
fails (and returns) is up to the kernel. -/
def exec_sh_fallback (fuel : Nat) (buf : List Nat) (c_len : Nat) : Run ShFallback :=
  match scan_metachar buf with
  | .undefined => .undefined
  | .outOfFuel => .outOfFuel
  | .ok true =>
    .ok { buf := buf, call := some (.execl bin_sh [sh_arg0, sh_dash_c, cstr buf 0]) }
  | .ok false =>
    let max_spaces := c_len / 2 + 2
    match tokenize fuel max_spaces c_len fuel buf 0 [] with
    | .undefined => .undefined
    | .outOfFuel => .outOfFuel
    | .ok (buf1, args) =>
      -- args[idx] = 0
      if args.length < max_spaces then
        match args with
        | [] => .ok { buf := buf1, call := none }
        | a0 :: _ =>
          .ok { buf := buf1,
                call := some (.execvp (cstr buf1 a0)
                  (args.map (fun p => CharPtr.ptr (cstr buf1 p)) ++ [CharPtr.null])) }
      else .undefined

/-! ### The tokenization the specification describes -/

/-- The maximal runs of non-space bytes of a command, left to right: the pieces
between spaces, without the empty ones. This follows the specification's
words, not the code. -/
def maximal_runs (cmd : List Nat) : List (List Nat) :=
  (cmd.splitOnP (fun c => c == SPACE)).filter (fun t => !t.isEmpty)

/-- A command in which every space has been overwritten by a NUL. -/
def nul_spaces (cmd : List Nat) : List Nat :=
  cmd.map (fun c => if c = SPACE then 0 else c)

/-- An ASCII letter, an ASCII digit or a space. -/
def alnum_or_space (c : Nat) : Bool :=
  (65 ≤ c && c ≤ 90) || (97 ≤ c && c ≤ 122) || (48 ≤ c && c ≤ 57) || c == SPACE

/-! ## VM objects -/

/-- The symbols that name the options of a spawn configuration
(`state->symbol("env")` and so on), and any other symbol. -/
inductive Symbol where
  | env
  | pgroup
  | umask
  | chdir
  | close_others
  | assign_fd
  | redirect_fd
  | named (name : String)
  deriving Repr, DecidableEq

/-- The VM objects the process primitives receive. -/
inductive Object where
  | cNil
  | cTrue
  | cFalse
  | fixnum (n : Int)
  | string (bytes : List Nat)
  | array (elems : List Object)
  | lookup_table (entries : List (Symbol × Object))
  | tuple (fields : List Object)
  | other

/-- What VM code raises. `errno_error reason errno` is
`Exception::raise_errno_error(state, reason, errno)`. -/
inductive Exn where
  | type_error
  | errno_error (reason : String) (errno : Int)
  deriving Repr, DecidableEq

/-- The test `obj->nil_p()`. -/
def Object.nil_p : Object → Bool
  | .cNil => true
  | _ => false

/-- The cast `try_as<Array>(obj)`: the elements, or a null pointer. -/
def try_as_Array : Object → Option (List Object)
  | .array elems => some elems
  | _ => none

/-- The cast `try_as<Fixnum>(obj)` followed by `to_native()`. -/
def try_as_Fixnum : Object → Option Int
  | .fixnum n => some n
  | _ => none

/-- The cast `try_as<String>(obj)`: the bytes of the String. -/
def try_as_String : Object → Option (List Nat)
  | .string bytes => some bytes
  | _ => none

/-- The cast `try_as<LookupTable>(obj)`. -/
def try_as_LookupTable : Object → Option (List (Symbol × Object))
  | .lookup_table entries => some entries
  | _ => none

/-- The cast `as<String>(obj)`, which raises a type error on another object. -/
def as_String : Object → Except Exn (List Nat)
  | .string bytes => .ok bytes
  | _ => .error .type_error

/-- The cast `as<Fixnum>(obj)` followed by `to_native()`. -/
def as_Fixnum : Object → Except Exn Int
  | .fixnum n => .ok n
  | _ => .error .type_error

/-- The accessor `Array::get(state, idx)`. Modelled from the spec: `Array` is
declared outside `src/`; an index past the end yields nil, as the "null value"
of the spec's data model. -/
def Array_get (elems : List Object) (idx : Nat) : Object :=
  elems.getD idx .cNil

/-- The accessor `LookupTable::fetch(state, key)`. Modelled from the spec:
`LookupTable` is declared outside `src/`; an absent option yields nil. -/
def LookupTable_fetch : List (Symbol × Object) → Symbol → Object
  | [], _ => .cNil
  | (k, v) :: rest, key => if k = key then v else LookupTable_fetch rest key

/-- The test `CBOOL(table->has_key(state, key))`. Modelled from the spec:
`LookupTable` is declared outside `src/`. -/
def LookupTable_has_key : List (Symbol × Object) → Symbol → Bool
  | [], _ => false
  | (k, _) :: rest, key => k = key || LookupTable_has_key rest key

/-- The accessor `String::c_str_null_safe(state)`. Modelled from the spec:
`String` is declared outside `src/`; the accessor is taken to return the
String's data, the `byte_size()` bytes followed by a terminating NUL. -/
def c_str_null_safe (bytes : List Nat) : List Nat :=
  bytes ++ [0]

/-! ## `ExecCommand` -/

/-- C `strnlen(src, maxlen)`: the number of bytes before the first NUL among
the first `maxlen` bytes. -/
def strnlen (src : List Nat) (maxlen : Nat) : Nat :=
  ((src.take maxlen).takeWhile (fun c => c != 0)).length

/-- The method `ExecCommand::make_string`: `source` is the bytes of the String
(`byte_size()` is their number); the result is the buffer `str` of `len + 1`
bytes after the `memcpy` and the store `str[len] = 0`. -/
def make_string (source : List Nat) : List Nat :=
  let src := c_str_null_safe source
  let len := strnlen src source.length
  src.take len ++ [0]

/-- The class `ExecCommand`: the owned command buffer, the recorded command
size, the argument count and the argument vector (`none` is `NULL`). -/
structure ExecCommand where
  command_ : List Nat
  command_size_ : Nat
  argc_ : Nat
  argv_ : Option (List CharPtr)
  deriving Repr, DecidableEq

/-- The loop `for(size_t i = 0; i < argc_; i++) argv_[i] = make_string(as<String>(args->get(state, i)))`,
run over the indices still to visit. -/
def fill_argv (args : List Object) : List Nat → List CharPtr → Except Exn (List CharPtr)
  | [], argv => .ok argv
  | i :: rest, argv =>
    match as_String (Array_get args i) with
    | .error e => .error e
    | .ok str => fill_argv args rest (argv.set i (.ptr (cstr (make_string str) 0)))

/-- The constructor `ExecCommand(STATE, String* command)`. -/
def ExecCommand.from_command (command : List Nat) : ExecCommand :=
  { command_ := make_string command, command_size_ := command.length,
    argc_ := 0, argv_ := none }

/-- The constructor `ExecCommand(STATE, String* command, Array* args)`. The new
array `argv_` starts with `argc_ + 1` unwritten slots. -/
def ExecCommand.from_command_args (command : List Nat) (args : List Object) :
    Except Exn ExecCommand :=
  let command_ := make_string command
  let command_size_ := command.length
  let argc_ := args.length
  if argc_ > 0 then
    let argv0 := (List.replicate (argc_ + 1) CharPtr.uninit).set argc_ CharPtr.null
    match fill_argv args (List.range argc_) argv0 with
    | .error e => .error e
    | .ok argv =>
      .ok { command_ := command_, command_size_ := command_size_, argc_ := argc_,
            argv_ := some argv }
  else
    .ok { command_ := command_, command_size_ := command_size_, argc_ := argc_,
          argv_ := none }

/-- The dispatch of the launchers (`vm_spawn`, `vm_exec`):
`if(exe.argc()) execvp(exe.command(), exe.argv()); else exec_sh_fallback(state, exe.command(), exe.command_size());`.
A null `argv` handed to `execvp` is recorded as the empty vector. -/
def launch_exec (fuel : Nat) (exe : ExecCommand) : Run ShFallback :=
  if exe.argc_ ≠ 0 then
    .ok { buf := exe.command_,
          call := some (.execvp (cstr exe.command_ 0) (exe.argv_.getD [])) }
  else
    exec_sh_fallback fuel exe.command_ exe.command_size_

/-! ## The kernel: descriptors, system calls, trace -/

/-- The descriptor flag `FD_CLOEXEC`. -/
def FD_CLOEXEC : Int := 1

/-- The descriptor number `STDERR_FILENO`. -/
def STDERR_FILENO : Int := 2

/-- The `errno` value `EINTR`. -/
def EINTR : Int := 4

/-- The `errno` value `EBADF`. -/
def EBADF : Int := 9

/-- The `errno` value `EAGAIN`. -/
def EAGAIN : Int := 11

/-- An open descriptor: the open file it refers to and its descriptor flags
(the word `fcntl(fd, F_GETFD)` returns). -/
structure Descriptor where
  file : Nat
  flags : Nat
  deriving Repr, DecidableEq

/-- What one `read(fd, &error_no, sizeof(int))` gives: a byte count with the
value `error_no` holds afterwards, or `-1` with an `errno`. -/
inductive ReadResult where
  | bytes (size : Nat) (error_no : Int)
  | error (errno : Int)
  deriving Repr, DecidableEq

/-- A signal handler as `signal` and `sigaction` see it: `SIG_DFL`, `SIG_IGN`, a
handler function (named by a number), or the error value `SIG_ERR`. -/
inductive Handler where
  | SIG_DFL
  | SIG_IGN
  | fn (id : Nat)
  | SIG_ERR
  deriving Repr, DecidableEq

/-- A `struct sigaction`, the disposition of a signal: the handler, the flags
and the set of signals blocked while the handler runs. -/
structure Sigaction where
  sa_handler : Handler
  sa_flags : Int
  sa_mask : List Nat
  deriving Repr, DecidableEq

/-- The calls into the VM that the process primitives make: the fork/exec
lock (`LockGuard` on `fork_exec_lock()`), the hooks of the thread registry
(`internal_threads()`), of the VM, of the thread and of the shared state, and
the scoped phase changes (`LockPhase`, `UnmanagedPhase`, `become_managed`,
`become_unmanaged`). -/
inductive Hook where
  | lock_fork_exec
  | unlock_fork_exec
  | before_fork
  | before_fork_exec
  | before_exec
  | after_fork_parent
  | after_fork_exec_parent
  | after_fork_exec_child
  | after_exec
  | vm_after_fork_child
  | thread_init_lock
  | shared_after_fork_child
  | threads_after_fork_child
  | lock_phase_enter
  | lock_phase_leave
  | unmanaged_enter
  | unmanaged_leave
  | become_managed
  | become_unmanaged
  deriving Repr, DecidableEq

/-- The calls into the kernel, the C library, the logger and the VM that the
modelled code issues, with their arguments. -/
inductive Syscall where
  | setenv (key value : List Nat) (overwrite : Int)
  | unsetenv (key : List Nat)
  | setpgid (pid pgid : Int)
  | umask (mask : Int)
  | chdir (dir : List Nat)
  | fcntl_getfd (fd : Int)
  | fcntl_setfd (fd flags : Int)
  | open_cloexec (name : List Nat) (mode perm : Int)
  | dup2 (oldfd newfd : Int)
  | close (fd : Int)
  | read (fd : Int)
  | log_error (msg : String)
  | log_write (msg : String)
  | write (fd : Int) (bytes : List Nat)
  | read_output (fd : Int) (count : Nat)
  | exit_handler (id : Nat)
  | exit (status : Int)
  | signal (sig : Nat) (handler : Handler)
  | sigaction (sig : Nat) (act : Sigaction)
  | waitpid (pid options : Int)
  | kill (pid : Int) (sig : Nat)
  | check_async
  | fork
  | exec (call : Exec)
  | hook (h : Hook)
  | pipe
  deriving Repr, DecidableEq

/-- The state of the process as the kernel sees it, with the environment the
calls depend on: the descriptor table (slot `fd` is `none` when `fd` is not
open; its length is the number of descriptors the process may have), the
directories `chdir` accepts, the paths `open` can open and the file each one
names, the results the reads of the error channel will give, the value of
`IO::max_descriptors()`, and the trace of the calls issued so far. -/
structure OS where
  fds : List (Option Descriptor)
  dirs : List Nat → Bool
  files : List Nat → Option Nat
  reads : Nat → ReadResult
  reads_done : Nat
  max_descriptors : Int
  trace : List Syscall

/-- Appends a call to the trace. -/
def OS.emit (os : OS) (c : Syscall) : OS :=
  { os with trace := os.trace ++ [c] }

/-- The open descriptor with number `fd`, if there is one. -/
def OS.descriptor (os : OS) (fd : Int) : Option Descriptor :=
  if fd < 0 then none else os.fds.getD fd.toNat none

/-- Whether descriptor `fd` is open. -/
def OS.is_open (os : OS) (fd : Int) : Bool :=
  (os.descriptor fd).isSome

/-- The open-descriptor set of the process, as the list of the open/closed
state of every slot of the table. -/
def OS.open_set (os : OS) : List Bool :=
  os.fds.map Option.isSome

/-- The lowest free slot of a descriptor table. -/
def first_free : List (Option Descriptor) → Option Nat
  | [] => none
  | none :: _ => some 0
  | some _ :: rest => (first_free rest).map (fun i => i + 1)

/-- The call `setenv(key, value, overwrite)`. -/
def setenv (key value : List Nat) (overwrite : Int) (os : OS) : OS :=
  os.emit (.setenv key value overwrite)

/-- The call `unsetenv(key)`. -/
def unsetenv (key : List Nat) (os : OS) : OS :=
  os.emit (.unsetenv key)

/-- The call `setpgid(pid, pgid)`. -/
def setpgid (pid pgid : Int) (os : OS) : OS :=
  os.emit (.setpgid pid pgid)

/-- The call `umask(mask)`. -/
def umask (mask : Int) (os : OS) : OS :=
  os.emit (.umask mask)

/-- The call `chdir(dir)`: 0, or -1 when the directory cannot be entered. -/
def chdir (dir : List Nat) (os : OS) : Int × OS :=
  (if os.dirs dir then 0 else -1, os.emit (.chdir dir))

/-- The call `fcntl(fd, F_GETFD)`: the descriptor flags, or -1 when `fd` is not
open. -/
def fcntl_getfd (fd : Int) (os : OS) : Int × OS :=
  match os.descriptor fd with
  | some d => (d.flags, os.emit (.fcntl_getfd fd))
  | none => (-1, os.emit (.fcntl_getfd fd))

/-- The call `fcntl(fd, F_SETFD, flags)`: replaces the descriptor flags of an
open descriptor. -/
def fcntl_setfd (fd flags : Int) (os : OS) : Int × OS :=
  match os.descriptor fd with
  | some d =>
    (0, { os.emit (.fcntl_setfd fd flags) with
          fds := os.fds.set fd.toNat (some { d with flags := flags.toNat }) })
  | none => (-1, os.emit (.fcntl_setfd fd flags))

/-- The call `dup2(oldfd, newfd)`: fails when `oldfd` is not open or `newfd` is
not a slot of the table; leaves the table alone when both are the same
descriptor; otherwise makes `newfd` refer to the open file of `oldfd`, with
the descriptor flags of `newfd` cleared. -/
def dup2 (oldfd newfd : Int) (os : OS) : Int × OS :=
  match os.descriptor oldfd with
  | none => (-1, os.emit (.dup2 oldfd newfd))
  | some d =>
    if newfd < 0 ∨ os.fds.length ≤ newfd.toNat then (-1, os.emit (.dup2 oldfd newfd))
    else if oldfd = newfd then (newfd, os.emit (.dup2 oldfd newfd))
    else
      (newfd, { os.emit (.dup2 oldfd newfd) with
                fds := os.fds.set newfd.toNat (some { file := d.file, flags := 0 }) })

/-- The call `IO::open_with_cloexec(state, name, mode, perm)`. Modelled from the
spec: `IO` is declared outside `src/`; the call opens the path on the lowest
free descriptor with close-on-exec set on it and returns that descriptor, or
-1 when the path cannot be opened or no descriptor is free. -/
def open_with_cloexec (name : List Nat) (mode perm : Int) (os : OS) : Int × OS :=
  match os.files name, first_free os.fds with
  | some f, some i =>
    (i, { os.emit (.open_cloexec name mode perm) with
          fds := os.fds.set i (some { file := f, flags := FD_CLOEXEC.toNat }) })
  | _, _ => (-1, os.emit (.open_cloexec name mode perm))

/-- The call `close(fd)`. -/
def close (fd : Int) (os : OS) : Int × OS :=
  match os.descriptor fd with
  | some _ => (0, { os.emit (.close fd) with fds := os.fds.set fd.toNat none })
  | none => (-1, os.emit (.close fd))

/-- The call `read(fd, &error_no, sizeof(int))`: `EBADF` on a descriptor that is
not open, otherwise the next result the environment has in store. -/
def read (fd : Int) (os : OS) : ReadResult × OS :=
  match os.descriptor fd with
  | none => (.error EBADF, os.emit (.read fd))
  | some _ =>
    (os.reads os.reads_done, { os.emit (.read fd) with reads_done := os.reads_done + 1 })

/-! ## The spawn configuration applier -/

/-- The function `redirect_file_descriptor(from, to)`. -/
def redirect_file_descriptor (from_ to_ : Int) (os : OS) : OS :=
  let r := dup2 to_ from_ os
  if r.1 < 0 then r.2
  else
    let g := fcntl_getfd from_ r.2
    let flags := g.1
    if flags < 0 then g.2
    else (fcntl_setfd from_ (Int.land flags (Int.lnot FD_CLOEXEC)) g.2).2

/-- The indices a loop `for(native_int i = 0; i < size; i += step)` visits. -/
def loop_indices (size step : Nat) : List Nat :=
  List.range' 0 ((size + (step - 1)) / step) step

/-- The body of the `env` loop of `vm_spawn_setup`, run over the indices still
to visit: the state reached, and the exception a failed cast raised. -/
def env_loop (env : List Object) : List Nat → OS → OS × Option Exn
  | [], os => (os, none)
  | i :: rest, os =>
    match as_String (Array_get env i) with
    | .error e => (os, some e)
    | .ok k =>
      let key := cstr (c_str_null_safe k) 0
      let value := Array_get env (i + 1)
      if value.nil_p then env_loop env rest (unsetenv key os)
      else
        match as_String value with
        | .error e => (os, some e)
        | .ok v => env_loop env rest (setenv key (cstr (c_str_null_safe v) 0) 1 os)

/-- The loop of the `close_others` step,
`for(int fd = STDERR_FILENO + 1; fd < max; fd++) if((flags = fcntl(fd, F_GETFD)) >= 0) fcntl(fd, F_SETFD, flags | FD_CLOEXEC);`,
run over the descriptors still to visit. -/
def close_others_loop : List Int → OS → OS
  | [], os => os
  | fd :: rest, os =>
    let g := fcntl_getfd fd os
    let flags := g.1
    if flags ≥ 0 then close_others_loop rest (fcntl_setfd fd (Int.lor flags FD_CLOEXEC) g.2).2
    else close_others_loop rest g.2

/-- The descriptors `STDERR_FILENO + 1, ..., max - 1` the `close_others` loop
visits. -/
def close_others_fds (max : Int) : List Int :=
  (List.range (max - (STDERR_FILENO + 1)).toNat).map
    (fun (k : Nat) => STDERR_FILENO + 1 + Int.ofNat k)

/-- The `close_others` step of `vm_spawn_setup`, with `max = IO::max_descriptors()`. -/
def close_others_step (os : OS) : OS :=
  close_others_loop (close_others_fds os.max_descriptors) os

/-- The body of the `assign_fd` loop of `vm_spawn_setup`. -/
def assign_loop (assign : List Object) : List Nat → OS → OS × Option Exn
  | [], os => (os, none)
  | i :: rest, os =>
    match as_Fixnum (Array_get assign i) with
    | .error e => (os, some e)
    | .ok from_ =>
      match as_Fixnum (Array_get assign (i + 2)) with
      | .error e => (os, some e)
      | .ok mode =>
        match as_Fixnum (Array_get assign (i + 3)) with
        | .error e => (os, some e)
        | .ok perm =>
          match as_String (Array_get assign (i + 1)) with
          | .error e => (os, some e)
          | .ok n =>
            let name := cstr (c_str_null_safe n) 0
            let o := open_with_cloexec name mode perm os
            let to_ := o.1
            assign_loop assign rest (redirect_file_descriptor from_ to_ o.2)

/-- The body of the `redirect_fd` loop of `vm_spawn_setup`. -/
def redirect_loop (redirect : List Object) : List Nat → OS → OS × Option Exn
  | [], os => (os, none)
  | i :: rest, os =>
    match as_Fixnum (Array_get redirect i) with
    | .error e => (os, some e)
    | .ok from_ =>
      match as_Fixnum (Array_get redirect (i + 1)) with
      | .error e => (os, some e)
      | .ok to_ =>
        redirect_loop redirect rest
          (redirect_file_descriptor from_ (if to_ < 0 then -to_ + 1 else to_) os)

/-- The `env` block of `vm_spawn_setup`. -/
def env_step (table : List (Symbol × Object)) (os : OS) : OS × Option Exn :=
  match try_as_Array (LookupTable_fetch table .env) with
  | some env => env_loop env (loop_indices env.length 2) os
  | none => (os, none)

/-- The `pgroup` block of `vm_spawn_setup`. -/
def pgroup_step (table : List (Symbol × Object)) (os : OS) : OS :=
  match try_as_Fixnum (LookupTable_fetch table .pgroup) with
  | some pgrp => setpgid 0 pgrp os
  | none => os

/-- The `umask` block of `vm_spawn_setup`. -/
def umask_step (table : List (Symbol × Object)) (os : OS) : OS :=
  match try_as_Fixnum (LookupTable_fetch table .umask) with
  | some mask => umask mask os
  | none => os

/-- The `chdir` block of `vm_spawn_setup`. -/
def chdir_step (table : List (Symbol × Object)) (os : OS) : OS :=
  match try_as_String (LookupTable_fetch table .chdir) with
  | some str =>
    let dir := cstr (c_str_null_safe str) 0
    let r := chdir dir os
    if r.1 < 0 then r.2.emit (.log_error "%s: spawn: failed to change directory: %s")
    else r.2
  | none => os

/-- The `close_others` block of `vm_spawn_setup`. -/
def close_others_block (table : List (Symbol × Object)) (os : OS) : OS :=
  if LookupTable_has_key table .close_others then close_others_step os else os

/-- The `assign_fd` block of `vm_spawn_setup`. -/
def assign_step (table : List (Symbol × Object)) (os : OS) : OS × Option Exn :=
  match try_as_Array (LookupTable_fetch table .assign_fd) with
  | some assign => assign_loop assign (loop_indices assign.length 4) os
  | none => (os, none)

/-- The `redirect_fd` block of `vm_spawn_setup`. -/
def redirect_step (table : List (Symbol × Object)) (os : OS) : OS × Option Exn :=
  match try_as_Array (LookupTable_fetch table .redirect_fd) with
  | some redirect => redirect_loop redirect (loop_indices redirect.length 2) os
  | none => (os, none)

/-- The function `System::vm_spawn_setup(state, spawn_state)`: the state of the
process afterwards, and the exception raised by a failed cast, if any (the
blocks after the raising one are then not run). -/
def vm_spawn_setup (spawn_state : Object) (os : OS) : OS × Option Exn :=
  match try_as_LookupTable spawn_state with
  | none => (os, none)
  | some table =>
    match env_step table os with
    | (os1, some e) => (os1, some e)
    | (os1, none) =>
      let os4 := chdir_step table (umask_step table (pgroup_step table os1))
      let os5 := close_others_block table os4
      match assign_step table os5 with
      | (os6, some e) => (os6, some e)
      | (os6, none) => redirect_step table os6

/-! ### The spawn configuration of the specification -/

/-- An `assign_fd` entry: target descriptor, path, open mode, permission. -/
structure AssignFd where
  fd : Int
  path : List Nat
  mode : Int
  perm : Int
  deriving Repr, DecidableEq

/-- The `SpawnConfig` of the specification's data model. An option that is
`none` is absent from the table; `close_others` is present with the given
boolean. -/
structure SpawnConfig where
  env : Option (List (List Nat × Option (List Nat)))
  pgroup : Option Int
  umask : Option Int
  chdir : Option (List Nat)
  close_others : Option Bool
  assign_fd : Option (List AssignFd)
  redirect_fd : Option (List (Int × Int))
  deriving Repr, DecidableEq

/-- The flat array that carries the `env` pairs. -/
def env_array : List (List Nat × Option (List Nat)) → List Object
  | [] => []
  | (k, none) :: rest => .string k :: .cNil :: env_array rest
  | (k, some v) :: rest => .string k :: .string v :: env_array rest

/-- The flat array that carries the `assign_fd` entries. -/
def assign_array : List AssignFd → List Object
  | [] => []
  | a :: rest =>
    .fixnum a.fd :: .string a.path :: .fixnum a.mode :: .fixnum a.perm :: assign_array rest

/-- The flat array that carries the `redirect_fd` pairs. -/
def redirect_array : List (Int × Int) → List Object
  | [] => []
  | (f, t) :: rest => .fixnum f :: .fixnum t :: redirect_array rest

/-- The table entry of an option, when the option is present. -/
def option_entry (key : Symbol) : Option Object → List (Symbol × Object)
  | none => []
  | some v => [(key, v)]

/-- The entries of the lookup table `vm_spawn_setup` receives for a
`SpawnConfig`. -/
def SpawnConfig.entries (c : SpawnConfig) : List (Symbol × Object) :=
  option_entry .env (c.env.map (fun e => .array (env_array e)))
    ++ option_entry .pgroup (c.pgroup.map .fixnum)
    ++ option_entry .umask (c.umask.map .fixnum)
    ++ option_entry .chdir (c.chdir.map .string)
    ++ option_entry .close_others (c.close_others.map (fun b => if b then .cTrue else .cFalse))
    ++ option_entry .assign_fd (c.assign_fd.map (fun a => .array (assign_array a)))
    ++ option_entry .redirect_fd (c.redirect_fd.map (fun r => .array (redirect_array r)))

/-- The lookup table `vm_spawn_setup` receives for a `SpawnConfig`. -/
def SpawnConfig.to_table (c : SpawnConfig) : Object :=
  .lookup_table c.entries

/-- The C string a String object stands for where a `const char*` is wanted. -/
def c_string (bytes : List Nat) : List Nat :=
  cstr (c_str_null_safe bytes) 0

/-- The calls the specification's `env` step issues: one per pair, in list
order; a null value unsets the key. -/
def env_calls (env : List (List Nat × Option (List Nat))) : List Syscall :=
  env.map (fun kv =>
    match kv.2 with
    | none => Syscall.unsetenv (c_string kv.1)
    | some v => Syscall.setenv (c_string kv.1) (c_string v) 1)

/-- The call the specification's `pgroup` step issues. -/
def pgroup_calls : Option Int → List Syscall
  | none => []
  | some g => [.setpgid 0 g]

/-- The call the specification's `umask` step issues. -/
def umask_calls : Option Int → List Syscall
  | none => []
  | some m => [.umask m]

/-- The calls the specification's `chdir` step issues: the `chdir`, and the log
entry when it fails. -/
def chdir_calls (dirs : List Nat → Bool) : Option (List Nat) → List Syscall
  | none => []
  | some d =>
    if dirs (c_string d) then [.chdir (c_string d)]
    else [.chdir (c_string d), .log_error "%s: spawn: failed to change directory: %s"]

/-- The calls a state transformer issues when started in `os`. -/
def calls (f : OS → OS) (os : OS) : List Syscall :=
  (f os).trace.drop os.trace.length

/-- The calls issued when `step` is applied to the entries of a list one after
the other, in list order. -/
def seq_calls {α : Type} (step : α → OS → OS) : List α → OS → List Syscall
  | [], _ => []
  | a :: rest, os => calls (step a) os ++ seq_calls step rest (step a os)

/-- The state reached when `step` has been applied to the entries of a list
one after the other, in list order. -/
def apply_entries {α : Type} (step : α → OS → OS) : List α → OS → OS
  | [], os => os
  | a :: rest, os => apply_entries step rest (step a os)

/-- The calls the specification's `close_others` step issues when started in
`os`: none when the option is absent. -/
def close_others_calls (close_others : Option Bool) (os : OS) : List Syscall :=
  match close_others with
  | none => []
  | some _ => calls close_others_step os

/-- The set-or-unset of one `env` pair. -/
def env_entry (kv : List Nat × Option (List Nat)) (os : OS) : OS :=
  match kv.2 with
  | none => unsetenv (c_string kv.1) os
  | some v => setenv (c_string kv.1) (c_string v) 1 os

/-- The open-and-duplicate of one `assign_fd` entry. -/
def assign_entry (a : AssignFd) (os : OS) : OS :=
  let o := open_with_cloexec (c_string a.path) a.mode a.perm os
  redirect_file_descriptor a.fd o.1 o.2

/-- The source descriptor of a `redirect_fd` pair with second component `to`. -/
def redirect_source (to_ : Int) : Int :=
  if to_ < 0 then -to_ + 1 else to_

/-- The duplicate of one `redirect_fd` pair `(from, to)`. -/
def redirect_entry (p : Int × Int) (os : OS) : OS :=
  redirect_file_descriptor p.1 (redirect_source p.2) os

/-! ## The parent side of the error channel -/

/-- The loop
`while((size = read(errors[0], &error_no, sizeof(int))) < 0) { switch(errno) { case EAGAIN: case EINTR: continue; default: logger::error(...); break; } }`
of `vm_spawn` and `vm_backtick`: the `break` leaves the `switch`, after which
the loop condition is evaluated again. The result is `size` and `error_no`. -/
def read_error_channel (msg : String) (fd : Int) : Nat → OS → Run ((Nat × Int) × OS)
  | 0, _ => .outOfFuel
  | fuel + 1, os =>
    match read fd os with
    | (.bytes size error_no, os1) => .ok ((size, error_no), os1)
    | (.error errno, os1) =>
      if errno = EAGAIN ∨ errno = EINTR then read_error_channel msg fd fuel os1
      else read_error_channel msg fd fuel (os1.emit (.log_error msg))

/-- The parent branch of `System::vm_spawn` (after `fork_exec` returned
`pid > 0`), with `errors` the two ends of the error-channel pipe: the value
returned or the exception raised, and the state of the process. -/
def vm_spawn_parent (fuel : Nat) (pid : Int) (errors0 errors1 : Int) (os : OS) :
    Run (Except Exn Object × OS) :=
  let os1 := (close errors1 os).2
  let os2 := os1.emit (.log_write "spawn: %d: %s, %s, %s:%d")
  match read_error_channel "%s: spawn: reading error status" errors0 fuel os2 with
  | .undefined => .undefined
  | .outOfFuel => .outOfFuel
  | .ok ((size, error_no), os3) =>
    let os4 := (close errors0 os3).2
    if size ≠ 0 then .ok (.error (.errno_error "execvp(2) failed" error_no), os4)
    else .ok (.ok (.fixnum pid), os4)

/-! ## Sample inputs -/

/-- A process with the three standard streams open, three free descriptor
slots, a file system in which every path opens file 1, and an error channel
that is at end-of-file. -/
def sample_os : OS :=
  { fds := [some ⟨0, 0⟩, some ⟨0, 0⟩, some ⟨0, 0⟩, none, none, none]
    dirs := fun _ => true
    files := fun _ => some 1
    reads := fun _ => .bytes 0 0
    reads_done := 0
    max_descriptors := 6
    trace := [] }

/-- A configuration whose only option is one `assign_fd` entry: open the path
`out` on descriptor 1. -/
def sample_assign_config : SpawnConfig :=
  { env := none
    pgroup := none
    umask := none
    chdir := none
    close_others := none
    assign_fd := some [⟨1, [111, 117, 116], 1, 420⟩]
    redirect_fd := none }

/-- A configuration that marks the other descriptors close-on-exec and
redirects descriptor 2 to descriptor 1 and descriptor 4 to descriptor 0. -/
def sample_redirect_config : SpawnConfig :=
  { env := none
    pgroup := none
    umask := none
    chdir := none
    close_others := some true
    assign_fd := none
    redirect_fd := some [(2, 1), (4, 0)] }

/-- The `errno` value `EIO`. -/
def EIO : Int := 5

/-- The `errno` value `ENOENT`. -/
def ENOENT : Int := 2

/-- A parent process right after `fork_exec`: the standard streams, the read
end of the error channel on descriptor 3 and its write end on descriptor 4,
with the given results in store for the reads of the channel. -/
def sample_parent_os (reads : Nat → ReadResult) : OS :=
  { fds := [some ⟨0, 0⟩, some ⟨0, 0⟩, some ⟨0, 0⟩, some ⟨7, 0⟩, some ⟨7, 1⟩]
    dirs := fun _ => true
    files := fun _ => none
    reads := reads
    reads_done := 0
    max_descriptors := 5
    trace := [] }

/-! ## The process: signals, children, cancellation -/

/-- The number of signals, `NSIG` of `<signal.h>` (its value on Linux). -/
def NSIG : Nat := 65

/-- The signal number `SIGHUP`. -/
def SIGHUP : Nat := 1

/-- The signal number `SIGINT`. -/
def SIGINT : Nat := 2

/-- The signal number `SIGQUIT`. -/
def SIGQUIT : Nat := 3

/-- The signal number `SIGKILL`. -/
def SIGKILL : Nat := 9

/-- The signal number `SIGSTOP`. -/
def SIGSTOP : Nat := 19

/-- The `waitpid` option `WNOHANG`. -/
def WNOHANG : Int := 1

/-- The `errno` value `ECHILD`. -/
def ECHILD : Int := 10

/-- The `errno` value `EINVAL`. -/
def EINVAL : Int := 22

/-- The `sigaction` flag `SA_RESTART`. -/
def SA_RESTART : Int := 268435456

/-- The signal set `sigfillset` builds: every signal number. -/
def sigfillset : List Nat :=
  List.range' 1 (NSIG - 1)

/-- The signals whose disposition the kernel refuses to change. -/
def uncatchable (sig : Nat) : Bool :=
  sig == SIGKILL || sig == SIGSTOP

/-- What one `waitpid` gives: the value returned with the content of `status`
afterwards, or `-1` with an `errno`. -/
inductive WaitResult where
  | returned (pid : Int) (status : Nat)
  | failed (errno : Int)
  deriving Repr, DecidableEq

/-- What one `read` of the output pipe gives: the bytes delivered (none at
end-of-file), or `-1` with an `errno`. -/
inductive OutputRead where
  | data (bytes : List Nat)
  | failed (errno : Int)
  deriving Repr, DecidableEq

/-- The state of the process: the kernel's view of it (`os`), the value of
`errno`, the disposition of every signal, the handlers registered for `exit`
(in the order they will run), and what the environment has in store: the
results of the `waitpid` calls, of the `check_async` calls (`true`: no
interrupt is pending) and of the reads of the output pipe. -/
structure Proc where
  os : OS
  errno : Int
  signals : Nat → Sigaction
  exit_handlers : List Nat
  waits : Nat → WaitResult
  waits_done : Nat
  asyncs : Nat → Bool
  asyncs_done : Nat
  outputs : Nat → OutputRead
  outputs_done : Nat

/-- Appends a call to the trace of the process. -/
def Proc.emit (p : Proc) (c : Syscall) : Proc :=
  { p with os := p.os.emit c }

/-- A call into the VM. -/
def Proc.hook (p : Proc) (h : Hook) : Proc :=
  p.emit (.hook h)

/-- The call `close(fd)` in a process; a failure sets `errno`. -/
def Proc.close (p : Proc) (fd : Int) : Proc :=
  let r := Rubinius.close fd p.os
  if r.1 < 0 then { p with os := r.2, errno := EBADF } else { p with os := r.2 }

/-- The call `sigaction(sig, &act, &oldact)`: the value returned, the old
disposition stored in `oldact` on success, and the process afterwards. The call
fails with `EINVAL` for a number that is not a signal and for a signal whose
disposition cannot be changed. -/
def sigaction (sig : Nat) (act : Sigaction) (p : Proc) : Int × Option Sigaction × Proc :=
  if sig = 0 ∨ NSIG ≤ sig ∨ uncatchable sig = true then
    (-1, none, { p.emit (.sigaction sig act) with errno := EINVAL })
  else
    (0, some (p.signals sig),
      { p.emit (.sigaction sig act) with
        signals := fun s => if s = sig then act else p.signals s })

/-- The call `signal(sig, handler)`: the handler that was installed, and the
process afterwards. The new disposition is the one the C library installs for
`signal`: the handler with `SA_RESTART` and the signal itself blocked. -/
def signal (sig : Nat) (handler : Handler) (p : Proc) : Handler × Proc :=
  if sig = 0 ∨ NSIG ≤ sig ∨ uncatchable sig = true then
    (.SIG_ERR, { p.emit (.signal sig handler) with errno := EINVAL })
  else
    ((p.signals sig).sa_handler,
      { p.emit (.signal sig handler) with
        signals := fun s =>
          if s = sig then { sa_handler := handler, sa_flags := SA_RESTART, sa_mask := [sig] }
          else p.signals s })

/-- The call `waitpid(pid, &status, options)`: the value returned, the content
of `status` afterwards, and the process afterwards. -/
def waitpid (pid options : Int) (p : Proc) : Int × Nat × Proc :=
  match p.waits p.waits_done with
  | .returned r status =>
    (r, status, { p.emit (.waitpid pid options) with waits_done := p.waits_done + 1 })
  | .failed e =>
    (-1, 0, { p.emit (.waitpid pid options) with waits_done := p.waits_done + 1, errno := e })

/-- The call `state->check_async(state)`. Modelled from the spec: the function is
declared outside `src/`; it answers `false` when an interrupt is pending and
`true` when nothing is pending. The answers are given by the environment. -/
def check_async (p : Proc) : Bool × Proc :=
  (p.asyncs p.asyncs_done, { p.emit .check_async with asyncs_done := p.asyncs_done + 1 })

/-- The call `read(fd, raw_buf, count)` on the output pipe: the value returned,
the bytes stored in `raw_buf`, and the process afterwards. -/
def read_output (fd : Int) (count : Nat) (p : Proc) : Int × List Nat × Proc :=
  match p.os.descriptor fd with
  | none => (-1, [], { p.emit (.read_output fd count) with errno := EBADF })
  | some _ =>
    match p.outputs p.outputs_done with
    | .data bytes =>
      (((bytes.take count).length : Nat), bytes.take count,
        { p.emit (.read_output fd count) with outputs_done := p.outputs_done + 1 })
    | .failed e =>
      (-1, [], { p.emit (.read_output fd count) with
                 outputs_done := p.outputs_done + 1, errno := e })

/-- The call `write(fd, buf, n)` on a pipe, `bytes` being the `n` bytes at
`buf`: all of them are written at once. -/
def write (fd : Int) (bytes : List Nat) (p : Proc) : Int × Proc :=
  match p.os.descriptor fd with
  | none => (-1, { p.emit (.write fd bytes) with errno := EBADF })
  | some _ => ((bytes.length : Nat), p.emit (.write fd bytes))

/-- The call `exit(status)`: the handlers registered for `exit` run, then the
process ends. The result is the process as it ended. -/
def exit (status : Int) (p : Proc) : Proc :=
  (p.exit_handlers.foldl (fun q h => q.emit (.exit_handler h)) p).emit (.exit status)

/-- The call `fork()` as the calling process sees it return: `ret` is the value
returned and `err` the `errno` of a failure. -/
def fork (ret err : Int) (p : Proc) : Int × Proc :=
  (ret, if ret = -1 then { p.emit .fork with errno := err } else p.emit .fork)

/-- The macro `CBOOL`. Modelled from the spec: the macro is declared outside
`src/`; every object but nil and false counts as true. -/
def CBOOL : Object → Bool
  | .cNil => false
  | .cFalse => false
  | _ => true

/-! ### The error code on the channel -/

/-- The four bytes of an `int` in memory (least significant first). -/
def int_bytes (e : Int) : List Nat :=
  let u := (e % 4294967296).toNat
  [u % 256, u / 256 % 256, u / 65536 % 256, u / 16777216 % 256]

/-- The `int` that four bytes in memory hold. -/
def bytes_int (bs : List Nat) : Int :=
  let u := bs.getD 0 0 + 256 * bs.getD 1 0 + 65536 * bs.getD 2 0 + 16777216 * bs.getD 3 0
  if u < 2147483648 then (u : Int) else (u : Int) - 4294967296

/-- The bytes the calls of a trace wrote to descriptor `fd`. -/
def written_to (fd : Int) : List Syscall → List Nat
  | [] => []
  | .write f bytes :: rest => if f = fd then bytes ++ written_to fd rest else written_to fd rest
  | _ :: rest => written_to fd rest

/-- What `read(errors[0], &error_no, sizeof(int))` delivers from a pipe that
holds `content` and whose write end is closed: as many bytes as there are, up
to `sizeof(int)`, stored in `error_no`. -/
def pipe_read (content : List Nat) : ReadResult :=
  .bytes (min 4 content.length) (bytes_int (content.take 4))

/-- The end of the forked child of `vm_spawn` and `vm_backtick` once `exec` has
returned: log, write `errno` to the error channel, close it, `exit(1)`. The two
messages are the ones of the launcher. The result is the process as it ended. -/
def child_exec_failed (exec_msg write_msg : String) (errors1 : Int) (p : Proc) : Proc :=
  let p1 := p.emit (.log_error exec_msg)
  let error_no := p1.errno
  let w := write errors1 (int_bytes error_no) p1
  let p2 := if w.1 < 0 then w.2.emit (.log_error write_msg) else w.2
  let p3 := p2.close errors1
  exit 1 p3

/-- The end of the child of `vm_spawn` after a failed `exec`. -/
def vm_spawn_child_exec_failed (errors1 : Int) (p : Proc) : Proc :=
  child_exec_failed "%s: spawn: exec failed: %s" "%s: spawn: writing error status" errors1 p

/-- The end of the child of `vm_backtick` after a failed `exec`. -/
def vm_backtick_child_exec_failed (errors1 : Int) (p : Proc) : Proc :=
  child_exec_failed "%s: backtick: exec failed: %s" "%s: backtick: writing error status"
    errors1 p

/-! ### `vm_exec` -/

/-- The signal numbers the loops `for(int i = 1; i < NSIG; i++)` visit. -/
def signal_numbers : List Nat :=
  List.range' 1 (NSIG - 1)

/-- The disposition the launchers install before `exec`: `SIG_DFL`, no flags,
every signal blocked. -/
def default_action : Sigaction :=
  { sa_handler := .SIG_DFL, sa_flags := 0, sa_mask := sigfillset }

/-- The first loop of `vm_exec`: every signal is reset to the default
disposition and the handler found is stored in `old_handlers[i]`. When
`sigaction` fails `old_action` is not written and `old_handlers[i]` receives
whatever the local held, `junk`. -/
def reset_signals (junk : Handler) : List Nat → (Nat → Handler) → Proc → (Nat → Handler) × Proc
  | [], old_handlers, p => (old_handlers, p)
  | i :: rest, old_handlers, p =>
    let r := sigaction i default_action p
    let old_handler :=
      match r.2.1 with
      | some old_action => old_action.sa_handler
      | none => junk
    reset_signals junk rest (fun s => if s = i then old_handler else old_handlers s) r.2.2

/-- The second loop of `vm_exec`: `old_handlers[i]` is installed again, with no
flags and every signal blocked. -/
def restore_signals (old_handlers : Nat → Handler) : List Nat → Proc → Proc
  | [], p => p
  | i :: rest, p =>
    restore_signals old_handlers rest
      (sigaction i { sa_handler := old_handlers i, sa_flags := 0, sa_mask := sigfillset }
        p).2.2

/-- How a call of `vm_exec` ends: the process image was replaced by the `exec`
call, or the call raised. -/
inductive ExecOutcome where
  | replaced (call : Exec) (p : Proc)
  | raised (e : Exn) (p : Proc)

/-- The function `System::vm_exec(state, path, args)`. `exec_errno` says what
the kernel does with the `exec` call: `none` when it replaces the image, the
`errno` of the failure otherwise; `junk` is the content of uninitialised
locals. The fork/exec lock is released when the `LockGuard` goes out of scope. -/
def vm_exec (fuel : Nat) (junk : Handler) (path : List Nat) (args : List Object)
    (exec_errno : Option Int) (p : Proc) : Run ExecOutcome :=
  match ExecCommand.from_command_args path args with
  | .error e => .ok (.raised e p)
  | .ok exe =>
    let p1 := p.emit (.log_write "exec: %s, %s, %s:%d")
    let p2 := p1.hook .lock_fork_exec
    let p3 := p2.hook .before_exec
    let r := reset_signals junk signal_numbers (fun _ => junk) p3
    let old_handlers := r.1
    match launch_exec fuel exe with
    | .undefined => .undefined
    | .outOfFuel => .outOfFuel
    | .ok sh =>
      match sh.call, exec_errno with
      | some call, none => .ok (.replaced call (r.2.emit (.exec call)))
      | call, _ =>
        -- the `exec` call, if any, has returned
        let p4 :=
          match call, exec_errno with
          | some c, some e => { r.2.emit (.exec c) with errno := e }
          | _, _ => r.2
        let erno := p4.errno
        let p5 := restore_signals old_handlers signal_numbers p4
        let p6 := p5.hook .after_exec
        let p7 := p6.hook .unlock_fork_exec
        .ok (.raised (.errno_error "execvp(2) failed" erno) p7)

/-! ### `vm_fork` -/

/-- The function `System::vm_fork(state)`, as the process in which `fork()`
returned `ret` runs it (`err` is the `errno` of a failed `fork`). An
`errno` error raised without an explicit number carries the current `errno`. -/
def vm_fork (ret err : Int) (p : Proc) : Except Exn Object × Proc :=
  let p1 := p.hook .lock_fork_exec
  let p2 := p1.hook .before_fork
  let p3 := p2.hook .lock_phase_enter
  let f := fork ret err p3
  let pid := f.1
  let p4 :=
    if pid = 0 then f.2.hook .vm_after_fork_child
    else if pid > 0 then f.2.hook .after_fork_parent
    else f.2
  let p5 := (p4.hook .lock_phase_leave).hook .unlock_fork_exec
  let p6 := if pid > 0 then p5.emit (.log_write "fork: child: %d, %s, %s:%d") else p5
  if pid = 0 then
    (.ok .cNil,
      ((p6.hook .thread_init_lock).hook .shared_after_fork_child).hook .threads_after_fork_child)
  else if pid = -1 then (.error (.errno_error "fork(2) failed" p6.errno), p6)
  else (.ok (.fixnum pid), p6)

/-! ### `vm_wait_pid` -/

/-- The macro `WTERMSIG` of `<sys/wait.h>` (C library definition). -/
def WTERMSIG (status : Nat) : Nat :=
  status &&& 0x7f

/-- The macro `WEXITSTATUS` of `<sys/wait.h>` (C library definition). -/
def WEXITSTATUS (status : Nat) : Nat :=
  (status &&& 0xff00) >>> 8

/-- The macro `WSTOPSIG` of `<sys/wait.h>` (C library definition). -/
def WSTOPSIG (status : Nat) : Nat :=
  WEXITSTATUS status

/-- The macro `WIFEXITED` of `<sys/wait.h>` (C library definition). -/
def WIFEXITED (status : Nat) : Bool :=
  WTERMSIG status == 0

/-- The macro `WIFSIGNALED` of `<sys/wait.h>`,
`((signed char) ((status & 0x7f) + 1) >> 1) > 0`. -/
def WIFSIGNALED (status : Nat) : Bool :=
  let t := (status &&& 0x7f) + 1
  let signed_char : Int := if t < 128 then (t : Int) else (t : Int) - 256
  decide (signed_char / 2 > 0)

/-- The macro `WIFSTOPPED` of `<sys/wait.h>` (C library definition). -/
def WIFSTOPPED (status : Nat) : Bool :=
  (status &&& 0xff) == 0x7f

/-- The tuple `vm_wait_pid` builds from the wait status and the pid. -/
def wait_tuple (status : Nat) (pid : Int) : Object :=
  let output := if WIFEXITED status then Object.fixnum (WEXITSTATUS status) else .cNil
  let termsig :=
    if WIFEXITED status then Object.cNil
    else if WIFSIGNALED status then .fixnum (WTERMSIG status) else .cNil
  let stopsig :=
    if WIFEXITED status then Object.cNil
    else if WIFSIGNALED status then .cNil
    else if WIFSTOPPED status then .fixnum (WSTOPSIG status) else .cNil
  .tuple [output, termsig, stopsig, .fixnum pid]

/-- One turn of `System::vm_wait_pid` from the label `retry` to the tests on
`pid`: the three signals are ignored, `waitpid` runs in the unmanaged phase,
the three handlers are put back. The result is `pid`, `status` and the process
afterwards. -/
def wait_attempt (input_pid options : Int) (p : Proc) : Int × Nat × Proc :=
  let s1 := signal SIGHUP .SIG_IGN p
  let hup_func := s1.1
  let s2 := signal SIGQUIT .SIG_IGN s1.2
  let quit_func := s2.1
  let s3 := signal SIGINT .SIG_IGN s2.2
  let int_func := s3.1
  let w := waitpid input_pid options (s3.2.hook .unmanaged_enter)
  let pid := w.1
  let status := w.2.1
  let p1 := w.2.2.hook .unmanaged_leave
  let p2 := (signal SIGHUP hup_func p1).2
  let p3 := (signal SIGQUIT quit_func p2).2
  let p4 := (signal SIGINT int_func p3).2
  (pid, status, p4)

/-- The body of `System::vm_wait_pid` from the label `retry` on; a `goto retry`
is one more turn. The result is the object returned, `none` for `NULL`. -/
def vm_wait_pid_retry (input_pid options : Int) (no_hang : Object) :
    Nat → Proc → Run (Option Object × Proc)
  | 0, _ => .outOfFuel
  | fuel + 1, p =>
    let a := wait_attempt input_pid options p
    let pid := a.1
    let status := a.2.1
    let p4 := a.2.2
    if pid = -1 then
      if p4.errno = ECHILD then .ok (some .cFalse, p4)
      else if p4.errno = EINTR then
        let c := check_async p4
        if !c.1 then .ok (none, c.2)
        else vm_wait_pid_retry input_pid options no_hang fuel c.2
      else .ok (some .cFalse, p4)
    else if CBOOL no_hang && pid = 0 then .ok (some .cNil, p4)
    else .ok (some (wait_tuple status pid), p4)

/-- The options `vm_wait_pid` passes to `waitpid`. -/
def wait_options (no_hang : Object) : Int :=
  if CBOOL no_hang then Int.lor 0 WNOHANG else 0

/-- The function `System::vm_wait_pid(state, pid_obj, no_hang)`. -/
def vm_wait_pid (fuel : Nat) (pid_obj : Int) (no_hang : Object) (p : Proc) :
    Run (Option Object × Proc) :=
  vm_wait_pid_retry pid_obj (wait_options no_hang) no_hang fuel p

/-- Replays the calls of a trace from the handlers `hup`, `quit`, `int` of
`SIGHUP`, `SIGQUIT` and `SIGINT`, and says whether the three handlers were
`SIG_IGN` at every `waitpid`. -/
def ignored_at_waits : Handler → Handler → Handler → List Syscall → Bool
  | _, _, _, [] => true
  | hup, quit, int, .signal sig h :: rest =>
    if sig = SIGHUP then ignored_at_waits h quit int rest
    else if sig = SIGQUIT then ignored_at_waits hup h int rest
    else if sig = SIGINT then ignored_at_waits hup quit h rest
    else ignored_at_waits hup quit int rest
  | hup, quit, int, .waitpid _ _ :: rest =>
    hup == .SIG_IGN && quit == .SIG_IGN && int == .SIG_IGN && ignored_at_waits hup quit int rest
  | hup, quit, int, _ :: rest => ignored_at_waits hup quit int rest

/-! ### The parent side of `vm_backtick` -/

/-- The loop of `vm_backtick` that reads the output pipe, with `buf` the bytes
accumulated so far. The result is the object returned (`none` for `NULL`) or
the exception raised. `String::create(state, buf.c_str(), buf.size())` is
declared outside `src/`; it is taken to make the string of the `buf.size()`
bytes it is given. -/
def backtick_read_output (pid output0 : Int) :
    Nat → List Nat → Proc → Run (Except Exn (Option Object) × Proc)
  | 0, _, _ => .outOfFuel
  | fuel + 1, buf, p =>
    let r := read_output output0 1023 (p.hook .unmanaged_enter)
    let bytes := r.1
    let raw_buf := r.2.1
    let p1 := r.2.2.hook .unmanaged_leave
    if bytes < 0 then
      if p1.errno = EAGAIN ∨ p1.errno = EINTR then
        let a := check_async p1
        if !a.1 then .ok (.ok none, a.2.close output0)
        else backtick_read_output pid output0 fuel buf a.2
      else
        let p2 := p1.close output0
        .ok (.error (.errno_error "reading child data" p2.errno), p2)
    else if bytes = 0 then
      .ok (.ok (some (.tuple [.fixnum pid, .string buf])), p1.close output0)
    else backtick_read_output pid output0 fuel (buf ++ raw_buf) p1

/-- The parent branch of `System::vm_backtick` (after `fork_exec` returned
`pid > 0`), with `errors` the ends of the error-channel pipe and `output` the
ends of the output pipe. -/
def vm_backtick_parent (fuel : Nat) (pid errors0 errors1 output0 output1 : Int) (p : Proc) :
    Run (Except Exn (Option Object) × Proc) :=
  let p1 := (p.close errors1).close output1
  let p2 := p1.emit (.log_write "backtick: %d: %s, %s, %s:%d")
  match read_error_channel "%s: backtick: reading error status" errors0 fuel p2.os with
  | .undefined => .undefined
  | .outOfFuel => .outOfFuel
  | .ok ((size, error_no), os3) =>
    let p3 : Proc := { p2 with os := os3 }
    let p4 := p3.close errors0
    if size ≠ 0 then
      .ok (.error (.errno_error "execvp(2) failed" error_no), p4.close output0)
    else backtick_read_output pid output0 fuel [] p4

/-! ### Sample processes -/

/-- A process around the kernel state `os`: `errno` 0, every signal at its
default disposition except `SIGINT`, which has handler 1 installed with
`SA_RESTART` and an empty mask, and handler 7 registered for `exit`. -/
def sample_proc (os : OS) (waits : Nat → WaitResult) (asyncs : Nat → Bool)
    (outputs : Nat → OutputRead) : Proc :=
  { os := os
    errno := 0
    signals := fun s =>
      if s = SIGINT then { sa_handler := .fn 1, sa_flags := SA_RESTART, sa_mask := [] }
      else { sa_handler := .SIG_DFL, sa_flags := 0, sa_mask := [] }
    exit_handlers := [7]
    waits := waits
    waits_done := 0
    asyncs := asyncs
    asyncs_done := 0
    outputs := outputs
    outputs_done := 0 }

/-- A backtick parent right after `fork_exec`: the error channel on descriptors
3 (read end) and 4 (write end), the output pipe on 5 (read end) and 6 (write
end). -/
def sample_backtick_os (reads : Nat → ReadResult) : OS :=
  { fds := [some ⟨0, 0⟩, some ⟨0, 0⟩, some ⟨0, 0⟩, some ⟨7, 0⟩, some ⟨7, 1⟩, some ⟨8, 0⟩,
            some ⟨8, 0⟩]
    dirs := fun _ => true
    files := fun _ => none
    reads := reads
    reads_done := 0
    max_descriptors := 7
    trace := [] }

/-! ## The launchers as a whole -/

/-- The descriptor number `STDOUT_FILENO`. -/
def STDOUT_FILENO : Int := 1

/-- The `errno` value `EMFILE`. -/
def EMFILE : Int := 24

/-- What the kernel decides for one `pipe(fds)`: it creates the pipe (`file`
names the new open file) or refuses with an `errno`. -/
inductive PipeResult where
  | created (file : Nat)
  | failed (errno : Int)
  deriving Repr, DecidableEq

/-- The call `pipe(fds)`: the value returned, the two descriptors stored in
`fds` on success (read end, write end), and the process afterwards. A pipe
takes the two lowest free descriptors; with fewer than two free the call fails
with `EMFILE` and opens nothing. -/
def pipe (r : PipeResult) (p : Proc) : Int × (Int × Int) × Proc :=
  match r with
  | .failed e => (-1, (-1, -1), { p.emit .pipe with errno := e })
  | .created f =>
    match first_free p.os.fds with
    | none => (-1, (-1, -1), { p.emit .pipe with errno := EMFILE })
    | some i =>
      match first_free (p.os.fds.set i (some { file := f, flags := 0 })) with
      | none => (-1, (-1, -1), { p.emit .pipe with errno := EMFILE })
      | some j =>
        (0, ((i : Int), (j : Int)),
          { p with
            os := { p.os.emit .pipe with
                    fds := (p.os.fds.set i (some { file := f, flags := 0 })).set j
                      (some { file := f, flags := 0 }) } })

/-- The function `fork_exec(state, errors_fd)`, as the process in which
`fork()` returned `ret` runs it (`err` is the `errno` of a failed `fork`). The
`LockGuard` releases the fork/exec lock when the function returns. -/
def fork_exec (ret err : Int) (errors_fd : Int) (p : Proc) : Int × Proc :=
  let p1 := p.hook .lock_fork_exec
  let p2 := p1.hook .before_fork_exec
  let p3 : Proc := { p2 with os := (fcntl_setfd errors_fd FD_CLOEXEC p2.os).2 }
  let p4 := p3.hook .become_managed
  let p5 := p4.hook .lock_phase_enter
  let f := fork ret err p5
  let pid := f.1
  let p6 := if pid = 0 then f.2.hook .vm_after_fork_child else f.2
  let p7 := p6.hook .lock_phase_leave
  let p8 := p7.hook .become_unmanaged
  let p9 := if pid > 0 then p8.hook .after_fork_exec_parent else p8
  (pid, p9.hook .unlock_fork_exec)

/-- How a launcher ends in the process that runs it: it returns a value or
raises (`returned`), the process image is replaced by the `exec` call
(`replaced`), or the process ends in `exit` (`exited`). -/
inductive Outcome (α : Type) where
  | returned (r : Except Exn α) (p : Proc)
  | replaced (call : Exec) (p : Proc)
  | exited (p : Proc)

/-- The state of the process in which a launcher ended. -/
def Outcome.proc {α : Type} : Outcome α → Proc
  | .returned _ p => p
  | .replaced _ p => p
  | .exited p => p

/-- The loop of the forked children,
`for(int i = 1; i < NSIG; i++) { ...; sigaction(i, &action, NULL); }`, run over
the signal numbers still to visit. -/
def default_signals : List Nat → Proc → Proc
  | [], p => p
  | i :: rest, p => default_signals rest (sigaction i default_action p).2.2

/-- The end of a forked child once the launcher has issued its `exec` call, if
any: `exec_errno` says what the kernel does with the call (`none` replaces the
image, `some e` fails with `errno` `e`); when the call returns, or when there
was none, the child reports `errno` on the error channel and exits. -/
def child_after_exec {α : Type} (exec_msg write_msg : String) (sh : ShFallback)
    (exec_errno : Option Int) (errors1 : Int) (p : Proc) : Outcome α :=
  match sh.call, exec_errno with
  | some call, none => .replaced call (p.emit (.exec call))
  | some call, some e =>
    .exited (child_exec_failed exec_msg write_msg errors1
      { p.emit (.exec call) with errno := e })
  | none, _ => .exited (child_exec_failed exec_msg write_msg errors1 p)

/-- The block `if(pid == 0) { ... }` of `vm_spawn`: the forked child closes the
read end of the error channel, re-homes the VM locks, applies the configuration,
resets the signals and launches the command. An exception raised while the
configuration is applied leaves the function in the child. -/
def vm_spawn_child (fuel : Nat) (spawn_state : Object) (exe : ExecCommand)
    (exec_errno : Option Int) (errors0 errors1 : Int) (p1 : Proc) : Run (Outcome Object) :=
  let c1 := p1.close errors0
  let c2 := (c1.hook .thread_init_lock).hook .after_fork_exec_child
  match vm_spawn_setup spawn_state c2.os with
  | (os3, some e) => .ok (.returned (.error e) { c2 with os := os3 })
  | (os3, none) =>
    let c3 := default_signals signal_numbers { c2 with os := os3 }
    match launch_exec fuel exe with
    | .undefined => .undefined
    | .outOfFuel => .outOfFuel
    | .ok sh =>
      .ok (child_after_exec "%s: spawn: exec failed: %s"
        "%s: spawn: writing error status" sh exec_errno errors1 c3)

/-- The function `System::vm_spawn(state, spawn_state, path, args)`, as the
process in which `fork()` returned `ret` runs it: `pr` is what the kernel
decides for the `pipe` call, `err` the `errno` of a failed `fork`,
`exec_errno` what the kernel does with the `exec` call of the child. -/
def vm_spawn (fuel : Nat) (spawn_state : Object) (path : List Nat) (args : List Object)
    (pr : PipeResult) (ret err : Int) (exec_errno : Option Int) (p : Proc) :
    Run (Outcome Object) :=
  match ExecCommand.from_command_args path args with
  | .error e => .ok (.returned (.error e) p)
  | .ok exe =>
    let pp := pipe pr p
    if pp.1 ≠ 0 then
      .ok (.returned (.error (.errno_error "error setting up pipes" pp.2.2.errno)) pp.2.2)
    else
      let errors0 := pp.2.1.1
      let errors1 := pp.2.1.2
      let fe := fork_exec ret err errors1 (pp.2.2.hook .unmanaged_enter)
      let pid := fe.1
      let p1 := fe.2.hook .unmanaged_leave
      if pid = -1 then
        let p2 := (p1.close errors0).close errors1
        .ok (.returned (.error (.errno_error "error forking" p2.errno)) p2)
      else if pid = 0 then vm_spawn_child fuel spawn_state exe exec_errno errors0 errors1 p1
      else
        match vm_spawn_parent fuel pid errors0 errors1 p1.os with
        | .undefined => .undefined
        | .outOfFuel => .outOfFuel
        | .ok (r, os2) => .ok (.returned r { p1 with os := os2 })

/-- The block `if(pid == 0) { ... }` of `vm_backtick`: the forked child re-homes
the VM locks, closes the read ends, puts the write end of the output pipe on
the standard output, resets the signals and launches the command. -/
def vm_backtick_child (fuel : Nat) (exe : ExecCommand) (exec_errno : Option Int)
    (errors0 errors1 output0 output1 : Int) (p1 : Proc) : Run (Outcome (Option Object)) :=
  let c1 := (p1.hook .thread_init_lock).hook .after_fork_exec_child
  let c2 := (c1.close errors0).close output0
  let c3 : Proc := { c2 with os := (dup2 output1 STDOUT_FILENO c2.os).2 }
  let c4 := c3.close output1
  let c5 := default_signals signal_numbers c4
  match exec_sh_fallback fuel exe.command_ exe.command_size_ with
  | .undefined => .undefined
  | .outOfFuel => .outOfFuel
  | .ok sh =>
    .ok (child_after_exec "%s: backtick: exec failed: %s"
      "%s: backtick: writing error status" sh exec_errno errors1 c5)

/-- The function `System::vm_backtick(state, str)`, as the process in which
`fork()` returned `ret` runs it: `pr1` and `pr2` are what the kernel decides for
the two `pipe` calls, `err` the `errno` of a failed `fork`, `exec_errno` what
the kernel does with the `exec` call of the child. -/
def vm_backtick (fuel : Nat) (str : List Nat) (pr1 pr2 : PipeResult) (ret err : Int)
    (exec_errno : Option Int) (p : Proc) : Run (Outcome (Option Object)) :=
  let exe := ExecCommand.from_command str
  let pe := pipe pr1 p
  if pe.1 ≠ 0 then
    .ok (.returned (.error (.errno_error "error setting up pipes" pe.2.2.errno)) pe.2.2)
  else
    let po := pipe pr2 pe.2.2
    if po.1 ≠ 0 then
      .ok (.returned (.error (.errno_error "error setting up pipes" po.2.2.errno)) po.2.2)
    else
      let errors0 := pe.2.1.1
      let errors1 := pe.2.1.2
      let output0 := po.2.1.1
      let output1 := po.2.1.2
      let fe := fork_exec ret err errors1 (po.2.2.hook .unmanaged_enter)
      let pid := fe.1
      let p1 := fe.2.hook .unmanaged_leave
      if pid = -1 then
        let p2 := (((p1.close errors0).close errors1).close output0).close output1
        .ok (.returned (.error (.errno_error "error forking" p2.errno)) p2)
      else if pid = 0 then
        vm_backtick_child fuel exe exec_errno errors0 errors1 output0 output1 p1
      else
        match vm_backtick_parent fuel pid errors0 errors1 output0 output1 p1 with
        | .undefined => .undefined
        | .outOfFuel => .outOfFuel
        | .ok (r, q) => .ok (.returned r q)

/-- A process with the three standard streams open and five free descriptor
slots, in which every path opens file 1. -/
def sample_launch_os : OS :=
  { fds := [some ⟨0, 0⟩, some ⟨0, 0⟩, some ⟨0, 0⟩, none, none, none, none, none]
    dirs := fun _ => true
    files := fun _ => some 1
    reads := fun _ => .bytes 0 0
    reads_done := 0
    max_descriptors := 8
    trace := [] }

/-- A configuration whose only option is one `redirect_fd` pair: descriptor 1
is to become a duplicate of descriptor 4. -/
def sample_channel_config : SpawnConfig :=
  { env := none
    pgroup := none
    umask := none
    chdir := none
    close_others := none
    assign_fd := none
    redirect_fd := some [(1, 4)] }

/-! ### The fork/exec lock and the hooks of the thread registry -/

/-- The state of the process in which `vm_exec` ended. -/
def ExecOutcome.proc : ExecOutcome → Proc
  | .replaced _ p => p
  | .raised _ p => p

/-- Replays the calls of a trace and says whether the fork/exec lock was held
at every `fork` and at every change of a signal disposition (`signal`,
`sigaction`); `held` says whether the lock is held where the trace starts. -/
def locked_at_mutations : Bool → List Syscall → Bool
  | _, [] => true
  | held, .hook h :: rest =>
    if h = .lock_fork_exec then locked_at_mutations true rest
    else if h = .unlock_fork_exec then locked_at_mutations false rest
    else locked_at_mutations held rest
  | held, .fork :: rest => held && locked_at_mutations held rest
  | held, .signal _ _ :: rest => held && locked_at_mutations held rest
  | held, .sigaction _ _ :: rest => held && locked_at_mutations held rest
  | held, _ :: rest => locked_at_mutations held rest

/-- A call that neither takes nor releases the fork/exec lock, is not a `fork`
and changes no signal disposition. -/
def quiet_call : Syscall → Bool
  | .hook h => h != .lock_fork_exec && h != .unlock_fork_exec
  | .fork => false
  | .signal _ _ => false
  | .sigaction _ _ => false
  | _ => true

/-- Whether every call of hook `before` in a trace is followed, later in the
trace, by a call of hook `after`. -/
def hook_followed (before after : Hook) : List Syscall → Bool
  | [] => true
  | c :: rest =>
    (c != .hook before || rest.contains (.hook after)) && hook_followed before after rest

/-! ## The hash trie primitives -/

/-- The number of values of a `size_t` (`RBX_SIZEOF_LONG == 8`). -/
def SIZE_RANGE : Nat := 18446744073709551616

/-- The macro `HASH_TRIE_BASE_SHIFT`. -/
def HASH_TRIE_BASE_SHIFT : Nat := 6

/-- The macro `HASH_TRIE_BIT_WIDTH` for `RBX_SIZEOF_LONG == 8`. -/
def HASH_TRIE_BIT_WIDTH : Nat := 6

/-- The macro `HASH_TRIE_BIT_MASK` for `RBX_SIZEOF_LONG == 8`. -/
def HASH_TRIE_BIT_MASK : Nat := 0x3f

/-- The function `hash_trie_bit(hash, level)` with `h` and `l` the native
values of the two Fixnums. The shift count `l * width + base` is computed in
`size_t`; shifting the 64-bit `h` by 64 or more is undefined. The shifted value
is converted to `size_t` for the `&` with the mask. -/
def hash_trie_bit (h l : Int) : Run Nat :=
  let width := HASH_TRIE_BIT_WIDTH
  let mask := HASH_TRIE_BIT_MASK
  let base := HASH_TRIE_BASE_SHIFT
  let result := 1
  let count := ((l % SIZE_RANGE).toNat * width + base) % SIZE_RANGE
  if 64 ≤ count then .undefined
  else .ok ((result <<< (((h >>> count) % SIZE_RANGE).toNat &&& mask)) % SIZE_RANGE)

/-- The function `hash_trie_index(m)` for `RBX_SIZEOF_LONG == 8`; the
arithmetic on the `size_t` `m` is modulo `2^64`. -/
def hash_trie_index (m : Nat) : Nat :=
  let sk5 := 0x5555555555555555
  let sk3 := 0x3333333333333333
  let skf0 := 0x0F0F0F0F0F0F0F0F
  let m1 := (m + SIZE_RANGE - ((m >>> 1) &&& sk5)) % SIZE_RANGE
  let m2 := ((m1 &&& sk3) + ((m1 >>> 2) &&& sk3)) % SIZE_RANGE
  let m3 := ((m2 &&& skf0) + ((m2 >>> 4) &&& skf0)) % SIZE_RANGE
  let m4 := (m3 + (m3 >>> 8)) % SIZE_RANGE
  let m5 := (m4 + (m4 >>> 16)) % SIZE_RANGE
  ((m5 + (m5 >>> 32)) % SIZE_RANGE) &&& 0xFF

/-- The function `System::vm_hash_trie_item_index(state, hash, level, map)`
with `hash` and `level` the native values of the Fixnums and `m` the value
`map->to_ulong()`. -/
def vm_hash_trie_item_index (hash level : Int) (m : Nat) : Run Object :=
  match hash_trie_bit hash level with
  | .undefined => .undefined
  | .outOfFuel => .outOfFuel
  | .ok b =>
    if m &&& b ≠ 0 then .ok (.fixnum (hash_trie_index (((b + SIZE_RANGE - 1) % SIZE_RANGE) &&& m)))
    else .ok .cNil

/-- The number of set bits among the `n` low bits of `m`. -/
def popcount_low : Nat → Nat → Nat
  | 0, _ => 0
  | n + 1, m => m % 2 + popcount_low n (m / 2)

/-- The population count of a 64-bit word: the number of its set bits. -/
def popcount (m : Nat) : Nat :=
  popcount_low 64 m

/-- The number whose `n` low bytes are all `c`. -/
def byte_mask (c : Nat) : Nat → Nat
  | 0 => 0
  | n + 1 => c + 256 * byte_mask c n

/-- The number made of the images under `f` of the `n` low bytes of `m`. -/
def bytes_map (f : Nat → Nat) : Nat → Nat → Nat
  | 0, _ => 0
  | n + 1, m => f (m % 256) + 256 * bytes_map f n (m / 256)

/-- The first step of `hash_trie_index`, `m -= (m >> 1) & sk5`, on one byte. -/
def byte_step1 (b : Nat) : Nat := b - ((b >>> 1) &&& 0x55)

/-- The second step of `hash_trie_index`, `m = (m & sk3) + ((m >> 2) & sk3)`,
on one byte. -/
def byte_step2 (b : Nat) : Nat := (b &&& 0x33) + ((b >>> 2) &&& 0x33)

/-- The third step of `hash_trie_index`, `m = (m & skf0) + ((m >> 4) & skf0)`,
on one byte. -/
def byte_step3 (b : Nat) : Nat := (b &&& 0x0F) + ((b >>> 4) &&& 0x0F)

/-! # Theorems -/

theorem cstr_append_nul (pre cmd tail : List Nat) (h0 : 0 ∉ cmd) :
    cstr (pre ++ cmd ++ 0 :: tail) pre.length = cmd := by
  unfold cstr
  rw [List.append_assoc, List.drop_left]
  induction cmd with
  | nil => simp [List.takeWhile]
  | cons c cs ih =>
    have hc0 : c ≠ 0 := fun h => h0 (by simp [h])
    have h0' : 0 ∉ cs := fun h => h0 (by simp [h])
    rw [List.cons_append, List.takeWhile_cons_of_pos (by simpa using hc0), ih h0']

theorem getElem?_at_length (pre t : List Nat) (c : Nat) :
    (pre ++ c :: t)[pre.length]? = some c := by
  rw [List.getElem?_append_right (Nat.le_refl _)]
  simp

theorem set_at_length (pre t : List Nat) (c x : Nat) :
    (pre ++ c :: t).set pre.length x = pre ++ x :: t := by
  rw [List.set_append]
  simp

theorem skip_spaces_spec (s_end : Nat) (tail : List Nat) :
    ∀ (k : Nat) (pre : List Nat) (fuel : Nat), k < fuel →
      (pre.length + k = s_end ∨
        (pre.length + k < s_end ∧ ∃ c t, tail = c :: t ∧ c ≠ SPACE)) →
      skip_spaces fuel (pre ++ (List.replicate k SPACE ++ tail)) s_end pre.length
        = .ok (pre ++ (List.replicate k 0 ++ tail), pre.length + k) := by
  intro k
  induction k with
  | zero =>
    intro pre fuel hf h
    obtain ⟨f, rfl⟩ : ∃ f, fuel = f + 1 := ⟨fuel - 1, by omega⟩
    rcases h with h | ⟨h, c, t, rfl, hc⟩
    · have : ¬ pre.length < s_end := by omega
      simp [skip_spaces, this]
    · have h' : pre.length < s_end := by omega
      simp only [skip_spaces, if_pos h', List.replicate_zero, List.nil_append,
        getElem?_at_length, if_neg hc, Nat.add_zero]
  | succ k ih =>
    intro pre fuel hf h
    obtain ⟨f, rfl⟩ : ∃ f, fuel = f + 1 := ⟨fuel - 1, by omega⟩
    have h' : pre.length < s_end := by omega
    have hrec := ih (pre ++ [0]) f (by omega) (by
      rcases h with h | ⟨h, c⟩
      · left; simp; omega
      · right; exact ⟨by simp; omega, c⟩)
    simp only [skip_spaces, if_pos h', List.replicate_succ, List.cons_append,
      getElem?_at_length, if_true, set_at_length]
    simp only [List.length_append, List.length_singleton, List.append_assoc,
      List.singleton_append] at hrec
    rw [hrec, Nat.add_assoc, Nat.add_comm 1 k]

theorem skip_token_spec (s_end : Nat) (tail : List Nat) :
    ∀ (tok pre : List Nat) (fuel : Nat), tok.length < fuel → SPACE ∉ tok →
      (pre.length + tok.length = s_end ∨
        (pre.length + tok.length < s_end ∧ ∃ t, tail = SPACE :: t)) →
      skip_token fuel (pre ++ (tok ++ tail)) s_end pre.length
        = .ok (pre.length + tok.length) := by
  intro tok
  induction tok with
  | nil =>
    intro pre fuel hf _ h
    obtain ⟨f, rfl⟩ : ∃ f, fuel = f + 1 := ⟨fuel - 1, by omega⟩
    rcases h with h | ⟨h, t, rfl⟩
    · have : ¬ pre.length < s_end := by simp at h; omega
      simp [skip_token, this]
    · have h' : pre.length < s_end := by simp at h; omega
      simp only [skip_token, if_pos h', List.nil_append, getElem?_at_length, ne_eq,
        not_true_eq_false, if_false, List.length_nil, Nat.add_zero]
  | cons c cs ih =>
    intro pre fuel hf hs h
    obtain ⟨f, rfl⟩ : ∃ f, fuel = f + 1 := ⟨fuel - 1, by simp at hf; omega⟩
    have hc : c ≠ SPACE := fun e => hs (by simp [e])
    have hs' : SPACE ∉ cs := fun e => hs (by simp [e])
    have h' : pre.length < s_end := by simp at h; omega
    have hrec := ih (pre ++ [c]) f (by simp at hf; omega) hs' (by
      rcases h with h | ⟨h, t⟩
      · left; simp at h ⊢; omega
      · right; exact ⟨by simp at h ⊢; omega, t⟩)
    simp only [skip_token, if_pos h', List.cons_append, getElem?_at_length, ne_eq, hc,
      not_false_eq_true, if_true]
    simp only [List.length_append, List.length_singleton, List.append_assoc,
      List.singleton_append] at hrec
    rw [hrec, List.length_cons, Nat.add_assoc, Nat.add_comm 1]

theorem maximal_runs_nil : maximal_runs [] = [] := by decide

theorem maximal_runs_space_cons (l : List Nat) :
    maximal_runs (SPACE :: l) = maximal_runs l := by
  simp [maximal_runs, List.splitOnP_cons]

theorem maximal_runs_replicate_append (k : Nat) (l : List Nat) :
    maximal_runs (List.replicate k SPACE ++ l) = maximal_runs l := by
  induction k with
  | zero => simp
  | succ k ih => rw [List.replicate_succ, List.cons_append, maximal_runs_space_cons, ih]

theorem maximal_runs_token (tok : List Nat) (hs : SPACE ∉ tok) (hne : tok ≠ []) :
    maximal_runs tok = [tok] := by
  have h : ∀ x ∈ tok, ¬ (fun c => c == SPACE) x = true := by
    intro x hx hx'
    have : x = SPACE := by simpa using hx'
    exact hs (this ▸ hx)
  unfold maximal_runs
  rw [List.splitOnP_eq_single _ _ h]
  cases tok with
  | nil => exact absurd rfl hne
  | cons a t => simp

theorem maximal_runs_token_space (tok l : List Nat) (hs : SPACE ∉ tok) (hne : tok ≠ []) :
    maximal_runs (tok ++ SPACE :: l) = tok :: maximal_runs l := by
  have h : ∀ x ∈ tok, ¬ (fun c => c == SPACE) x = true := by
    intro x hx hx'
    have : x = SPACE := by simpa using hx'
    exact hs (this ▸ hx)
  unfold maximal_runs
  rw [List.splitOnP_first _ _ h SPACE (by simp)]
  cases tok with
  | nil => exact absurd rfl hne
  | cons a t => simp

theorem nul_spaces_replicate (k : Nat) : nul_spaces (List.replicate k SPACE) = List.replicate k 0 := by
  simp [nul_spaces]

theorem nul_spaces_token (tok : List Nat) (hs : SPACE ∉ tok) : nul_spaces tok = tok := by
  unfold nul_spaces
  conv_rhs => rw [← List.map_id tok]
  apply List.map_congr_left
  intro a ha
  have : a ≠ SPACE := fun e => hs (e ▸ ha)
  simp [this]

theorem nul_spaces_append (a b : List Nat) : nul_spaces (a ++ b) = nul_spaces a ++ nul_spaces b := by
  simp [nul_spaces]

theorem decompose_spaces (l : List Nat) :
    ∃ k r, l = List.replicate k SPACE ++ r ∧ (r = [] ∨ ∃ c t, r = c :: t ∧ c ≠ SPACE) := by
  induction l with
  | nil => exact ⟨0, [], rfl, Or.inl rfl⟩
  | cons a l ih =>
    by_cases ha : a = SPACE
    · obtain ⟨k, r, hl, hr⟩ := ih
      exact ⟨k + 1, r, by rw [List.replicate_succ, List.cons_append, ← hl, ha], hr⟩
    · exact ⟨0, a :: l, rfl, Or.inr ⟨a, l, rfl, ha⟩⟩

theorem decompose_token (l : List Nat) :
    ∃ tok r, l = tok ++ r ∧ SPACE ∉ tok ∧ (r = [] ∨ ∃ t, r = SPACE :: t) := by
  induction l with
  | nil => exact ⟨[], [], rfl, by simp, Or.inl rfl⟩
  | cons a l ih =>
    by_cases ha : a = SPACE
    · exact ⟨[], a :: l, rfl, by simp, Or.inr ⟨l, by rw [ha]⟩⟩
    · obtain ⟨tok, r, hl, hs, hr⟩ := ih
      refine ⟨a :: tok, r, by rw [List.cons_append, ← hl], ?_, hr⟩
      intro h
      rcases List.mem_cons.1 h with h | h
      · exact ha h.symm
      · exact hs h

theorem cstr_at (D tok tail : List Nat) (h0 : 0 ∉ tok) :
    cstr (D ++ (tok ++ 0 :: tail)) D.length = tok := by
  have := cstr_append_nul D tok tail h0
  simpa using this

theorem cstr_shift (D X : List Nat) (p : Nat) :
    cstr (D ++ X) (D.length + p) = cstr X p := by
  unfold cstr
  rw [List.drop_append]

theorem tokenize_spaces (inner max_spaces s_end : Nat) (k : Nat) (pre args : List Nat)
    (fuel : Nat) (hf : 0 < fuel) (hi : k < inner) (hend : pre.length + k = s_end) :
    tokenize inner max_spaces s_end fuel (pre ++ (List.replicate k SPACE ++ [0])) pre.length args
      = .ok (pre ++ (List.replicate k 0 ++ [0]), args) := by
  obtain ⟨f, rfl⟩ : ∃ f, fuel = f + 1 := ⟨fuel - 1, by omega⟩
  simp only [tokenize, skip_spaces_spec s_end [0] k pre inner hi (Or.inl hend), hend, if_true]

theorem tokenize_spec (inner max_spaces s_end : Nat) (hmax : s_end / 2 + 2 ≤ max_spaces) :
    ∀ (n : Nat) (rest pre : List Nat) (args : List Nat) (fuel : Nat),
      rest.length ≤ n → n < fuel → rest.length < inner →
      pre.length + rest.length = s_end →
      0 ∉ rest →
      2 * args.length ≤ pre.length + 1 →
      (args ≠ [] → rest = [] ∨ ∃ t, rest = SPACE :: t) →
      ∃ ptrs, tokenize inner max_spaces s_end fuel (pre ++ (rest ++ [0])) pre.length args
          = .ok (pre ++ (nul_spaces rest ++ [0]), args ++ ptrs)
        ∧ (∀ D : List Nat, D.length = pre.length →
            ptrs.map (cstr (D ++ (nul_spaces rest ++ [0]))) = maximal_runs rest)
        ∧ 2 * (args ++ ptrs).length ≤ s_end + 1 := by
  intro n
  induction n with
  | zero =>
    intro rest pre args fuel hn hf hi hend _ hidx _
    have hr : rest = [] := List.length_eq_zero.1 (by omega)
    subst hr
    refine ⟨[], ?_, ?_, ?_⟩
    · have := tokenize_spaces inner max_spaces s_end 0 pre args fuel (by omega) (by omega)
        (by simpa using hend)
      simpa [nul_spaces] using this
    · intro D _; simp [maximal_runs_nil]
    · simp at hend ⊢; omega
  | succ n ih =>
    intro rest pre args fuel hn hf hi hend h0 hidx hsp
    obtain ⟨k, r, hrest, hr⟩ := decompose_spaces rest
    subst hrest
    rcases hr with rfl | ⟨c, t, rfl, hc⟩
    · -- only spaces are left
      refine ⟨[], ?_, ?_, ?_⟩
      · have := tokenize_spaces inner max_spaces s_end k pre args fuel (by omega)
          (by simpa using hi) (by simpa using hend)
        simpa [nul_spaces_replicate] using this
      · intro D _; simpa [maximal_runs_nil] using (maximal_runs_replicate_append k []).symm
      · simp at hend ⊢; omega
    · -- a token starts after `k` spaces
      obtain ⟨tok', r2, ht, hs', hr2⟩ := decompose_token t
      subst ht
      obtain ⟨f, rfl⟩ : ∃ f, fuel = f + 1 := ⟨fuel - 1, by omega⟩
      have hlen : pre.length + (k + (1 + tok'.length + r2.length)) = s_end := by
        simp at hend; omega
      have hs : SPACE ∉ c :: tok' := by
        intro h
        rcases List.mem_cons.1 h with h | h
        · exact hc h.symm
        · exact hs' h
      -- the index bound at the store
      have hk : args ≠ [] → 1 ≤ k := by
        intro ha
        rcases hsp ha with h | ⟨t', h⟩
        · simp at h
        · cases k with
          | zero => simp at h; exact absurd h.1 hc
          | succ k => omega
      have hidx' : 2 * args.length ≤ pre.length + k := by
        cases args with
        | nil => simp
        | cons a as => have := hk (by simp); omega
      have hstore : args.length < max_spaces := by omega
      have h1 := skip_spaces_spec s_end (c :: (tok' ++ r2) ++ [0]) k pre inner
        (by simp at hi; omega) (Or.inr ⟨by omega, c, _, rfl, hc⟩)
      have hne : pre.length + k ≠ s_end := by omega
      have h2 := skip_token_spec s_end (r2 ++ [0]) (c :: tok') (pre ++ List.replicate k 0) inner
        (by simp at hi ⊢; omega) hs (by
          rcases hr2 with rfl | ⟨t', rfl⟩
          · left; simp at hlen ⊢; omega
          · right; exact ⟨by simp at hlen ⊢; omega, _, rfl⟩)
      have h0r : 0 ∉ r2 := fun h => h0 (by simp [h])
      have h0t : 0 ∉ c :: tok' := fun h => h0 (by
        rcases List.mem_cons.1 h with h | h
        · simp [h]
        · simp [h])
      obtain ⟨ptrs, hrun, hstr, hbound⟩ := ih r2 (pre ++ List.replicate k 0 ++ (c :: tok'))
        (args ++ [pre.length + k]) f (by simp at hn; omega) (by omega) (by simp at hi; omega)
        (by simp at hlen ⊢; omega) h0r (by simp; omega) (fun _ => hr2)
      refine ⟨(pre.length + k) :: ptrs, ?_, ?_, ?_⟩
      · have e1 : pre ++ (List.replicate k SPACE ++ c :: (tok' ++ r2) ++ [0])
            = pre ++ (List.replicate k SPACE ++ (c :: (tok' ++ r2) ++ [0])) := by simp
        have e2 : pre ++ (List.replicate k 0 ++ (c :: (tok' ++ r2) ++ [0]))
            = (pre ++ List.replicate k 0) ++ ((c :: tok') ++ (r2 ++ [0])) := by simp
        have e3 : (pre ++ List.replicate k 0).length = pre.length + k := by simp
        rw [e3] at h2
        have e4 : (pre ++ List.replicate k 0 ++ c :: tok').length
            = pre.length + k + (c :: tok').length := by simp; omega
        rw [e4] at hrun
        have e5 : pre ++ List.replicate k 0 ++ (c :: tok') ++ (r2 ++ [0])
            = (pre ++ List.replicate k 0) ++ ((c :: tok') ++ (r2 ++ [0])) := by simp
        rw [e5] at hrun
        simp only [tokenize, e1, h1, if_neg hne, if_pos hstore, e2, h2, hrun]
        have e6 : nul_spaces (List.replicate k SPACE ++ c :: (tok' ++ r2))
            = List.replicate k 0 ++ ((c :: tok') ++ nul_spaces r2) := by
          have : List.replicate k SPACE ++ c :: (tok' ++ r2)
              = List.replicate k SPACE ++ ((c :: tok') ++ r2) := by simp
          rw [this, nul_spaces_append, nul_spaces_append, nul_spaces_replicate,
            nul_spaces_token _ hs]
        rw [e6]
        simp
      · intro D hD
        have hnul : nul_spaces (List.replicate k SPACE ++ c :: (tok' ++ r2))
            = List.replicate k 0 ++ ((c :: tok') ++ nul_spaces r2) := by
          have : List.replicate k SPACE ++ c :: (tok' ++ r2)
              = List.replicate k SPACE ++ ((c :: tok') ++ r2) := by simp
          rw [this, nul_spaces_append, nul_spaces_append, nul_spaces_replicate,
            nul_spaces_token _ hs]
        have hz : ∃ tl, nul_spaces r2 ++ [0] = 0 :: tl := by
          rcases hr2 with rfl | ⟨t', rfl⟩
          · exact ⟨[], rfl⟩
          · exact ⟨nul_spaces t' ++ [0], by simp [nul_spaces]⟩
        obtain ⟨tl, htl⟩ := hz
        have hruns : maximal_runs (List.replicate k SPACE ++ c :: (tok' ++ r2))
            = (c :: tok') :: maximal_runs r2 := by
          rw [maximal_runs_replicate_append]
          rcases hr2 with rfl | ⟨t', rfl⟩
          · simpa [maximal_runs_nil] using maximal_runs_token (c :: tok') hs (by simp)
          · simpa using maximal_runs_token_space (c :: tok') t' hs (by simp)
        rw [hruns, List.map_cons]
        congr 1
        · have e : D ++ (nul_spaces (List.replicate k SPACE ++ c :: (tok' ++ r2)) ++ [0])
              = (D ++ List.replicate k 0) ++ ((c :: tok') ++ 0 :: tl) := by
            rw [hnul, ← htl]; simp
          have e' : pre.length + k = (D ++ List.replicate k 0).length := by simp [hD]
          rw [e, e']
          exact cstr_at _ _ _ h0t
        · have := hstr (D ++ List.replicate k 0 ++ (c :: tok')) (by simp [hD])
          rw [← this]
          have e : D ++ (nul_spaces (List.replicate k SPACE ++ c :: (tok' ++ r2)) ++ [0])
              = D ++ List.replicate k 0 ++ c :: tok' ++ (nul_spaces r2 ++ [0]) := by
            rw [hnul]; simp
          rw [e]
      · have : (args ++ (pre.length + k) :: ptrs).length = (args ++ [pre.length + k] ++ ptrs).length := by
          simp
        rw [this]; exact hbound

theorem metachar_props : ∀ c ∈ sh_metachars, c ≠ 0 ∧ c ≠ SPACE ∧ ISALPHA c = false := by
  decide

theorem scan_metachar_true (cmd tail : List Nat) (h0 : 0 ∉ cmd)
    (hm : ∃ c ∈ cmd, c ∈ sh_metachars) : scan_metachar (cmd ++ tail) = .ok true := by
  induction cmd with
  | nil => simp at hm
  | cons c cs ih =>
    have hc0 : c ≠ 0 := fun h => h0 (by simp [h])
    have h0' : 0 ∉ cs := fun h => h0 (by simp [h])
    simp only [List.cons_append, scan_metachar, if_neg hc0]
    by_cases hc : c ∈ sh_metachars
    · obtain ⟨-, h2, h3⟩ := metachar_props c hc
      have : (c != SPACE && !ISALPHA c && strchr sh_metachars c) = true := by
        simp [h2, h3, strchr, hc]
      rw [if_pos this]
    · have hm' : ∃ c ∈ cs, c ∈ sh_metachars := by
        obtain ⟨d, hd, hd'⟩ := hm
        rcases List.mem_cons.1 hd with rfl | hd
        · exact absurd hd' hc
        · exact ⟨d, hd, hd'⟩
      have : ¬ (c != SPACE && !ISALPHA c && strchr sh_metachars c) = true := by
        simp [strchr, hc, hc0]
      rw [if_neg this]
      exact ih h0' hm'

theorem scan_metachar_false (cmd : List Nat) (h0 : 0 ∉ cmd)
    (hm : ∀ c ∈ cmd, c ∉ sh_metachars) : scan_metachar (cmd ++ [0]) = .ok false := by
  induction cmd with
  | nil => simp [scan_metachar]
  | cons c cs ih =>
    have hc0 : c ≠ 0 := fun h => h0 (by simp [h])
    have h0' : 0 ∉ cs := fun h => h0 (by simp [h])
    have hc : c ∉ sh_metachars := hm c (by simp)
    have : ¬ (c != SPACE && !ISALPHA c && strchr sh_metachars c) = true := by
      simp [strchr, hc, hc0]
    simp only [List.cons_append, scan_metachar, if_neg hc0, if_neg this]
    exact ih h0' (fun d hd => hm d (by simp [hd]))

theorem exec_sh_fallback_tokens (cmd : List Nat) (h0 : 0 ∉ cmd)
    (hm : ∀ c ∈ cmd, c ∉ sh_metachars) (fuel : Nat) (hf : cmd.length < fuel) :
    exec_sh_fallback fuel (cmd ++ [0]) cmd.length
      = .ok { buf := nul_spaces cmd ++ [0],
              call := match maximal_runs cmd with
                | [] => none
                | t :: ts => some (.execvp t ((t :: ts).map CharPtr.ptr ++ [CharPtr.null])) } := by
  obtain ⟨ptrs, hrun, hstr, hbound⟩ :=
    tokenize_spec fuel (cmd.length / 2 + 2) cmd.length (Nat.le_refl _) cmd.length cmd [] [] fuel
      (Nat.le_refl _) hf hf (by simp) h0 (by simp) (fun h => absurd rfl h)
  have hstr' := hstr [] rfl
  simp only [List.nil_append, List.length_nil] at hrun hstr' hbound
  have hlt : ptrs.length < cmd.length / 2 + 2 := by omega
  simp only [exec_sh_fallback, scan_metachar_false cmd h0 hm, hrun, if_pos hlt]
  cases ptrs with
  | nil =>
    simp only [List.map_nil] at hstr'
    simp [← hstr']
  | cons a as =>
    simp only [List.map_cons] at hstr'
    simp [← hstr', Function.comp_def]

theorem splitOnP_no_sep (p : Nat → Bool) (l : List Nat) :
    ∀ t ∈ l.splitOnP p, ∀ x ∈ t, p x = false := by
  induction l with
  | nil => intro t ht; simp [List.splitOnP_nil] at ht; subst ht; simp
  | cons a l ih =>
    intro t ht
    rw [List.splitOnP_cons] at ht
    by_cases ha : p a = true
    · rw [if_pos ha] at ht
      rcases List.mem_cons.1 ht with rfl | ht
      · simp
      · exact ih t ht
    · rw [if_neg ha] at ht
      cases hL : l.splitOnP p with
      | nil => exact absurd hL (List.splitOnP_ne_nil p l)
      | cons h tl =>
        rw [hL] at ht ih
        simp only [List.modifyHead_cons, List.mem_cons] at ht
        rcases ht with rfl | ht
        · intro x hx
          rcases List.mem_cons.1 hx with rfl | hx
          · simpa using ha
          · exact ih h (by simp) x hx
        · exact ih t (by simp [ht])

theorem maximal_runs_mem (cmd t : List Nat) (ht : t ∈ maximal_runs cmd) :
    t ≠ [] ∧ SPACE ∉ t := by
  unfold maximal_runs at ht
  rw [List.mem_filter] at ht
  obtain ⟨h1, h2⟩ := ht
  refine ⟨?_, ?_⟩
  · intro e; simp [e] at h2
  · intro hs
    have := splitOnP_no_sep (fun c => c == SPACE) cmd t h1 SPACE hs
    simp at this

theorem maximal_runs_ne_nil (cmd : List Nat) (h : ∃ c ∈ cmd, c ≠ SPACE) :
    maximal_runs cmd ≠ [] := by
  obtain ⟨k, r, rfl, hr⟩ := decompose_spaces cmd
  rw [maximal_runs_replicate_append]
  rcases hr with rfl | ⟨c, t, rfl, hc⟩
  · obtain ⟨c, hc, hne⟩ := h
    simp at hc
    exact absurd hc.2 hne
  · obtain ⟨tok, r2, rfl, hs, hr2⟩ := decompose_token t
    have hs' : SPACE ∉ c :: tok := by
      intro h
      rcases List.mem_cons.1 h with h | h
      · exact hc h.symm
      · exact hs h
    rcases hr2 with rfl | ⟨t', rfl⟩
    · have := maximal_runs_token (c :: tok) hs' (by simp)
      simp at this ⊢
      rw [this]; simp
    · have := maximal_runs_token_space (c :: tok) t' hs' (by simp)
      simp at this ⊢
      rw [this]; simp

theorem alnum_or_space_props : ∀ c ∈ sh_metachars, alnum_or_space c = false := by decide

theorem alnum_or_space_ne_zero (c : Nat) (h : alnum_or_space c = true) : c ≠ 0 := by
  rintro rfl; revert h; decide

/-- C1: a command without a NUL byte that contains a character of the fixed
metacharacter set is handed, unmodified, to `execl("/bin/sh", "sh", "-c", command)`;
the buffer is not tokenized and no `execvp` is issued. -/
theorem exec_sh_fallback_metachar_runs_sh (cmd : List Nat) (h0 : 0 ∉ cmd)
    (hm : ∃ c ∈ cmd, c ∈ sh_metachars) (fuel : Nat) :
    exec_sh_fallback fuel (cmd ++ [0]) cmd.length
      = .ok { buf := cmd ++ [0], call := some (.execl bin_sh [sh_arg0, sh_dash_c, cmd]) } := by
  have hc := cstr_append_nul [] cmd [] h0
  simp only [List.nil_append, List.length_nil] at hc
  simp only [exec_sh_fallback, scan_metachar_true cmd [0] h0 hm, hc]

theorem exec_sh_fallback_metachar_runs_sh_witness :
    exec_sh_fallback 0 ([108, 115, 32, 42] ++ [0]) 4
      = .ok { buf := [108, 115, 32, 42, 0],
              call := some (.execl bin_sh [sh_arg0, sh_dash_c, [108, 115, 32, 42]]) } :=
  exec_sh_fallback_metachar_runs_sh [108, 115, 32, 42] (by decide) ⟨42, by decide, by decide⟩ 0

/-- C2: a command made only of ASCII letters, ASCII digits and spaces never
reaches `/bin/sh`: with an iteration budget above the command length the call
returns, and it issued `execvp` on the tokenized vector, or no `exec` at all
when the command has no token. -/
theorem exec_sh_fallback_alnum_never_sh (cmd : List Nat)
    (h : ∀ c ∈ cmd, alnum_or_space c = true) (fuel : Nat) (hf : cmd.length < fuel) :
    ∃ r, exec_sh_fallback fuel (cmd ++ [0]) cmd.length = .ok r ∧
      (∀ path args, r.call ≠ some (.execl path args)) ∧
      r.call = match maximal_runs cmd with
        | [] => none
        | t :: ts => some (.execvp t ((t :: ts).map CharPtr.ptr ++ [CharPtr.null])) := by
  have h0 : 0 ∉ cmd := fun h' => alnum_or_space_ne_zero 0 (h 0 h') rfl
  have hm : ∀ c ∈ cmd, c ∉ sh_metachars := by
    intro c hc hc'
    have := alnum_or_space_props c hc'
    rw [h c hc] at this
    exact absurd this (by decide)
  refine ⟨_, exec_sh_fallback_tokens cmd h0 hm fuel hf, ?_, rfl⟩
  intro path args
  cases maximal_runs cmd <;> simp

theorem exec_sh_fallback_alnum_never_sh_witness :
    ∃ r, exec_sh_fallback 9 ([108, 115, 32, 32, 97, 49] ++ [0]) 6 = .ok r ∧
      (∀ path args, r.call ≠ some (.execl path args)) ∧
      r.call = match maximal_runs [108, 115, 32, 32, 97, 49] with
        | [] => none
        | t :: ts => some (.execvp t ((t :: ts).map CharPtr.ptr ++ [CharPtr.null])) :=
  exec_sh_fallback_alnum_never_sh [108, 115, 32, 32, 97, 49] (by decide) 9 (by decide)

/-- C3: for a command without NUL byte and without metacharacter that has a
non-space byte, the vector given to `execvp` is the list of the maximal runs of
non-space bytes of the command, in order, followed by a null pointer, and the
file argument is the first run; no run is empty and none contains a space. -/
theorem exec_sh_fallback_execvp_vector (cmd : List Nat) (h0 : 0 ∉ cmd)
    (hm : ∀ c ∈ cmd, c ∉ sh_metachars) (hns : ∃ c ∈ cmd, c ≠ SPACE)
    (fuel : Nat) (hf : cmd.length < fuel) :
    ∃ t ts r, maximal_runs cmd = t :: ts ∧
      exec_sh_fallback fuel (cmd ++ [0]) cmd.length = .ok r ∧
      r.call = some (.execvp t ((t :: ts).map CharPtr.ptr ++ [CharPtr.null])) ∧
      ∀ u ∈ t :: ts, u ≠ [] ∧ SPACE ∉ u := by
  have hne := maximal_runs_ne_nil cmd hns
  cases hr : maximal_runs cmd with
  | nil => exact absurd hr hne
  | cons t ts =>
    refine ⟨t, ts, _, rfl, exec_sh_fallback_tokens cmd h0 hm fuel hf, ?_, ?_⟩
    · simp [hr]
    · intro u hu
      exact maximal_runs_mem cmd u (hr ▸ hu)

theorem exec_sh_fallback_execvp_vector_witness :
    ∃ t ts r, maximal_runs [32, 108, 115, 32, 32, 45, 108, 32] = t :: ts ∧
      exec_sh_fallback 9 ([32, 108, 115, 32, 32, 45, 108, 32] ++ [0]) 8 = .ok r ∧
      r.call = some (.execvp t ((t :: ts).map CharPtr.ptr ++ [CharPtr.null])) ∧
      ∀ u ∈ t :: ts, u ≠ [] ∧ SPACE ∉ u :=
  exec_sh_fallback_execvp_vector [32, 108, 115, 32, 32, 45, 108, 32] (by decide) (by decide)
    ⟨108, by decide, by decide⟩ 9 (by decide)

theorem take_length_takeWhile (p : Nat → Bool) (l tail : List Nat) :
    (l ++ tail).take (l.takeWhile p).length = l.takeWhile p := by
  induction l with
  | nil => simp
  | cons a l ih =>
    by_cases h : p a = true
    · simp [List.takeWhile_cons_of_pos h, ih]
    · simp [List.takeWhile_cons_of_neg h]

theorem make_string_eq (s : List Nat) :
    make_string s = s.takeWhile (fun c => c != 0) ++ [0] := by
  simp only [make_string, c_str_null_safe, strnlen, List.take_left']
  rw [take_length_takeWhile]

theorem not_mem_takeWhile_ne_zero (s : List Nat) : 0 ∉ s.takeWhile (fun c => c != 0) := by
  intro h
  have := List.mem_takeWhile_imp h
  simp at this

theorem cstr_make_string (s : List Nat) :
    cstr (make_string s) 0 = s.takeWhile (fun c => c != 0) := by
  rw [make_string_eq]
  have := cstr_append_nul [] (s.takeWhile (fun c => c != 0)) [] (not_mem_takeWhile_ne_zero s)
  simpa using this

theorem strnlen_c_str (s : List Nat) :
    strnlen (c_str_null_safe s) s.length = (s.takeWhile (fun c => c != 0)).length := by
  simp [strnlen, c_str_null_safe]

theorem Array_get_string (strs : List (List Nat)) (i : Nat) (h : i < strs.length) :
    Array_get (strs.map Object.string) i = Object.string (strs.get ⟨i, h⟩) := by
  simp [Array_get, List.getD, h]

theorem fill_argv_spec (strs : List (List Nat)) :
    ∀ (idxs : List Nat) (argv : List CharPtr), (∀ i ∈ idxs, i < strs.length) →
      ∃ r, fill_argv (strs.map Object.string) idxs argv = .ok r ∧ r.length = argv.length ∧
        ∀ j, r[j]? = if j ∈ idxs ∧ j < argv.length
          then (strs[j]?).map (fun a => CharPtr.ptr (a.takeWhile (fun c => c != 0)))
          else argv[j]? := by
  intro idxs
  induction idxs with
  | nil => intro argv _; exact ⟨argv, rfl, rfl, by simp⟩
  | cons i rest ih =>
    intro argv h
    have hi : i < strs.length := h i (by simp)
    obtain ⟨r, hr, hlen, hget⟩ := ih (argv.set i (.ptr (cstr (make_string (strs.get ⟨i, hi⟩)) 0)))
      (fun j hj => h j (by simp [hj]))
    refine ⟨r, ?_, by simpa using hlen, ?_⟩
    · simp only [fill_argv, Array_get_string strs i hi, as_String, hr]
    · intro j
      rw [hget j, List.length_set, List.getElem?_set, cstr_make_string]
      by_cases hj : j ∈ rest
      · by_cases hl : j < argv.length
        · simp [hj, hl]
        · have hl' : argv.length ≤ j := by omega
          have : argv[j]? = none := List.getElem?_eq_none hl'
          simp only [hj, hl, and_false, if_false, this, List.mem_cons, or_true, true_and]
          split <;> [(split <;> [omega; rfl]); rfl]
      · by_cases hij : i = j
        · subst hij
          by_cases hl : i < argv.length
          · simp [hj, hl, List.getElem?_eq_getElem hi]
          · simp [hj, hl]; omega
        · have : ¬ j = i := fun e => hij e.symm
          simp [hj, hij, this]

/-- C4: for an argument list of `n + 1` Strings the constructor builds a vector
of `n + 2` slots, one pointer per argument to a NUL-terminated copy truncated at
the argument's first NUL byte (of length `strnlen(src, byte_size)`), followed by
a null pointer; for an empty list `argc()` is 0 and `argv()` is `NULL`, and the
launcher then calls `exec_sh_fallback`. -/
theorem ExecCommand_argv_vector (command a : List Nat) (rest : List (List Nat)) :
    (∃ exe, ExecCommand.from_command_args command ((a :: rest).map Object.string) = .ok exe ∧
        exe.argc_ = (a :: rest).length ∧
        exe.argv_ = some ((a :: rest).map (fun s => CharPtr.ptr (s.takeWhile (fun c => c != 0)))
          ++ [CharPtr.null]) ∧
        ∀ s ∈ a :: rest,
          make_string s = s.takeWhile (fun c => c != 0) ++ [0] ∧
          cstr (make_string s) 0 = s.takeWhile (fun c => c != 0) ∧
          (s.takeWhile (fun c => c != 0)).length = strnlen (c_str_null_safe s) s.length) ∧
    (∃ exe, ExecCommand.from_command_args command [] = .ok exe ∧
        exe.argc_ = 0 ∧ exe.argv_ = none ∧
        ∀ fuel, launch_exec fuel exe = exec_sh_fallback fuel exe.command_ exe.command_size_) := by
  constructor
  · obtain ⟨r, hr, hlen, hget⟩ := fill_argv_spec (a :: rest) (List.range (a :: rest).length)
      ((List.replicate ((a :: rest).length + 1) CharPtr.uninit).set (a :: rest).length CharPtr.null)
      (fun i hi => List.mem_range.1 hi)
    have hargv : r = (a :: rest).map (fun s => CharPtr.ptr (s.takeWhile (fun c => c != 0)))
        ++ [CharPtr.null] := by
      apply List.ext_getElem?
      intro j
      rw [hget j]
      simp only [List.length_set, List.length_replicate, List.mem_range]
      by_cases hj : j < (a :: rest).length
      · have hj' : j < (a :: rest).length + 1 := by omega
        rw [if_pos ⟨hj, hj'⟩, List.getElem?_append_left (by simpa using hj), List.getElem?_map]
      · rw [if_neg (fun h => hj h.1), List.getElem?_set]
        rw [List.getElem?_append_right (by simpa using hj)]
        by_cases hje : (a :: rest).length = j
        · subst hje; simp
        · have : (a :: rest).length + 1 ≤ j := by omega
          have h1 : (List.replicate ((a :: rest).length + 1) CharPtr.uninit)[j]? = none := by
            apply List.getElem?_eq_none
            rw [List.length_replicate]; exact this
          rw [if_neg hje, h1]
          symm
          apply List.getElem?_eq_none
          simp only [List.length_map, List.length_singleton] at this ⊢
          omega
    refine ⟨{ command_ := make_string command, command_size_ := command.length,
              argc_ := (a :: rest).length, argv_ := some r }, ?_, rfl, ?_, ?_⟩
    · simp only [ExecCommand.from_command_args, List.length_map]
      rw [if_pos (by simp), hr]
    · simp only [hargv]
    · intro s _
      exact ⟨make_string_eq s, cstr_make_string s, (strnlen_c_str s).symm⟩
  · refine ⟨{ command_ := make_string command, command_size_ := command.length,
              argc_ := 0, argv_ := none }, rfl, rfl, rfl, ?_⟩
    intro fuel
    rfl

/-! ### Lookup of the options of a configuration table -/

theorem fetch_env (c : SpawnConfig) :
    try_as_Array (LookupTable_fetch c.entries .env) = c.env.map env_array := by
  rcases c with ⟨e, p, u, d, co, a, r⟩
  cases e <;> cases p <;> cases u <;> cases d <;> cases co <;> cases a <;> cases r <;> rfl

theorem fetch_pgroup (c : SpawnConfig) :
    try_as_Fixnum (LookupTable_fetch c.entries .pgroup) = c.pgroup := by
  rcases c with ⟨e, p, u, d, co, a, r⟩
  cases e <;> cases p <;> cases u <;> cases d <;> cases co <;> cases a <;> cases r <;> rfl

theorem fetch_umask (c : SpawnConfig) :
    try_as_Fixnum (LookupTable_fetch c.entries .umask) = c.umask := by
  rcases c with ⟨e, p, u, d, co, a, r⟩
  cases e <;> cases p <;> cases u <;> cases d <;> cases co <;> cases a <;> cases r <;> rfl

theorem fetch_chdir (c : SpawnConfig) :
    try_as_String (LookupTable_fetch c.entries .chdir) = c.chdir := by
  rcases c with ⟨e, p, u, d, co, a, r⟩
  cases e <;> cases p <;> cases u <;> cases d <;> cases co <;> cases a <;> cases r <;> rfl

theorem has_key_close_others (c : SpawnConfig) :
    LookupTable_has_key c.entries .close_others = c.close_others.isSome := by
  rcases c with ⟨e, p, u, d, co, a, r⟩
  cases e <;> cases p <;> cases u <;> cases d <;> cases co <;> cases a <;> cases r <;> rfl

theorem fetch_assign_fd (c : SpawnConfig) :
    try_as_Array (LookupTable_fetch c.entries .assign_fd) = c.assign_fd.map assign_array := by
  rcases c with ⟨e, p, u, d, co, a, r⟩
  cases e <;> cases p <;> cases u <;> cases d <;> cases co <;> cases a <;> cases r <;> rfl

theorem fetch_redirect_fd (c : SpawnConfig) :
    try_as_Array (LookupTable_fetch c.entries .redirect_fd) = c.redirect_fd.map redirect_array := by
  rcases c with ⟨e, p, u, d, co, a, r⟩
  cases e <;> cases p <;> cases u <;> cases d <;> cases co <;> cases a <;> cases r <;> rfl

/-! ### The loops over the flat arrays -/

theorem Array_get_at (pre rest : List Object) (x : Object) :
    Array_get (pre ++ x :: rest) pre.length = x := by
  unfold Array_get
  rw [List.getD_eq_getElem?_getD, List.getElem?_append_right (Nat.le_refl _)]
  simp

theorem Array_get_at_add (pre mid rest : List Object) (x : Object) (k : Nat)
    (hk : mid.length = k) : Array_get (pre ++ (mid ++ x :: rest)) (pre.length + k) = x := by
  have := Array_get_at (pre ++ mid) rest x
  simpa [hk] using this

theorem env_array_length (e : List (List Nat × Option (List Nat))) :
    (env_array e).length = 2 * e.length := by
  induction e with
  | nil => rfl
  | cons kv rest ih =>
    rcases kv with ⟨k, _ | v⟩ <;> simp [env_array, ih] <;> omega

theorem assign_array_length (a : List AssignFd) : (assign_array a).length = 4 * a.length := by
  induction a with
  | nil => rfl
  | cons x rest ih => simp [assign_array, ih]; omega

theorem redirect_array_length (r : List (Int × Int)) :
    (redirect_array r).length = 2 * r.length := by
  induction r with
  | nil => rfl
  | cons x rest ih => rcases x with ⟨f, t⟩; simp [redirect_array, ih]; omega

theorem loop_indices_two (n : Nat) : loop_indices (2 * n) 2 = List.range' 0 n 2 := by
  unfold loop_indices
  congr 1
  omega

theorem loop_indices_four (n : Nat) : loop_indices (4 * n) 4 = List.range' 0 n 4 := by
  unfold loop_indices
  congr 1
  omega

theorem env_loop_spec (e : List (List Nat × Option (List Nat))) :
    ∀ (pre : List Object) (os : OS),
      env_loop (pre ++ env_array e) (List.range' pre.length e.length 2) os
        = (apply_entries env_entry e os, none) := by
  induction e with
  | nil => intro pre os; rfl
  | cons kv rest ih =>
    intro pre os
    rcases kv with ⟨k, _ | v⟩
    · have h := ih (pre ++ [Object.string k, Object.cNil]) (unsetenv (c_string k) os)
      simp only [List.length_append, List.length_cons, List.length_nil, List.append_assoc,
        List.cons_append, List.nil_append] at h
      simp only [env_array, List.length_cons, List.range'_succ, env_loop, Array_get_at,
        as_String]
      have h2 := Array_get_at_add pre [Object.string k] (env_array rest) Object.cNil 1 rfl
      simp only [List.cons_append, List.nil_append] at h2
      rw [h2]
      simpa [Object.nil_p, apply_entries, env_entry, c_string] using h
    · have h := ih (pre ++ [Object.string k, Object.string v])
        (setenv (c_string k) (c_string v) 1 os)
      simp only [List.length_append, List.length_cons, List.length_nil, List.append_assoc,
        List.cons_append, List.nil_append] at h
      simp only [env_array, List.length_cons, List.range'_succ, env_loop, Array_get_at,
        as_String]
      have h2 := Array_get_at_add pre [Object.string k] (env_array rest) (Object.string v) 1 rfl
      simp only [List.cons_append, List.nil_append] at h2
      rw [h2]
      simpa [Object.nil_p, apply_entries, env_entry, c_string, as_String] using h

theorem assign_loop_spec (a : List AssignFd) :
    ∀ (pre : List Object) (os : OS),
      assign_loop (pre ++ assign_array a) (List.range' pre.length a.length 4) os
        = (apply_entries assign_entry a os, none) := by
  induction a with
  | nil => intro pre os; rfl
  | cons x rest ih =>
    intro pre os
    have h := ih (pre ++ [Object.fixnum x.fd, Object.string x.path, Object.fixnum x.mode,
      Object.fixnum x.perm]) (assign_entry x os)
    simp only [List.length_append, List.length_cons, List.length_nil, List.append_assoc,
      List.cons_append, List.nil_append] at h
    have h1 := Array_get_at_add pre [Object.fixnum x.fd] (Object.fixnum x.mode ::
      Object.fixnum x.perm :: assign_array rest) (Object.string x.path) 1 rfl
    have h2 := Array_get_at_add pre [Object.fixnum x.fd, Object.string x.path]
      (Object.fixnum x.perm :: assign_array rest) (Object.fixnum x.mode) 2 rfl
    have h3 := Array_get_at_add pre [Object.fixnum x.fd, Object.string x.path,
      Object.fixnum x.mode] (assign_array rest) (Object.fixnum x.perm) 3 rfl
    simp only [List.cons_append, List.nil_append] at h1 h2 h3
    simp only [assign_array, List.length_cons, List.range'_succ, assign_loop, Array_get_at,
      as_Fixnum, as_String, h1, h2, h3]
    simpa [apply_entries, assign_entry, c_string] using h

theorem redirect_loop_spec (r : List (Int × Int)) :
    ∀ (pre : List Object) (os : OS),
      redirect_loop (pre ++ redirect_array r) (List.range' pre.length r.length 2) os
        = (apply_entries redirect_entry r os, none) := by
  induction r with
  | nil => intro pre os; rfl
  | cons x rest ih =>
    intro pre os
    rcases x with ⟨f, t⟩
    have h := ih (pre ++ [Object.fixnum f, Object.fixnum t]) (redirect_entry (f, t) os)
    simp only [List.length_append, List.length_cons, List.length_nil, List.append_assoc,
      List.cons_append, List.nil_append] at h
    have h1 := Array_get_at_add pre [Object.fixnum f] (redirect_array rest) (Object.fixnum t) 1 rfl
    simp only [List.cons_append, List.nil_append] at h1
    simp only [redirect_array, List.length_cons, List.range'_succ, redirect_loop, Array_get_at,
      as_Fixnum, h1]
    simpa [apply_entries, redirect_entry, redirect_source] using h

/-! ### Every call only extends the trace -/

theorem calls_of_trace (f : OS → OS) (os : OS) (t : List Syscall)
    (h : (f os).trace = os.trace ++ t) : calls f os = t := by
  unfold calls
  rw [h, List.drop_left]

theorem dup2_trace (o n : Int) (os : OS) : (dup2 o n os).2.trace = os.trace ++ [.dup2 o n] := by
  unfold dup2
  split
  · rfl
  · split
    · rfl
    · split <;> rfl

theorem fcntl_getfd_trace (fd : Int) (os : OS) :
    (fcntl_getfd fd os).2.trace = os.trace ++ [.fcntl_getfd fd] := by
  unfold fcntl_getfd
  split <;> rfl

theorem fcntl_setfd_trace (fd v : Int) (os : OS) :
    (fcntl_setfd fd v os).2.trace = os.trace ++ [.fcntl_setfd fd v] := by
  unfold fcntl_setfd
  split <;> rfl

theorem open_with_cloexec_trace (name : List Nat) (mode perm : Int) (os : OS) :
    (open_with_cloexec name mode perm os).2.trace
      = os.trace ++ [.open_cloexec name mode perm] := by
  unfold open_with_cloexec
  split <;> rfl

theorem redirect_file_descriptor_trace (f t : Int) (os : OS) :
    ∃ tail, (redirect_file_descriptor f t os).trace = os.trace ++ .dup2 t f :: tail ∧
      ∀ x ∈ tail, x = .fcntl_getfd f ∨ ∃ v, x = .fcntl_setfd f v := by
  unfold redirect_file_descriptor
  simp only
  split
  · exact ⟨[], by rw [dup2_trace], by simp⟩
  · split
    · exact ⟨[.fcntl_getfd f], by rw [fcntl_getfd_trace, dup2_trace]; simp, by simp⟩
    · refine ⟨[.fcntl_getfd f, .fcntl_setfd f
        (Int.land (fcntl_getfd f (dup2 t f os).2).1 (Int.lnot FD_CLOEXEC))], ?_, ?_⟩
      · rw [fcntl_setfd_trace, fcntl_getfd_trace, dup2_trace]; simp
      · intro x hx
        simp only [List.mem_cons, List.mem_singleton, List.not_mem_nil, or_false] at hx
        rcases hx with rfl | rfl
        · exact Or.inl rfl
        · exact Or.inr ⟨_, rfl⟩

theorem assign_entry_trace (a : AssignFd) (os : OS) :
    ∃ to_ tail, (assign_entry a os).trace
        = os.trace ++ .open_cloexec (c_string a.path) a.mode a.perm :: .dup2 to_ a.fd :: tail ∧
      ∀ x ∈ tail, x = .fcntl_getfd a.fd ∨ ∃ v, x = .fcntl_setfd a.fd v := by
  unfold assign_entry
  simp only
  obtain ⟨tail, h, ht⟩ := redirect_file_descriptor_trace a.fd
    (open_with_cloexec (c_string a.path) a.mode a.perm os).1
    (open_with_cloexec (c_string a.path) a.mode a.perm os).2
  exact ⟨(open_with_cloexec (c_string a.path) a.mode a.perm os).1, tail,
    by rw [h, open_with_cloexec_trace]; simp, ht⟩

theorem redirect_entry_trace (p : Int × Int) (os : OS) :
    ∃ tail, (redirect_entry p os).trace = os.trace ++ .dup2 (redirect_source p.2) p.1 :: tail ∧
      ∀ x ∈ tail, x = .fcntl_getfd p.1 ∨ ∃ v, x = .fcntl_setfd p.1 v :=
  redirect_file_descriptor_trace p.1 (redirect_source p.2) os

theorem apply_entries_trace {α : Type} (step : α → OS → OS)
    (hstep : ∀ a s, ∃ t, (step a s).trace = s.trace ++ t) :
    ∀ (l : List α) (os : OS),
      (apply_entries step l os).trace = os.trace ++ seq_calls step l os := by
  intro l
  induction l with
  | nil => intro os; simp [apply_entries, seq_calls]
  | cons a rest ih =>
    intro os
    obtain ⟨t, ht⟩ := hstep a os
    rw [apply_entries, ih, seq_calls, calls_of_trace (step a) os t ht, ht, List.append_assoc]

theorem apply_env_entries (e : List (List Nat × Option (List Nat))) :
    ∀ os : OS, apply_entries env_entry e os = { os with trace := os.trace ++ env_calls e } := by
  induction e with
  | nil => intro os; simp [apply_entries, env_calls]
  | cons kv rest ih =>
    intro os
    rcases kv with ⟨k, _ | v⟩ <;>
      simp [apply_entries, ih, env_entry, env_calls, unsetenv, setenv, OS.emit]

theorem close_others_loop_trace :
    ∀ (l : List Int) (os : OS), ∃ t, (close_others_loop l os).trace = os.trace ++ t ∧
      ∀ x ∈ t, ∃ fd ∈ l, x = .fcntl_getfd fd ∨ ∃ v, x = .fcntl_setfd fd v := by
  intro l
  induction l with
  | nil => intro os; exact ⟨[], by simp [close_others_loop], by simp⟩
  | cons fd rest ih =>
    intro os
    unfold close_others_loop
    simp only
    split
    · obtain ⟨t, ht, hx⟩ := ih (fcntl_setfd fd (Int.lor (fcntl_getfd fd os).1 FD_CLOEXEC)
        (fcntl_getfd fd os).2).2
      refine ⟨.fcntl_getfd fd :: .fcntl_setfd fd
        (Int.lor (fcntl_getfd fd os).1 FD_CLOEXEC) :: t, ?_, ?_⟩
      · rw [ht, fcntl_setfd_trace, fcntl_getfd_trace]; simp
      · intro x hx'
        simp only [List.mem_cons] at hx'
        rcases hx' with rfl | rfl | hx'
        · exact ⟨fd, by simp, Or.inl rfl⟩
        · exact ⟨fd, by simp, Or.inr ⟨_, rfl⟩⟩
        · obtain ⟨fd', hfd', h⟩ := hx x hx'
          exact ⟨fd', by simp [hfd'], h⟩
    · obtain ⟨t, ht, hx⟩ := ih (fcntl_getfd fd os).2
      refine ⟨.fcntl_getfd fd :: t, ?_, ?_⟩
      · rw [ht, fcntl_getfd_trace]; simp
      · intro x hx'
        simp only [List.mem_cons] at hx'
        rcases hx' with rfl | hx'
        · exact ⟨fd, by simp, Or.inl rfl⟩
        · obtain ⟨fd', hfd', h⟩ := hx x hx'
          exact ⟨fd', by simp [hfd'], h⟩

theorem mem_close_others_fds (max fd : Int) (h : fd ∈ close_others_fds max) :
    STDERR_FILENO + 1 ≤ fd ∧ fd < max := by
  unfold close_others_fds at h
  rw [List.mem_map] at h
  obtain ⟨k, hk, rfl⟩ := h
  rw [List.mem_range] at hk
  have : (Int.ofNat k : Int) = (k : Int) := rfl
  rw [this]
  constructor
  · omega
  · omega

/-! ### The blocks of `vm_spawn_setup` on the table of a configuration -/

theorem env_step_spec (c : SpawnConfig) (os : OS) :
    env_step c.entries os
      = ({ os with trace := os.trace ++ env_calls (c.env.getD []) }, none) := by
  unfold env_step
  rw [fetch_env]
  cases h : c.env with
  | none => simp [env_calls]
  | some e =>
    have := env_loop_spec e [] os
    simp only [List.nil_append, List.length_nil] at this
    simp only [Option.map_some', env_array_length, loop_indices_two, this, apply_env_entries,
      Option.getD_some]

theorem pgroup_step_spec (c : SpawnConfig) (os : OS) :
    pgroup_step c.entries os = { os with trace := os.trace ++ pgroup_calls c.pgroup } := by
  unfold pgroup_step
  rw [fetch_pgroup]
  cases c.pgroup <;> simp [pgroup_calls, setpgid, OS.emit]

theorem umask_step_spec (c : SpawnConfig) (os : OS) :
    umask_step c.entries os = { os with trace := os.trace ++ umask_calls c.umask } := by
  unfold umask_step
  rw [fetch_umask]
  cases c.umask <;> simp [umask_calls, umask, OS.emit]

theorem chdir_step_spec (c : SpawnConfig) (os : OS) :
    chdir_step c.entries os = { os with trace := os.trace ++ chdir_calls os.dirs c.chdir } := by
  unfold chdir_step
  rw [fetch_chdir]
  cases c.chdir with
  | none => simp [chdir_calls]
  | some d =>
    by_cases hd : os.dirs (c_string d) = true
    · simp [chdir_calls, chdir, OS.emit, c_string, hd] at hd ⊢
    · simp [chdir_calls, chdir, OS.emit, c_string, hd] at hd ⊢
      simp [hd]

theorem close_others_block_spec (c : SpawnConfig) (os : OS) :
    close_others_block c.entries os
      = match c.close_others with
        | none => os
        | some _ => close_others_step os := by
  unfold close_others_block
  rw [has_key_close_others]
  cases c.close_others <;> simp

theorem assign_step_spec (c : SpawnConfig) (os : OS) :
    assign_step c.entries os = (apply_entries assign_entry (c.assign_fd.getD []) os, none) := by
  unfold assign_step
  rw [fetch_assign_fd]
  cases h : c.assign_fd with
  | none => simp [apply_entries]
  | some a =>
    have := assign_loop_spec a [] os
    simp only [List.nil_append, List.length_nil] at this
    simp only [Option.map_some', assign_array_length, loop_indices_four, this, Option.getD_some]

theorem redirect_step_spec (c : SpawnConfig) (os : OS) :
    redirect_step c.entries os
      = (apply_entries redirect_entry (c.redirect_fd.getD []) os, none) := by
  unfold redirect_step
  rw [fetch_redirect_fd]
  cases h : c.redirect_fd with
  | none => simp [apply_entries]
  | some r =>
    have := redirect_loop_spec r [] os
    simp only [List.nil_append, List.length_nil] at this
    simp only [Option.map_some', redirect_array_length, loop_indices_two, this,
      Option.getD_some]

/-- The state of the process after the `env`, `pgroup`, `umask` and `chdir`
blocks: only the trace has grown. -/
theorem simple_steps_spec (c : SpawnConfig) (os : OS) :
    chdir_step c.entries (umask_step c.entries (pgroup_step c.entries
        { os with trace := os.trace ++ env_calls (c.env.getD []) }))
      = { os with trace := os.trace ++ env_calls (c.env.getD []) ++ pgroup_calls c.pgroup
            ++ umask_calls c.umask ++ chdir_calls os.dirs c.chdir } := by
  rw [pgroup_step_spec, umask_step_spec, chdir_step_spec]

theorem vm_spawn_setup_spec (c : SpawnConfig) (os : OS) :
    vm_spawn_setup c.to_table os
      = (apply_entries redirect_entry (c.redirect_fd.getD [])
          (apply_entries assign_entry (c.assign_fd.getD [])
            (match c.close_others with
              | none => { os with trace := os.trace ++ env_calls (c.env.getD [])
                            ++ pgroup_calls c.pgroup ++ umask_calls c.umask
                            ++ chdir_calls os.dirs c.chdir }
              | some _ => close_others_step
                  { os with trace := os.trace ++ env_calls (c.env.getD [])
                      ++ pgroup_calls c.pgroup ++ umask_calls c.umask
                      ++ chdir_calls os.dirs c.chdir })), none) := by
  simp only [vm_spawn_setup, SpawnConfig.to_table, try_as_LookupTable, env_step_spec,
    simple_steps_spec, close_others_block_spec, assign_step_spec, redirect_step_spec]

theorem close_others_step_trace (os : OS) :
    ∃ t, (close_others_step os).trace = os.trace ++ t ∧
      ∀ x ∈ t, ∃ fd : Int, STDERR_FILENO < fd ∧ fd < os.max_descriptors ∧
        (x = .fcntl_getfd fd ∨ ∃ v, x = .fcntl_setfd fd v) := by
  obtain ⟨t, ht, hmem⟩ := close_others_loop_trace (close_others_fds os.max_descriptors) os
  refine ⟨t, ht, ?_⟩
  intro x hx
  obtain ⟨fd, hfd, h⟩ := hmem x hx
  obtain ⟨h1, h2⟩ := mem_close_others_fds _ _ hfd
  exact ⟨fd, by omega, h2, h⟩

/-- C5: the calls `vm_spawn_setup` issues for a spawn configuration are, in this
order, the `setenv`/`unsetenv` calls of the `env` pairs, the `setpgid`, the
`umask`, the `chdir` (with its log entry on failure), the close-on-exec marking
of `close_others`, the open-and-duplicate of every `assign_fd` entry and the
duplicate of every `redirect_fd` pair; the entries of a list are applied in list
order, and an absent option contributes no call. -/
theorem vm_spawn_setup_fixed_order (c : SpawnConfig) (os : OS) :
    ∃ os4 os5 os6 os7 : OS,
      vm_spawn_setup c.to_table os = (os7, none) ∧
      os4 = { os with trace := os.trace ++ env_calls (c.env.getD []) ++ pgroup_calls c.pgroup
                ++ umask_calls c.umask ++ chdir_calls os.dirs c.chdir } ∧
      os5 = (match c.close_others with
              | none => os4
              | some _ => close_others_step os4) ∧
      os6 = apply_entries assign_entry (c.assign_fd.getD []) os5 ∧
      os7 = apply_entries redirect_entry (c.redirect_fd.getD []) os6 ∧
      os7.trace = os.trace ++ env_calls (c.env.getD []) ++ pgroup_calls c.pgroup
          ++ umask_calls c.umask ++ chdir_calls os.dirs c.chdir
          ++ close_others_calls c.close_others os4
          ++ seq_calls assign_entry (c.assign_fd.getD []) os5
          ++ seq_calls redirect_entry (c.redirect_fd.getD []) os6 ∧
      (∀ x ∈ close_others_calls c.close_others os4,
        ∃ fd : Int, STDERR_FILENO < fd ∧ fd < os.max_descriptors ∧
          (x = .fcntl_getfd fd ∨ ∃ v, x = .fcntl_setfd fd v)) ∧
      (∀ (a : AssignFd) (s : OS), ∃ to_ tail,
        calls (assign_entry a) s
          = .open_cloexec (c_string a.path) a.mode a.perm :: .dup2 to_ a.fd :: tail ∧
        ∀ x ∈ tail, x = .fcntl_getfd a.fd ∨ ∃ v, x = .fcntl_setfd a.fd v) ∧
      (∀ (p : Int × Int) (s : OS), ∃ tail,
        calls (redirect_entry p) s = .dup2 (redirect_source p.2) p.1 :: tail ∧
        ∀ x ∈ tail, x = .fcntl_getfd p.1 ∨ ∃ v, x = .fcntl_setfd p.1 v) := by
  refine ⟨_, _, _, _, vm_spawn_setup_spec c os, rfl, rfl, rfl, rfl, ?_, ?_, ?_, ?_⟩
  · -- the trace
    rw [apply_entries_trace redirect_entry
          (fun p s => by
            obtain ⟨tail, h, _⟩ := redirect_entry_trace p s
            exact ⟨_, h⟩),
        apply_entries_trace assign_entry
          (fun a s => by
            obtain ⟨to_, tail, h, _⟩ := assign_entry_trace a s
            exact ⟨_, h⟩)]
    congr 2
    cases hco : c.close_others with
    | none => simp [close_others_calls]
    | some b =>
      obtain ⟨t, ht, _⟩ := close_others_step_trace
        { os with trace := os.trace ++ env_calls (c.env.getD []) ++ pgroup_calls c.pgroup
            ++ umask_calls c.umask ++ chdir_calls os.dirs c.chdir }
      have hc := calls_of_trace close_others_step _ t ht
      simp only [close_others_calls, hc]
      exact ht
  · -- the calls of `close_others`
    intro x hx
    cases hco : c.close_others with
    | none => simp [close_others_calls, hco] at hx
    | some b =>
      obtain ⟨t, ht, hmem⟩ := close_others_step_trace
        { os with trace := os.trace ++ env_calls (c.env.getD []) ++ pgroup_calls c.pgroup
            ++ umask_calls c.umask ++ chdir_calls os.dirs c.chdir }
      have hc := calls_of_trace close_others_step _ t ht
      simp only [close_others_calls, hco, hc] at hx
      exact hmem x hx
  · intro a s
    obtain ⟨to_, tail, h, ht⟩ := assign_entry_trace a s
    exact ⟨to_, tail, calls_of_trace _ _ _ h, ht⟩
  · intro p s
    obtain ⟨tail, h, ht⟩ := redirect_entry_trace p s
    exact ⟨tail, calls_of_trace _ _ _ h, ht⟩

/-! ### Descriptor tables -/

theorem descriptor_emit (os : OS) (c : Syscall) (x : Int) :
    (os.emit c).descriptor x = os.descriptor x := rfl

theorem descriptor_some_bounds (os : OS) (fd : Int) (d : Descriptor)
    (h : os.descriptor fd = some d) : 0 ≤ fd ∧ fd.toNat < os.fds.length := by
  unfold OS.descriptor at h
  by_cases hneg : fd < 0
  · simp [hneg] at h
  · rw [if_neg hneg] at h
    refine ⟨by omega, ?_⟩
    by_contra hlen
    rw [List.getD_eq_getElem?_getD, List.getElem?_eq_none (by omega)] at h
    simp at h

theorem descriptor_set (os os' : OS) (fd : Int) (e : Option Descriptor)
    (h0 : 0 ≤ fd) (hlen : fd.toNat < os.fds.length)
    (hfds : os'.fds = os.fds.set fd.toNat e) (x : Int) :
    os'.descriptor x = if x = fd then e else os.descriptor x := by
  unfold OS.descriptor
  rw [hfds]
  by_cases hx : x < 0
  · have : x ≠ fd := by omega
    simp [hx, this]
  · rw [if_neg hx, if_neg hx]
    by_cases hxf : x = fd
    · subst hxf
      simp [List.getD_eq_getElem?_getD, List.getElem?_set, hlen]
    · have : ¬ fd.toNat = x.toNat := by omega
      simp [List.getD_eq_getElem?_getD, List.getElem?_set, this, hxf]

theorem fcntl_getfd_fds (fd : Int) (os : OS) : (fcntl_getfd fd os).2.fds = os.fds := by
  unfold fcntl_getfd
  split <;> rfl

theorem fcntl_getfd_descriptor (fd : Int) (os : OS) (x : Int) :
    (fcntl_getfd fd os).2.descriptor x = os.descriptor x := by
  unfold OS.descriptor
  rw [fcntl_getfd_fds]

theorem fcntl_getfd_some (fd : Int) (os : OS) (d : Descriptor) (h : os.descriptor fd = some d) :
    (fcntl_getfd fd os).1 = d.flags := by
  simp [fcntl_getfd, h]

theorem fcntl_getfd_none (fd : Int) (os : OS) (h : os.descriptor fd = none) :
    (fcntl_getfd fd os).1 = -1 := by
  simp [fcntl_getfd, h]

theorem fcntl_setfd_some (fd v : Int) (os : OS) (d : Descriptor)
    (h : os.descriptor fd = some d) (x : Int) :
    (fcntl_setfd fd v os).2.descriptor x
      = if x = fd then some { d with flags := v.toNat } else os.descriptor x := by
  obtain ⟨h0, hlen⟩ := descriptor_some_bounds os fd d h
  apply descriptor_set os _ fd _ h0 hlen
  simp [fcntl_setfd, h, OS.emit]

theorem fcntl_setfd_fds_length (fd v : Int) (os : OS) :
    (fcntl_setfd fd v os).2.fds.length = os.fds.length := by
  unfold fcntl_setfd
  split <;> simp [OS.emit]

theorem fcntl_setfd_max (fd v : Int) (os : OS) :
    (fcntl_setfd fd v os).2.max_descriptors = os.max_descriptors := by
  unfold fcntl_setfd
  split <;> rfl

theorem lor_cloexec (f : Nat) : (Int.lor (f : Int) FD_CLOEXEC).toNat = f ||| 1 := rfl

/-- A descriptor with close-on-exec set and everything else as it was. -/
theorem close_others_loop_descriptor :
    ∀ (l : List Int) (os : OS) (x : Int),
      (close_others_loop l os).descriptor x
        = if x ∈ l then (os.descriptor x).map (fun d => { d with flags := d.flags ||| 1 })
          else os.descriptor x := by
  intro l
  induction l with
  | nil => intro os x; simp [close_others_loop]
  | cons fd rest ih =>
    intro os x
    unfold close_others_loop
    simp only
    cases hd : os.descriptor fd with
    | none =>
      have hg : ¬ (fcntl_getfd fd os).1 ≥ 0 := by rw [fcntl_getfd_none fd os hd]; decide
      rw [if_neg hg, ih, fcntl_getfd_descriptor]
      by_cases hx : x = fd
      · subst hx; simp [hd]
      · simp [hx]
    | some d =>
      have hg : (fcntl_getfd fd os).1 ≥ 0 := by rw [fcntl_getfd_some fd os d hd]; omega
      have hd' : (fcntl_getfd fd os).2.descriptor fd = some d := by
        rw [fcntl_getfd_descriptor]; exact hd
      rw [if_pos hg, ih, fcntl_setfd_some _ _ _ d hd', fcntl_getfd_some fd os d hd,
        lor_cloexec, fcntl_getfd_descriptor]
      by_cases hx : x = fd
      · subst hx
        by_cases hr : x ∈ rest
        · simp [hr, hd, Nat.or_assoc]
        · simp [hr, hd]
      · simp [hx]

theorem testBit_lor_one (f k : Nat) :
    (f ||| 1).testBit k = if k = 0 then true else f.testBit k := by
  rw [Nat.testBit_lor]
  cases k with
  | zero => simp
  | succ k =>
    have : Nat.testBit 1 (k + 1) = false := by
      rw [Nat.testBit_succ]; simp
    simp [this]

theorem mem_close_others_fds_iff (max fd : Int) :
    fd ∈ close_others_fds max ↔ STDERR_FILENO < fd ∧ fd < max := by
  constructor
  · intro h
    obtain ⟨h1, h2⟩ := mem_close_others_fds max fd h
    exact ⟨by omega, h2⟩
  · rintro ⟨h1, h2⟩
    unfold close_others_fds
    rw [List.mem_map]
    refine ⟨(fd - (STDERR_FILENO + 1)).toNat, ?_, ?_⟩
    · rw [List.mem_range]
      omega
    · have : (Int.ofNat (fd - (STDERR_FILENO + 1)).toNat : Int) = fd - (STDERR_FILENO + 1) := by
        show ((fd - (STDERR_FILENO + 1)).toNat : Int) = _
        omega
      rw [this]; omega

/-- C6: when the `close_others` block runs (the option is present), every open
descriptor `fd` with `3 <= fd < IO::max_descriptors()` ends with `FD_CLOEXEC` set,
its other descriptor flags and its open file as before, and the descriptors 0, 1
and 2 and every descriptor that is not open are left as they were. -/
theorem close_others_marks_cloexec (table : List (Symbol × Object)) (os : OS)
    (hkey : LookupTable_has_key table .close_others = true) :
    (∀ (fd : Int) (d : Descriptor), 3 ≤ fd → fd < os.max_descriptors →
        os.descriptor fd = some d →
        ∃ d', (close_others_block table os).descriptor fd = some d' ∧
          d'.file = d.file ∧ d'.flags.testBit 0 = true ∧
          ∀ k, k ≠ 0 → d'.flags.testBit k = d.flags.testBit k) ∧
    (∀ fd : Int, fd ≤ 2 →
        (close_others_block table os).descriptor fd = os.descriptor fd) ∧
    (∀ fd : Int, os.descriptor fd = none →
        (close_others_block table os).descriptor fd = none) := by
  have hblock : close_others_block table os = close_others_step os := by
    simp [close_others_block, hkey]
  rw [hblock]
  unfold close_others_step
  refine ⟨?_, ?_, ?_⟩
  · intro fd d h3 hmax hd
    have hmem : fd ∈ close_others_fds os.max_descriptors :=
      (mem_close_others_fds_iff _ _).2 ⟨by unfold STDERR_FILENO; omega, hmax⟩
    refine ⟨{ d with flags := d.flags ||| 1 }, ?_, rfl, ?_, ?_⟩
    · rw [close_others_loop_descriptor, if_pos hmem, hd]; rfl
    · show (d.flags ||| 1).testBit 0 = true
      rw [testBit_lor_one]; rfl
    · intro k hk
      show (d.flags ||| 1).testBit k = d.flags.testBit k
      rw [testBit_lor_one, if_neg hk]
  · intro fd h2
    have hmem : fd ∉ close_others_fds os.max_descriptors := by
      intro h
      have := ((mem_close_others_fds_iff _ _).1 h).1
      unfold STDERR_FILENO at this
      omega
    rw [close_others_loop_descriptor, if_neg hmem]
  · intro fd hd
    rw [close_others_loop_descriptor, hd]
    simp

theorem land_not_cloexec (f : Nat) :
    (Int.land (f : Int) (Int.lnot FD_CLOEXEC)).toNat = Nat.ldiff f 1 := rfl

theorem testBit_ldiff_one (f k : Nat) :
    (Nat.ldiff f 1).testBit k = if k = 0 then false else f.testBit k := by
  rw [Nat.testBit_ldiff]
  cases k with
  | zero => simp
  | succ k =>
    have : Nat.testBit 1 (k + 1) = false := by
      rw [Nat.testBit_succ]; simp
    simp [this]

theorem dup2_fail_fds (o n : Int) (os : OS) (h : (dup2 o n os).1 < 0) :
    (dup2 o n os).2.fds = os.fds := by
  unfold dup2 at h ⊢
  cases hd : os.descriptor o with
  | none => rfl
  | some d =>
    simp only [hd] at h ⊢
    by_cases h1 : n < 0 ∨ os.fds.length ≤ n.toNat
    · rw [if_pos h1]; rfl
    · rw [if_neg h1] at h ⊢
      by_cases h2 : o = n
      · rw [if_pos h2]; rfl
      · rw [if_neg h2] at h
        simp only at h
        omega

theorem dup2_success (o n : Int) (os : OS) (h : ¬ (dup2 o n os).1 < 0) :
    ∃ d, os.descriptor o = some d ∧ 0 ≤ n ∧ n.toNat < os.fds.length ∧
      (∀ x, (dup2 o n os).2.descriptor x
        = if x = n then (if o = n then some d else some { file := d.file, flags := 0 })
          else os.descriptor x) := by
  unfold dup2 at h ⊢
  cases hd : os.descriptor o with
  | none => simp [hd] at h
  | some d =>
    simp only [hd] at h ⊢
    by_cases hn : n < 0 ∨ os.fds.length ≤ n.toNat
    · simp [hn] at h
    · rw [if_neg hn]
      have h0 : 0 ≤ n := by omega
      have hlen : n.toNat < os.fds.length := by omega
      refine ⟨d, rfl, h0, hlen, ?_⟩
      intro x
      by_cases hon : o = n
      · subst hon
        rw [if_pos rfl, descriptor_emit]
        by_cases hx : x = o
        · subst hx; simp [hd]
        · simp [hx]
      · rw [if_neg hon]
        have := descriptor_set os
          { os.emit (.dup2 o n) with
            fds := os.fds.set n.toNat (some { file := d.file, flags := 0 }) }
          n (some { file := d.file, flags := 0 }) h0 hlen rfl x
        rw [this]
        simp [hon]

theorem redirect_fd_pair_success (from_ src : Int) (os : OS)
    (hok : ¬ (dup2 src from_ os).1 < 0) :
    ∃ dsrc d1 d',
      os.descriptor src = some dsrc ∧
      (dup2 src from_ os).2.descriptor from_ = some d1 ∧
      (redirect_file_descriptor from_ src os).descriptor from_ = some d' ∧
      d'.file = dsrc.file ∧
      d'.flags.testBit 0 = false ∧
      (∀ k, k ≠ 0 → d'.flags.testBit k = d1.flags.testBit k) ∧
      ∀ x, x ≠ from_ → (redirect_file_descriptor from_ src os).descriptor x = os.descriptor x := by
  obtain ⟨d, hd, h0, hlen, hdesc⟩ := dup2_success _ _ os hok
  have hfrom := hdesc from_
  rw [if_pos rfl] at hfrom
  obtain ⟨d1, hd1, hfile⟩ : ∃ d1, (dup2 src from_ os).2.descriptor from_
      = some d1 ∧ d1.file = d.file := by
    by_cases hsame : src = from_
    · exact ⟨d, by rw [hfrom, if_pos hsame], rfl⟩
    · exact ⟨{ file := d.file, flags := 0 }, by rw [hfrom, if_neg hsame], rfl⟩
  have hg : ¬ (fcntl_getfd from_ (dup2 src from_ os).2).1 < 0 := by
    rw [fcntl_getfd_some _ _ d1 hd1]; omega
  have hd1' : (fcntl_getfd from_ (dup2 src from_ os).2).2.descriptor from_
      = some d1 := by rw [fcntl_getfd_descriptor]; exact hd1
  have hres : ∀ x, (redirect_file_descriptor from_ src os).descriptor x
      = if x = from_ then some { d1 with flags := Nat.ldiff d1.flags 1 }
        else os.descriptor x := by
    intro x
    unfold redirect_file_descriptor
    simp only
    rw [if_neg hok, if_neg hg, fcntl_setfd_some _ _ _ d1 hd1', fcntl_getfd_some _ _ d1 hd1,
      land_not_cloexec, fcntl_getfd_descriptor]
    by_cases hx : x = from_
    · simp [hx]
    · rw [if_neg hx, if_neg hx, hdesc x, if_neg hx]
  refine ⟨d, d1, { d1 with flags := Nat.ldiff d1.flags 1 }, hd, hd1, ?_, hfile, ?_, ?_, ?_⟩
  · rw [hres, if_pos rfl]
  · show (Nat.ldiff d1.flags 1).testBit 0 = false
    rw [testBit_ldiff_one]; rfl
  · intro k hk
    show (Nat.ldiff d1.flags 1).testBit k = d1.flags.testBit k
    rw [testBit_ldiff_one, if_neg hk]
  · intro x hx
    rw [hres, if_neg hx]

/-- C7: for every `redirect_fd` pair `(from, to)`, `vm_spawn_setup` duplicates
onto `from` the source `to` (when `to >= 0`) or `-to + 1` (when `to < 0`); when the
`dup2` succeeds, `from` then refers to the open file of the source, with
`FD_CLOEXEC` clear and the other descriptor flags as `dup2` left them, and no
other descriptor has changed; when the `dup2` fails the descriptor table is as
before. -/
theorem redirect_fd_pair_duplicates (from_ to_ : Int) (os : OS) :
    (∀ (c : SpawnConfig) (s : OS), redirect_step c.entries s
        = (apply_entries redirect_entry (c.redirect_fd.getD []) s, none)) ∧
    redirect_entry (from_, to_) os
      = redirect_file_descriptor from_ (if to_ ≥ 0 then to_ else -to_ + 1) os ∧
    (¬ (dup2 (redirect_source to_) from_ os).1 < 0 →
      ∃ dsrc d1 d',
        os.descriptor (redirect_source to_) = some dsrc ∧
        (dup2 (redirect_source to_) from_ os).2.descriptor from_ = some d1 ∧
        (redirect_entry (from_, to_) os).descriptor from_ = some d' ∧
        d'.file = dsrc.file ∧
        d'.flags.testBit 0 = false ∧
        (∀ k, k ≠ 0 → d'.flags.testBit k = d1.flags.testBit k) ∧
        ∀ x, x ≠ from_ → (redirect_entry (from_, to_) os).descriptor x = os.descriptor x) ∧
    ((dup2 (redirect_source to_) from_ os).1 < 0 →
      (redirect_entry (from_, to_) os).fds = os.fds) := by
  refine ⟨redirect_step_spec, ?_, ?_, ?_⟩
  · unfold redirect_entry redirect_source
    by_cases h : to_ < 0
    · have : ¬ to_ ≥ 0 := by omega
      simp [h, this]
    · have : to_ ≥ 0 := by omega
      simp [h, this]
  · intro hok
    exact redirect_fd_pair_success from_ (redirect_source to_) os hok
  · intro hfail
    unfold redirect_entry redirect_file_descriptor
    simp only
    rw [if_pos hfail]
    exact dup2_fail_fds _ _ os hfail

/-! ### The open-descriptor set -/

theorem is_open_nat (os : OS) (i : Nat) :
    os.is_open (i : Int) = (os.fds.getD i none).isSome := by
  unfold OS.is_open OS.descriptor
  have : ¬ ((i : Int) < 0) := by omega
  simp [this]

theorem open_set_eq (os1 os2 : OS) (hlen : os1.fds.length = os2.fds.length)
    (h : ∀ x : Int, os1.is_open x = true ↔ os2.is_open x = true) :
    os1.open_set = os2.open_set := by
  unfold OS.open_set
  apply List.ext_getElem?
  intro i
  rw [List.getElem?_map, List.getElem?_map]
  by_cases hi : i < os1.fds.length
  · have hi2 : i < os2.fds.length := by omega
    have h1 := is_open_nat os1 i
    have h2 := is_open_nat os2 i
    rw [List.getD_eq_getElem?_getD, List.getElem?_eq_getElem hi] at h1
    rw [List.getD_eq_getElem?_getD, List.getElem?_eq_getElem hi2] at h2
    simp only [Option.getD_some] at h1 h2
    rw [List.getElem?_eq_getElem hi, List.getElem?_eq_getElem hi2]
    simp only [Option.map_some']
    congr 1
    rw [← h1, ← h2]
    exact Bool.eq_iff_iff.2 (h i)
  · rw [List.getElem?_eq_none (by omega), List.getElem?_eq_none (by omega)]

theorem close_others_loop_length :
    ∀ (l : List Int) (os : OS), (close_others_loop l os).fds.length = os.fds.length := by
  intro l
  induction l with
  | nil => intro os; rfl
  | cons fd rest ih =>
    intro os
    unfold close_others_loop
    simp only
    split
    · rw [ih, fcntl_setfd_fds_length, fcntl_getfd_fds]
    · rw [ih, fcntl_getfd_fds]

theorem close_others_step_is_open (os : OS) (x : Int) :
    (close_others_step os).is_open x = os.is_open x := by
  unfold close_others_step OS.is_open
  rw [close_others_loop_descriptor]
  split
  · cases os.descriptor x <;> rfl
  · rfl

theorem dup2_length (o n : Int) (os : OS) : (dup2 o n os).2.fds.length = os.fds.length := by
  unfold dup2
  split
  · rfl
  · split
    · rfl
    · split
      · rfl
      · simp [OS.emit]

theorem redirect_file_descriptor_length (f src : Int) (os : OS) :
    (redirect_file_descriptor f src os).fds.length = os.fds.length := by
  unfold redirect_file_descriptor
  simp only
  split
  · exact dup2_length _ _ _
  · split
    · rw [fcntl_getfd_fds]; exact dup2_length _ _ _
    · rw [fcntl_setfd_fds_length, fcntl_getfd_fds]; exact dup2_length _ _ _

theorem redirect_file_descriptor_is_open (f src : Int) (os : OS) (x : Int) :
    (redirect_file_descriptor f src os).is_open x = true ↔
      os.is_open x = true ∨
        (x = f ∧ os.is_open src = true ∧ 0 ≤ f ∧ f.toNat < os.fds.length) := by
  by_cases hok : (dup2 src f os).1 < 0
  · -- the `dup2` failed
    have hfds : (redirect_file_descriptor f src os).fds = os.fds := by
      unfold redirect_file_descriptor
      simp only
      rw [if_pos hok]
      exact dup2_fail_fds _ _ os hok
    have hsame : (redirect_file_descriptor f src os).is_open x = os.is_open x := by
      unfold OS.is_open OS.descriptor
      rw [hfds]
    rw [hsame]
    constructor
    · intro h; exact Or.inl h
    · rintro (h | ⟨rfl, hsrc, h0, hlen⟩)
      · exact h
      · exfalso
        unfold OS.is_open at hsrc
        unfold dup2 at hok
        cases hd : os.descriptor src with
        | none => rw [hd] at hsrc; simp at hsrc
        | some d =>
          simp only [hd] at hok
          have hn : ¬ (x < 0 ∨ os.fds.length ≤ x.toNat) := by omega
          rw [if_neg hn] at hok
          by_cases hsx : src = x
          · rw [if_pos hsx] at hok; simp only at hok; omega
          · rw [if_neg hsx] at hok; simp only at hok; omega
  · obtain ⟨dsrc, d1, d', hsrc, _, hd', _, _, _, hframe⟩ :=
      (redirect_fd_pair_success f src os) hok
    obtain ⟨_, _, h0, hlen, _⟩ := dup2_success _ _ os hok
    by_cases hx : x = f
    · subst hx
      have : (redirect_file_descriptor x src os).is_open x = true := by
        unfold OS.is_open; rw [hd']; rfl
      rw [this]
      refine iff_of_true rfl (Or.inr ⟨rfl, ?_, h0, hlen⟩)
      unfold OS.is_open; rw [hsrc]; rfl
    · have : (redirect_file_descriptor f src os).is_open x = os.is_open x := by
        unfold OS.is_open; rw [hframe x hx]
      rw [this]
      constructor
      · intro h; exact Or.inl h
      · rintro (h | ⟨h, _⟩)
        · exact h
        · exact absurd h hx

theorem apply_redirect_is_open :
    ∀ (R : List (Int × Int)) (os : OS),
      (∀ p ∈ R, os.is_open (redirect_source p.2) = true) →
      (apply_entries redirect_entry R os).fds.length = os.fds.length ∧
      ∀ x, (apply_entries redirect_entry R os).is_open x = true ↔
        os.is_open x = true ∨ ∃ p ∈ R, p.1 = x ∧ 0 ≤ x ∧ x.toNat < os.fds.length := by
  intro R
  induction R with
  | nil => intro os _; exact ⟨rfl, fun x => by simp [apply_entries]⟩
  | cons p rest ih =>
    intro os hsrc
    have hlen1 : (redirect_entry p os).fds.length = os.fds.length :=
      redirect_file_descriptor_length _ _ _
    have hopen1 := redirect_file_descriptor_is_open p.1 (redirect_source p.2) os
    have hsrc1 : ∀ q ∈ rest, (redirect_entry p os).is_open (redirect_source q.2) = true := by
      intro q hq
      exact (hopen1 _).2 (Or.inl (hsrc q (by simp [hq])))
    obtain ⟨hlen, hopen⟩ := ih (redirect_entry p os) hsrc1
    refine ⟨by rw [apply_entries, hlen, hlen1], ?_⟩
    intro x
    rw [apply_entries, hopen x, hlen1]
    have hp := hopen1 x
    unfold redirect_entry
    rw [hp]
    constructor
    · rintro ((h | ⟨rfl, _, h0, hl⟩) | ⟨q, hq, h⟩)
      · exact Or.inl h
      · exact Or.inr ⟨p, by simp, rfl, h0, hl⟩
      · exact Or.inr ⟨q, by simp [hq], h⟩
    · rintro (h | ⟨q, hq, rfl, h0, hl⟩)
      · exact Or.inl (Or.inl h)
      · rcases List.mem_cons.1 hq with rfl | hq
        · exact Or.inl (Or.inr ⟨rfl, hsrc q (by simp), h0, hl⟩)
        · exact Or.inr ⟨q, hq, rfl, h0, hl⟩

theorem redirect_after_base (R : List (Int × Int)) (base os : OS)
    (hl : base.fds.length = os.fds.length) (ho : ∀ x, base.is_open x = os.is_open x)
    (hsrc : ∀ p ∈ R, os.is_open (redirect_source p.2) = true) :
    (apply_entries redirect_entry R base).fds.length = os.fds.length ∧
    ∀ x, (apply_entries redirect_entry R base).is_open x = true ↔
      os.is_open x = true ∨ ∃ p ∈ R, p.1 = x ∧ 0 ≤ x ∧ x.toNat < os.fds.length := by
  obtain ⟨h1, h2⟩ := apply_redirect_is_open R base (fun p hp => by rw [ho]; exact hsrc p hp)
  refine ⟨by rw [h1, hl], ?_⟩
  intro x
  rw [h2 x, ho x, hl]

theorem setup_is_open (c : SpawnConfig) (os : OS) (hassign : c.assign_fd.getD [] = [])
    (hsrc : ∀ p ∈ c.redirect_fd.getD [], os.is_open (redirect_source p.2) = true) :
    (vm_spawn_setup c.to_table os).1.fds.length = os.fds.length ∧
    ∀ x, (vm_spawn_setup c.to_table os).1.is_open x = true ↔
      os.is_open x = true ∨
        ∃ p ∈ c.redirect_fd.getD [], p.1 = x ∧ 0 ≤ x ∧ x.toNat < os.fds.length := by
  rw [vm_spawn_setup_spec, hassign]
  simp only [apply_entries]
  cases c.close_others with
  | none =>
    exact redirect_after_base _ _ os rfl (fun _ => rfl) hsrc
  | some b =>
    exact redirect_after_base _ _ os (close_others_loop_length _ _)
      (fun x => close_others_step_is_open _ x) hsrc

/-- C8 (as stated, refuted): with an `assign_fd` entry that opens a file, a
second application of `vm_spawn_setup` opens one more descriptor, so the
open-descriptor set after two applications differs from the one after a single
application. -/
theorem vm_spawn_setup_assign_not_idempotent :
    (vm_spawn_setup sample_assign_config.to_table
        (vm_spawn_setup sample_assign_config.to_table sample_os).1).1.open_set
      ≠ (vm_spawn_setup sample_assign_config.to_table sample_os).1.open_set := by
  decide

/-- C8 (amended): for a configuration without `assign_fd` entries whose
`redirect_fd` sources are all open in the starting descriptor table, applying
`vm_spawn_setup` twice yields the same open-descriptor set as applying it
once. -/
theorem vm_spawn_setup_open_set_idempotent (c : SpawnConfig) (os : OS)
    (hassign : c.assign_fd.getD [] = [])
    (hsrc : ∀ p ∈ c.redirect_fd.getD [], os.is_open (redirect_source p.2) = true) :
    (vm_spawn_setup c.to_table (vm_spawn_setup c.to_table os).1).1.open_set
      = (vm_spawn_setup c.to_table os).1.open_set := by
  obtain ⟨hl1, ho1⟩ := setup_is_open c os hassign hsrc
  have hsrc1 : ∀ p ∈ c.redirect_fd.getD [],
      (vm_spawn_setup c.to_table os).1.is_open (redirect_source p.2) = true :=
    fun p hp => (ho1 _).2 (Or.inl (hsrc p hp))
  obtain ⟨hl2, ho2⟩ := setup_is_open c (vm_spawn_setup c.to_table os).1 hassign hsrc1
  apply open_set_eq _ _ hl2
  intro x
  rw [ho2 x, hl1]
  constructor
  · rintro (h | h)
    · exact h
    · exact (ho1 x).2 (Or.inr h)
  · intro h; exact Or.inl h

theorem vm_spawn_setup_open_set_idempotent_witness :
    (vm_spawn_setup sample_redirect_config.to_table
        (vm_spawn_setup sample_redirect_config.to_table sample_os).1).1.open_set
      = (vm_spawn_setup sample_redirect_config.to_table sample_os).1.open_set :=
  vm_spawn_setup_open_set_idempotent sample_redirect_config sample_os (by decide) (by decide)

/-! ### The parent side of the error channel -/

theorem close_open (fd : Int) (os : OS) (d : Descriptor) (h : os.descriptor fd = some d) :
    (∀ x, (close fd os).2.descriptor x = if x = fd then none else os.descriptor x) ∧
    (close fd os).2.trace = os.trace ++ [.close fd] ∧
    (close fd os).2.reads = os.reads ∧ (close fd os).2.reads_done = os.reads_done := by
  obtain ⟨h0, hlen⟩ := descriptor_some_bounds os fd d h
  refine ⟨?_, ?_, ?_, ?_⟩
  · intro x
    apply descriptor_set os _ fd _ h0 hlen
    simp [close, h, OS.emit]
  · simp [close, h, OS.emit]
  · simp [close, h, OS.emit]
  · simp [close, h, OS.emit]

theorem read_error_channel_returns (msg : String) (fd : Int) (size : Nat) (error_no : Int) :
    ∀ (k fuel : Nat) (os : OS) (d : Descriptor), k < fuel → os.descriptor fd = some d →
      (∀ j, j < k → ∃ e, os.reads (os.reads_done + j) = .error e) →
      os.reads (os.reads_done + k) = .bytes size error_no →
      ∃ os', read_error_channel msg fd fuel os = .ok ((size, error_no), os') ∧
        os'.fds = os.fds ∧ ∃ t, os'.trace = os.trace ++ t := by
  intro k
  induction k with
  | zero =>
    intro fuel os d hf hd _ hread
    obtain ⟨f, rfl⟩ : ∃ f, fuel = f + 1 := ⟨fuel - 1, by omega⟩
    simp only [Nat.add_zero] at hread
    refine ⟨{ os.emit (.read fd) with reads_done := os.reads_done + 1 }, ?_, rfl, [.read fd], rfl⟩
    simp only [read_error_channel, read, hd, hread]
  | succ k ih =>
    intro fuel os d hf hd herr hread
    obtain ⟨f, rfl⟩ : ∃ f, fuel = f + 1 := ⟨fuel - 1, by omega⟩
    obtain ⟨e, he⟩ := herr 0 (by omega)
    simp only [Nat.add_zero] at he
    have hstep : ∀ os2 : OS, os2.fds = os.fds → os2.reads = os.reads →
        os2.reads_done = os.reads_done + 1 → (∃ t, os2.trace = os.trace ++ t) →
        ∃ os', read_error_channel msg fd f os2 = .ok ((size, error_no), os') ∧
          os'.fds = os.fds ∧ ∃ t, os'.trace = os.trace ++ t := by
      intro os2 hfds hreads hdone ⟨t2, ht2⟩
      have hd2 : os2.descriptor fd = some d := by
        unfold OS.descriptor at hd ⊢; rw [hfds]; exact hd
      obtain ⟨os', hrun, hfds', t, ht⟩ := ih f os2 d (by omega) hd2
        (fun j hj => by
          obtain ⟨e', he'⟩ := herr (j + 1) (by omega)
          exact ⟨e', by rw [hreads, hdone, ← he']; congr 1; omega⟩)
        (by rw [hreads, hdone, ← hread]; congr 1; omega)
      exact ⟨os', hrun, by rw [hfds', hfds], t2 ++ t, by rw [ht, ht2, List.append_assoc]⟩
    simp only [read_error_channel, read, hd, he]
    split
    · exact hstep _ rfl rfl rfl ⟨[.read fd], rfl⟩
    · exact hstep _ rfl rfl rfl ⟨[.read fd, .log_error msg], by simp [OS.emit]⟩

/-- C9: in the parent branch of `vm_spawn`, once a read of the error channel
returns a byte count (after any number of failed reads), the result is
`Fixnum(pid)` when the count is 0 and the errno error "execvp(2) failed" with
the integer read when the count is not 0; in both cases the parent has closed
both ends of the error-channel pipe. -/
theorem vm_spawn_parent_result (pid errors0 errors1 : Int) (os : OS) (k size : Nat)
    (error_no : Int) (fuel : Nat)
    (hne : errors0 ≠ errors1)
    (h0 : os.is_open errors0 = true) (h1 : os.is_open errors1 = true)
    (herr : ∀ j, j < k → ∃ e, os.reads (os.reads_done + j) = .error e)
    (hread : os.reads (os.reads_done + k) = .bytes size error_no)
    (hfuel : k < fuel) :
    ∃ os', vm_spawn_parent fuel pid errors0 errors1 os
        = .ok (if size = 0 then .ok (.fixnum pid)
               else .error (.errno_error "execvp(2) failed" error_no), os') ∧
      os'.is_open errors0 = false ∧ os'.is_open errors1 = false ∧
      Syscall.close errors0 ∈ os'.trace ∧ Syscall.close errors1 ∈ os'.trace := by
  obtain ⟨d0, hd0⟩ : ∃ d, os.descriptor errors0 = some d := by
    unfold OS.is_open at h0
    exact Option.isSome_iff_exists.1 h0
  obtain ⟨d1, hd1⟩ : ∃ d, os.descriptor errors1 = some d := by
    unfold OS.is_open at h1
    exact Option.isSome_iff_exists.1 h1
  obtain ⟨hc1, ht1, hr1, hn1⟩ := close_open errors1 os d1 hd1
  -- the state in which the loop starts
  have hd0' : ((close errors1 os).2.emit (.log_write "spawn: %d: %s, %s, %s:%d")).descriptor
      errors0 = some d0 := by
    rw [descriptor_emit, hc1, if_neg hne, hd0]
  obtain ⟨os3, hrun, hfds3, t3, ht3⟩ := read_error_channel_returns
    "%s: spawn: reading error status" errors0 size error_no k fuel
    ((close errors1 os).2.emit (.log_write "spawn: %d: %s, %s, %s:%d")) d0 hfuel hd0'
    (fun j hj => by
      obtain ⟨e, he⟩ := herr j hj
      exact ⟨e, by show (close errors1 os).2.reads ((close errors1 os).2.reads_done + j) = _
                   rw [hr1, hn1]; exact he⟩)
    (by show (close errors1 os).2.reads ((close errors1 os).2.reads_done + k) = _
        rw [hr1, hn1]; exact hread)
  have hdesc3 : ∀ x, os3.descriptor x = if x = errors1 then none else os.descriptor x := by
    intro x
    have : os3.descriptor x
        = ((close errors1 os).2.emit (.log_write "spawn: %d: %s, %s, %s:%d")).descriptor x := by
      unfold OS.descriptor; rw [hfds3]
    rw [this, descriptor_emit, hc1]
  have hd03 : os3.descriptor errors0 = some d0 := by rw [hdesc3, if_neg hne, hd0]
  obtain ⟨hc0, ht0, _, _⟩ := close_open errors0 os3 d0 hd03
  refine ⟨(close errors0 os3).2, ?_, ?_, ?_, ?_, ?_⟩
  · simp only [vm_spawn_parent, hrun]
    by_cases hs : size = 0
    · simp [hs]
    · simp [hs]
  · unfold OS.is_open; rw [hc0, if_pos rfl]; rfl
  · unfold OS.is_open; rw [hc0, if_neg (Ne.symm hne), hdesc3, if_pos rfl]; rfl
  · rw [ht0]; simp
  · rw [ht0, ht3]
    have : ((close errors1 os).2.emit (.log_write "spawn: %d: %s, %s, %s:%d")).trace
        = os.trace ++ [.close errors1, .log_write "spawn: %d: %s, %s, %s:%d"] := by
      show (close errors1 os).2.trace ++ _ = _
      rw [ht1]; simp
    rw [this]; simp

theorem vm_spawn_parent_result_witness :
    ∃ os', vm_spawn_parent 2 42 3 4
        (sample_parent_os (fun i => if i = 0 then .error EINTR else .bytes 4 ENOENT))
        = .ok (if 4 = 0 then .ok (.fixnum 42)
               else .error (.errno_error "execvp(2) failed" ENOENT), os') ∧
      os'.is_open 3 = false ∧ os'.is_open 4 = false ∧
      Syscall.close 3 ∈ os'.trace ∧ Syscall.close 4 ∈ os'.trace :=
  vm_spawn_parent_result 42 3 4
    (sample_parent_os (fun i => if i = 0 then .error EINTR else .bytes 4 ENOENT)) 1 4 ENOENT 2
    (by decide) (by decide) (by decide)
    (fun j hj => ⟨EINTR, by
      have : j = 0 := by omega
      subst this; rfl⟩)
    (by rfl) (by decide)

theorem read_error_channel_never_returns (msg : String) (fd : Int) (errno : Int) :
    ∀ (fuel : Nat) (os : OS) (d : Descriptor), os.descriptor fd = some d →
      (∀ i, os.reads i = .error errno) →
      read_error_channel msg fd fuel os = .outOfFuel := by
  intro fuel
  induction fuel with
  | zero => intro os d _ _; rfl
  | succ f ih =>
    intro os d hd hreads
    simp only [read_error_channel, read, hd, hreads]
    split
    · exact ih _ d hd hreads
    · exact ih _ d hd hreads

/-- C10 (the code at the failing input): after a read of the error channel has
failed with `EIO`, `vm_spawn` reads again. When every read fails with `EIO` the
loop never ends, whatever the iteration budget; when the next read delivers an
error code the call raises instead of returning the pid. -/
theorem vm_spawn_parent_other_errno_retries :
    (∀ fuel, vm_spawn_parent fuel 42 3 4 (sample_parent_os (fun _ => .error EIO))
        = .outOfFuel) ∧
    (∃ os', vm_spawn_parent 2 42 3 4
        (sample_parent_os (fun i => if i = 0 then .error EIO else .bytes 4 ENOENT))
        = .ok (.error (.errno_error "execvp(2) failed" ENOENT), os') ∧
      os'.trace = [.close 4, .log_write "spawn: %d: %s, %s, %s:%d", .read 3,
        .log_error "%s: spawn: reading error status", .read 3, .close 3]) := by
  constructor
  · intro fuel
    have := read_error_channel_never_returns "%s: spawn: reading error status" 3 EIO fuel
      ((close 4 (sample_parent_os (fun _ => .error EIO))).2.emit
        (.log_write "spawn: %d: %s, %s, %s:%d")) ⟨7, 0⟩ (by decide) (fun _ => rfl)
    simp only [vm_spawn_parent, this]
  · exact ⟨_, rfl, by decide⟩

theorem close_others_marks_cloexec_witness :
    (∀ (fd : Int) (d : Descriptor), 3 ≤ fd →
        fd < (sample_parent_os (fun _ => .bytes 0 0)).max_descriptors →
        (sample_parent_os (fun _ => .bytes 0 0)).descriptor fd = some d →
        ∃ d', (close_others_block [(Symbol.close_others, Object.cFalse)]
            (sample_parent_os (fun _ => .bytes 0 0))).descriptor fd = some d' ∧
          d'.file = d.file ∧ d'.flags.testBit 0 = true ∧
          ∀ k, k ≠ 0 → d'.flags.testBit k = d.flags.testBit k) ∧
    (∀ fd : Int, fd ≤ 2 →
        (close_others_block [(Symbol.close_others, Object.cFalse)]
            (sample_parent_os (fun _ => .bytes 0 0))).descriptor fd
          = (sample_parent_os (fun _ => .bytes 0 0)).descriptor fd) ∧
    (∀ fd : Int, (sample_parent_os (fun _ => .bytes 0 0)).descriptor fd = none →
        (close_others_block [(Symbol.close_others, Object.cFalse)]
            (sample_parent_os (fun _ => .bytes 0 0))).descriptor fd = none) :=
  close_others_marks_cloexec [(Symbol.close_others, Object.cFalse)]
    (sample_parent_os (fun _ => .bytes 0 0)) (by decide)

theorem redirect_fd_pair_duplicates_witness :
    ∃ dsrc d1 d',
      sample_os.descriptor (redirect_source 1) = some dsrc ∧
      (dup2 (redirect_source 1) 4 sample_os).2.descriptor 4 = some d1 ∧
      (redirect_entry (4, 1) sample_os).descriptor 4 = some d' ∧
      d'.file = dsrc.file ∧
      d'.flags.testBit 0 = false ∧
      (∀ k, k ≠ 0 → d'.flags.testBit k = d1.flags.testBit k) ∧
      ∀ x, x ≠ 4 → (redirect_entry (4, 1) sample_os).descriptor x = sample_os.descriptor x :=
  (redirect_fd_pair_duplicates 4 1 sample_os).2.2.1 (by decide)

/-! ### `vm_fork` -/

/-- C14: `vm_fork` returns nil when `fork()` returns 0, `Fixnum(pid)` when it
returns a positive pid, and raises an errno error when it returns -1; in the
child the VM's `after_fork_child`, the thread's `init_lock`, the shared state's
`after_fork_child` and the thread registry's `after_fork_child` have run, in
this order, before nil is returned. -/
theorem vm_fork_result (err : Int) (p : Proc) :
    ((vm_fork 0 err p).1 = .ok .cNil ∧
      (vm_fork 0 err p).2.os.trace = p.os.trace ++
        [.hook .lock_fork_exec, .hook .before_fork, .hook .lock_phase_enter, .fork,
         .hook .vm_after_fork_child, .hook .lock_phase_leave, .hook .unlock_fork_exec,
         .hook .thread_init_lock, .hook .shared_after_fork_child,
         .hook .threads_after_fork_child]) ∧
    (∀ pid : Int, 0 < pid → (vm_fork pid err p).1 = .ok (.fixnum pid)) ∧
    ((vm_fork (-1) err p).1 = .error (.errno_error "fork(2) failed" err) ∧
      (vm_fork (-1) err p).2.os.trace = p.os.trace ++
        [.hook .lock_fork_exec, .hook .before_fork, .hook .lock_phase_enter, .fork,
         .hook .lock_phase_leave, .hook .unlock_fork_exec]) := by
  refine ⟨⟨?_, ?_⟩, ?_, ?_, ?_⟩
  · simp [vm_fork, fork]
  · simp [vm_fork, fork, Proc.hook, Proc.emit, OS.emit]
  · intro pid hpid
    have h0 : ¬ pid = 0 := by omega
    have h1 : ¬ pid = -1 := by omega
    simp [vm_fork, fork, h0, h1]
  · simp [vm_fork, fork, Proc.hook, Proc.emit, OS.emit]
  · simp [vm_fork, fork, Proc.hook, Proc.emit, OS.emit]

theorem vm_fork_result_witness :
    (vm_fork 5 0 (sample_proc sample_os (fun _ => .failed ECHILD) (fun _ => true)
      (fun _ => .data []))).1 = .ok (.fixnum 5) :=
  (vm_fork_result 0 (sample_proc sample_os (fun _ => .failed ECHILD) (fun _ => true)
    (fun _ => .data []))).2.1 5 (by decide)

/-! ### `vm_wait_pid` -/

theorem sighup_catchable : ¬ (SIGHUP = 0 ∨ NSIG ≤ SIGHUP ∨ uncatchable SIGHUP = true) := by
  decide

theorem sigquit_catchable : ¬ (SIGQUIT = 0 ∨ NSIG ≤ SIGQUIT ∨ uncatchable SIGQUIT = true) := by
  decide

theorem sigint_catchable : ¬ (SIGINT = 0 ∨ NSIG ≤ SIGINT ∨ uncatchable SIGINT = true) := by
  decide

theorem signal_fst (sig : Nat) (h : Handler) (p : Proc)
    (hs : ¬ (sig = 0 ∨ NSIG ≤ sig ∨ uncatchable sig = true)) :
    (signal sig h p).1 = (p.signals sig).sa_handler := by
  simp only [signal, if_neg hs]

theorem signal_signals (sig : Nat) (h : Handler) (p : Proc)
    (hs : ¬ (sig = 0 ∨ NSIG ≤ sig ∨ uncatchable sig = true)) (s : Nat) :
    (signal sig h p).2.signals s
      = if s = sig then { sa_handler := h, sa_flags := SA_RESTART, sa_mask := [sig] }
        else p.signals s := by
  simp only [signal, if_neg hs]

theorem signal_trace (sig : Nat) (h : Handler) (p : Proc) :
    (signal sig h p).2.os.trace = p.os.trace ++ [.signal sig h] := by
  unfold signal; split <;> rfl

theorem signal_errno (sig : Nat) (h : Handler) (p : Proc)
    (hs : ¬ (sig = 0 ∨ NSIG ≤ sig ∨ uncatchable sig = true)) :
    (signal sig h p).2.errno = p.errno := by
  simp only [signal, if_neg hs]; rfl

theorem signal_waits (sig : Nat) (h : Handler) (p : Proc) :
    (signal sig h p).2.waits = p.waits ∧ (signal sig h p).2.waits_done = p.waits_done ∧
    (signal sig h p).2.asyncs = p.asyncs ∧ (signal sig h p).2.asyncs_done = p.asyncs_done := by
  unfold signal; split <;> exact ⟨rfl, rfl, rfl, rfl⟩

theorem waitpid_spec (pid options : Int) (p : Proc) :
    (waitpid pid options p).1
        = (match p.waits p.waits_done with
           | .returned r _ => r
           | .failed _ => -1) ∧
    (waitpid pid options p).2.1
        = (match p.waits p.waits_done with
           | .returned _ status => status
           | .failed _ => 0) ∧
    (waitpid pid options p).2.2.errno
        = (match p.waits p.waits_done with
           | .returned _ _ => p.errno
           | .failed e => e) ∧
    (waitpid pid options p).2.2.os.trace = p.os.trace ++ [.waitpid pid options] ∧
    (waitpid pid options p).2.2.signals = p.signals ∧
    (waitpid pid options p).2.2.waits = p.waits ∧
    (waitpid pid options p).2.2.waits_done = p.waits_done + 1 ∧
    (waitpid pid options p).2.2.asyncs = p.asyncs ∧
    (waitpid pid options p).2.2.asyncs_done = p.asyncs_done := by
  unfold waitpid
  cases p.waits p.waits_done <;> exact ⟨rfl, rfl, rfl, rfl, rfl, rfl, rfl, rfl, rfl⟩

/-- The process in which `waitpid` runs during a turn of `vm_wait_pid`. -/
theorem wait_attempt_spec (input_pid options : Int) (p : Proc) :
    (wait_attempt input_pid options p).1
        = (match p.waits p.waits_done with
           | .returned r _ => r
           | .failed _ => -1) ∧
    (wait_attempt input_pid options p).2.1
        = (match p.waits p.waits_done with
           | .returned _ status => status
           | .failed _ => 0) ∧
    (wait_attempt input_pid options p).2.2.errno
        = (match p.waits p.waits_done with
           | .returned _ _ => p.errno
           | .failed e => e) ∧
    (wait_attempt input_pid options p).2.2.os.trace = p.os.trace ++
        [.signal SIGHUP .SIG_IGN, .signal SIGQUIT .SIG_IGN, .signal SIGINT .SIG_IGN,
         .hook .unmanaged_enter, .waitpid input_pid options, .hook .unmanaged_leave,
         .signal SIGHUP (p.signals SIGHUP).sa_handler,
         .signal SIGQUIT (p.signals SIGQUIT).sa_handler,
         .signal SIGINT (p.signals SIGINT).sa_handler] ∧
    (wait_attempt input_pid options p).2.2.waits = p.waits ∧
    (wait_attempt input_pid options p).2.2.waits_done = p.waits_done + 1 ∧
    (wait_attempt input_pid options p).2.2.asyncs = p.asyncs ∧
    (wait_attempt input_pid options p).2.2.asyncs_done = p.asyncs_done ∧
    (∀ s, ((wait_attempt input_pid options p).2.2.signals s).sa_handler
        = (p.signals s).sa_handler) ∧
    (∀ s, s ≠ SIGHUP → s ≠ SIGQUIT → s ≠ SIGINT →
        (wait_attempt input_pid options p).2.2.signals s = p.signals s) := by
  have hh := sighup_catchable
  have hq := sigquit_catchable
  have hi := sigint_catchable
  -- the handlers found
  have e1 : (signal SIGHUP .SIG_IGN p).1 = (p.signals SIGHUP).sa_handler := signal_fst _ _ _ hh
  have e2 : (signal SIGQUIT .SIG_IGN (signal SIGHUP .SIG_IGN p).2).1
      = (p.signals SIGQUIT).sa_handler := by
    rw [signal_fst _ _ _ hq, signal_signals _ _ _ hh, if_neg (by decide)]
  have e3 : (signal SIGINT .SIG_IGN (signal SIGQUIT .SIG_IGN (signal SIGHUP .SIG_IGN p).2).2).1
      = (p.signals SIGINT).sa_handler := by
    rw [signal_fst _ _ _ hi, signal_signals _ _ _ hq, if_neg (by decide),
      signal_signals _ _ _ hh, if_neg (by decide)]
  generalize hp3 : (signal SIGINT .SIG_IGN (signal SIGQUIT .SIG_IGN
    (signal SIGHUP .SIG_IGN p).2).2).2 = p3 at e3
  have t3 : p3.os.trace = p.os.trace ++
      [.signal SIGHUP .SIG_IGN, .signal SIGQUIT .SIG_IGN, .signal SIGINT .SIG_IGN] := by
    rw [← hp3, signal_trace, signal_trace, signal_trace]; simp
  have er3 : p3.errno = p.errno := by
    rw [← hp3, signal_errno _ _ _ hi, signal_errno _ _ _ hq, signal_errno _ _ _ hh]
  have w3 : p3.waits = p.waits ∧ p3.waits_done = p.waits_done ∧ p3.asyncs = p.asyncs ∧
      p3.asyncs_done = p.asyncs_done := by
    rw [← hp3]
    obtain ⟨a1, a2, a3, a4⟩ := signal_waits SIGINT .SIG_IGN
      (signal SIGQUIT .SIG_IGN (signal SIGHUP .SIG_IGN p).2).2
    obtain ⟨b1, b2, b3, b4⟩ := signal_waits SIGQUIT .SIG_IGN (signal SIGHUP .SIG_IGN p).2
    obtain ⟨c1, c2, c3, c4⟩ := signal_waits SIGHUP .SIG_IGN p
    exact ⟨by rw [a1, b1, c1], by rw [a2, b2, c2], by rw [a3, b3, c3], by rw [a4, b4, c4]⟩
  have s3 : ∀ s, s ≠ SIGINT → s ≠ SIGQUIT → s ≠ SIGHUP → p3.signals s = p.signals s := by
    intro s h1 h2 h3
    rw [← hp3, signal_signals _ _ _ hi, signal_signals _ _ _ hq, signal_signals _ _ _ hh,
      if_neg h1, if_neg h2, if_neg h3]
  obtain ⟨v1, v2, v3, v4, v5, v6, v7, v8, v9⟩ :=
    waitpid_spec input_pid options (p3.hook .unmanaged_enter)
  have hunfold : wait_attempt input_pid options p
      = ((waitpid input_pid options (p3.hook .unmanaged_enter)).1,
         (waitpid input_pid options (p3.hook .unmanaged_enter)).2.1,
         (signal SIGINT (p.signals SIGINT).sa_handler
           (signal SIGQUIT (p.signals SIGQUIT).sa_handler
             (signal SIGHUP (p.signals SIGHUP).sa_handler
               ((waitpid input_pid options (p3.hook .unmanaged_enter)).2.2.hook
                 .unmanaged_leave)).2).2).2) := by
    unfold wait_attempt
    simp only [e1, e2, hp3, e3]
  rw [hunfold]
  simp only
  have hwaits : (p3.hook .unmanaged_enter).waits (p3.hook .unmanaged_enter).waits_done
      = p.waits p.waits_done := by
    show p3.waits p3.waits_done = _
    rw [w3.1, w3.2.1]
  rw [hwaits] at v1 v2 v3
  generalize hq1 : (waitpid input_pid options (p3.hook .unmanaged_enter)).2.2 = q1
    at v3 v4 v5 v6 v7 v8 v9
  refine ⟨v1, v2, ?_, ?_, ?_, ?_, ?_, ?_, ?_, ?_⟩
  · rw [signal_errno _ _ _ hi, signal_errno _ _ _ hq, signal_errno _ _ _ hh]
    show q1.errno = _
    rw [v3]
    cases p.waits p.waits_done <;> simp [Proc.hook, Proc.emit, er3]
  · rw [signal_trace, signal_trace, signal_trace]
    show q1.os.trace ++ _ ++ _ ++ _ ++ _ = _
    rw [v4]
    show p3.os.trace ++ _ ++ _ ++ _ ++ _ ++ _ ++ _ = _
    rw [t3]; simp
  · rw [(signal_waits _ _ _).1, (signal_waits _ _ _).1, (signal_waits _ _ _).1]
    show q1.waits = _
    rw [v6]; exact w3.1
  · rw [(signal_waits _ _ _).2.1, (signal_waits _ _ _).2.1, (signal_waits _ _ _).2.1]
    show q1.waits_done = _
    rw [v7]
    show p3.waits_done + 1 = _
    rw [w3.2.1]
  · rw [(signal_waits _ _ _).2.2.1, (signal_waits _ _ _).2.2.1, (signal_waits _ _ _).2.2.1]
    show q1.asyncs = _
    rw [v8]; exact w3.2.2.1
  · rw [(signal_waits _ _ _).2.2.2, (signal_waits _ _ _).2.2.2, (signal_waits _ _ _).2.2.2]
    show q1.asyncs_done = _
    rw [v9]; exact w3.2.2.2
  · intro s
    rw [signal_signals _ _ _ hi, signal_signals _ _ _ hq, signal_signals _ _ _ hh]
    by_cases h1 : s = SIGINT
    · subst h1; rw [if_pos rfl]
    · by_cases h2 : s = SIGQUIT
      · subst h2; rw [if_neg h1, if_pos rfl]
      · by_cases h3 : s = SIGHUP
        · subst h3; rw [if_neg h1, if_neg h2, if_pos rfl]
        · simp only [if_neg h1, if_neg h2, if_neg h3]
          show (q1.signals s).sa_handler = _
          rw [v5]
          show (p3.signals s).sa_handler = _
          rw [s3 s h1 h2 h3]
  · intro s h3 h2 h1
    rw [signal_signals _ _ _ hi, signal_signals _ _ _ hq, signal_signals _ _ _ hh]
    simp only [if_neg h1, if_neg h2, if_neg h3]
    show q1.signals s = _
    rw [v5]
    show p3.signals s = _
    rw [s3 s h1 h2 h3]

theorem check_async_spec (p : Proc) :
    (check_async p).1 = p.asyncs p.asyncs_done ∧
    (check_async p).2.os.trace = p.os.trace ++ [.check_async] ∧
    (check_async p).2.signals = p.signals ∧
    (check_async p).2.waits = p.waits ∧
    (check_async p).2.waits_done = p.waits_done ∧
    (check_async p).2.asyncs = p.asyncs ∧
    (check_async p).2.asyncs_done = p.asyncs_done + 1 ∧
    (check_async p).2.errno = p.errno :=
  ⟨rfl, rfl, rfl, rfl, rfl, rfl, rfl, rfl⟩

theorem ignored_at_waits_attempt (hup quit int : Handler) (a b : Int) (rest : List Syscall) :
    ignored_at_waits hup quit int
      ([.signal SIGHUP .SIG_IGN, .signal SIGQUIT .SIG_IGN, .signal SIGINT .SIG_IGN,
        .hook .unmanaged_enter, .waitpid a b, .hook .unmanaged_leave,
        .signal SIGHUP hup, .signal SIGQUIT quit, .signal SIGINT int] ++ rest)
      = ignored_at_waits hup quit int rest := by
  simp [ignored_at_waits, SIGHUP, SIGQUIT, SIGINT]

/-- What holds whenever the loop of `vm_wait_pid` returns: the calls issued, the
signal table and the `waitpid` attempt that decided. -/
theorem vm_wait_pid_retry_invariant (input_pid options : Int) (no_hang : Object) :
    ∀ (fuel : Nat) (p : Proc) (r : Option Object) (p' : Proc),
      vm_wait_pid_retry input_pid options no_hang fuel p = .ok (r, p') →
      ∃ t, p'.os.trace = p.os.trace ++ t ∧
        (∀ a b, Syscall.waitpid a b ∈ t → a = input_pid ∧ b = options) ∧
        Syscall.waitpid input_pid options ∈ t ∧
        ignored_at_waits (p.signals SIGHUP).sa_handler (p.signals SIGQUIT).sa_handler
          (p.signals SIGINT).sa_handler t = true ∧
        (∀ s, (p'.signals s).sa_handler = (p.signals s).sa_handler) ∧
        (∀ s, s ≠ SIGHUP → s ≠ SIGQUIT → s ≠ SIGINT → p'.signals s = p.signals s) ∧
        p'.waits = p.waits ∧ p.waits_done < p'.waits_done ∧
        (r ≠ none → p.waits (p'.waits_done - 1) ≠ .failed EINTR) := by
  intro fuel
  induction fuel with
  | zero => intro p r p' h; simp [vm_wait_pid_retry] at h
  | succ f ih =>
    intro p r p' h
    obtain ⟨a1, a2, a3, a4, a5, a6, a7, a8, a9, a10⟩ := wait_attempt_spec input_pid options p
    -- what a returning turn establishes
    have hturn : ∀ o : Option Object, r = o → p' = (wait_attempt input_pid options p).2.2 →
        (o ≠ none → p.waits p.waits_done ≠ .failed EINTR) →
        ∃ t, p'.os.trace = p.os.trace ++ t ∧
          (∀ a b, Syscall.waitpid a b ∈ t → a = input_pid ∧ b = options) ∧
          Syscall.waitpid input_pid options ∈ t ∧
          ignored_at_waits (p.signals SIGHUP).sa_handler (p.signals SIGQUIT).sa_handler
            (p.signals SIGINT).sa_handler t = true ∧
          (∀ s, (p'.signals s).sa_handler = (p.signals s).sa_handler) ∧
          (∀ s, s ≠ SIGHUP → s ≠ SIGQUIT → s ≠ SIGINT → p'.signals s = p.signals s) ∧
          p'.waits = p.waits ∧ p.waits_done < p'.waits_done ∧
          (r ≠ none → p.waits (p'.waits_done - 1) ≠ .failed EINTR) := by
      intro o hr hp' hdec
      subst hp'
      refine ⟨_, a4, ?_, ?_, ?_, a9, a10, a5, by rw [a6]; omega, ?_⟩
      · intro a b hab
        simp at hab
        exact ⟨hab.1, hab.2⟩
      · simp
      · have := ignored_at_waits_attempt (p.signals SIGHUP).sa_handler
          (p.signals SIGQUIT).sa_handler (p.signals SIGINT).sa_handler input_pid options []
        simpa [ignored_at_waits] using this
      · intro hne
        rw [a6, Nat.add_sub_cancel]
        exact hdec (hr ▸ hne)
    rw [vm_wait_pid_retry] at h
    simp only at h
    by_cases hpid : (wait_attempt input_pid options p).1 = -1
    · rw [if_pos hpid] at h
      by_cases hchild : (wait_attempt input_pid options p).2.2.errno = ECHILD
      · rw [if_pos hchild] at h
        injection h with h
        injection h with h1 h2
        refine hturn (some .cFalse) h1.symm h2.symm ?_
        intro _ hw
        rw [a3, hw] at hchild
        have hne : (EINTR : Int) ≠ ECHILD := by decide
        exact hne hchild
      · rw [if_neg hchild] at h
        by_cases hintr : (wait_attempt input_pid options p).2.2.errno = EINTR
        · rw [if_pos hintr] at h
          obtain ⟨c1, c2, c3, c4, c5, c6, c7, c8⟩ :=
            check_async_spec (wait_attempt input_pid options p).2.2
          by_cases hasync : (check_async (wait_attempt input_pid options p).2.2).1 = true
          · simp only [hasync, Bool.not_true, Bool.false_eq_true, if_false] at h
            obtain ⟨t, ht, hw, _, hig, hh, hs, hwaits, hdone, hdec⟩ := ih _ r p' h
            refine ⟨_, by rw [ht, c2, a4, List.append_assoc, List.append_assoc], ?_, ?_, ?_,
              ?_, ?_, ?_, ?_, ?_⟩
            · intro a b hab
              simp only [List.mem_append, List.mem_cons, List.mem_singleton,
                List.not_mem_nil, or_false] at hab
              rcases hab with hab | hab | hab
              · simp at hab; exact ⟨hab.1, hab.2⟩
              · simp at hab
              · exact hw a b hab
            · simp
            · rw [ignored_at_waits_attempt]
              simp only [List.singleton_append, ignored_at_waits]
              rw [c3, a9, a9, a9] at hig
              exact hig
            · intro s; rw [hh s, c3, a9]
            · intro s h1 h2 h3; rw [hs s h1 h2 h3, c3, a10 s h1 h2 h3]
            · rw [hwaits, c4, a5]
            · rw [c5, a6] at hdone; omega
            · intro hne
              have := hdec hne
              rw [c4, a5] at this
              exact this
          · simp only [hasync, Bool.not_false, if_true] at h
            injection h with h
            injection h with h1 h2
            subst h2
            refine ⟨_, by rw [c2, a4, List.append_assoc], ?_, ?_, ?_, ?_, ?_, ?_, ?_, ?_⟩
            · intro a b hab
              simp at hab; exact ⟨hab.1, hab.2⟩
            · simp
            · rw [ignored_at_waits_attempt]; rfl
            · intro s; rw [c3, a9]
            · intro s h1 h2 h3; rw [c3, a10 s h1 h2 h3]
            · rw [c4, a5]
            · rw [c5, a6]; omega
            · intro hne; exact absurd h1.symm hne
        · rw [if_neg hintr] at h
          injection h with h
          injection h with h1 h2
          refine hturn (some .cFalse) h1.symm h2.symm ?_
          intro _ hw
          rw [a3, hw] at hintr
          exact hintr rfl
    · rw [if_neg hpid] at h
      have hdec : p.waits p.waits_done ≠ .failed EINTR := by
        intro hw
        rw [a1, hw] at hpid
        exact hpid rfl
      by_cases hnh : (CBOOL no_hang && decide ((wait_attempt input_pid options p).1 = 0)) = true
      · rw [if_pos hnh] at h
        injection h with h
        injection h with h1 h2
        exact hturn (some .cNil) h1.symm h2.symm (fun _ => hdec)
      · rw [if_neg hnh] at h
        injection h with h
        injection h with h1 h2
        exact hturn _ h1.symm h2.symm (fun _ => hdec)

theorem vm_wait_pid_retry_returned (input_pid options : Int) (no_hang : Object) (fuel : Nat)
    (p : Proc) (pid : Int) (status : Nat)
    (hw : p.waits p.waits_done = .returned pid status) (hpid : pid ≠ -1) :
    vm_wait_pid_retry input_pid options no_hang (fuel + 1) p
      = .ok (some (if CBOOL no_hang && decide (pid = 0) then .cNil else wait_tuple status pid),
             (wait_attempt input_pid options p).2.2) := by
  obtain ⟨a1, a2, -⟩ := wait_attempt_spec input_pid options p
  rw [hw] at a1 a2
  simp only at a1 a2
  rw [vm_wait_pid_retry]
  simp only [a1, a2, if_neg hpid]
  split <;> rfl

theorem vm_wait_pid_retry_failed (input_pid options : Int) (no_hang : Object) (fuel : Nat)
    (p : Proc) (e : Int)
    (hw : p.waits p.waits_done = .failed e) (he : e ≠ EINTR) :
    vm_wait_pid_retry input_pid options no_hang (fuel + 1) p
      = .ok (some .cFalse, (wait_attempt input_pid options p).2.2) := by
  obtain ⟨a1, -, a3, -⟩ := wait_attempt_spec input_pid options p
  rw [hw] at a1 a3
  simp only at a1 a3
  rw [vm_wait_pid_retry]
  simp only [a1, a3, if_true, if_neg he]
  split <;> rfl

theorem vm_wait_pid_retry_interrupted (input_pid options : Int) (no_hang : Object) (fuel : Nat)
    (p : Proc) (hw : p.waits p.waits_done = .failed EINTR)
    (ha : p.asyncs p.asyncs_done = false) :
    vm_wait_pid_retry input_pid options no_hang (fuel + 1) p
      = .ok (none, (check_async (wait_attempt input_pid options p).2.2).2) := by
  obtain ⟨a1, -, a3, -, -, -, a7, a8, -⟩ := wait_attempt_spec input_pid options p
  rw [hw] at a1 a3
  simp only at a1 a3
  have hc : (check_async (wait_attempt input_pid options p).2.2).1 = false := by
    rw [(check_async_spec _).1, a7, a8, ha]
  have hne : (EINTR : Int) ≠ ECHILD := by decide
  rw [vm_wait_pid_retry]
  simp only [a1, a3, if_true, if_neg hne, hc, Bool.not_false]

theorem vm_wait_pid_retry_again (input_pid options : Int) (no_hang : Object) (fuel : Nat)
    (p : Proc) (hw : p.waits p.waits_done = .failed EINTR)
    (ha : p.asyncs p.asyncs_done = true) :
    vm_wait_pid_retry input_pid options no_hang (fuel + 1) p
      = vm_wait_pid_retry input_pid options no_hang fuel
          (check_async (wait_attempt input_pid options p).2.2).2 := by
  obtain ⟨a1, -, a3, -, -, -, a7, a8, -⟩ := wait_attempt_spec input_pid options p
  rw [hw] at a1 a3
  simp only at a1 a3
  have hc : (check_async (wait_attempt input_pid options p).2.2).1 = true := by
    rw [(check_async_spec _).1, a7, a8, ha]
  have hne : (EINTR : Int) ≠ ECHILD := by decide
  rw [vm_wait_pid_retry]
  simp only [a1, a3, if_true, if_neg hne, hc, Bool.not_true, Bool.false_eq_true, if_false]

/-- The state in which a retried wait starts again. -/
theorem wait_retry_state (input_pid options : Int) (p : Proc) :
    (check_async (wait_attempt input_pid options p).2.2).2.os.trace
        = p.os.trace ++
          [.signal SIGHUP .SIG_IGN, .signal SIGQUIT .SIG_IGN, .signal SIGINT .SIG_IGN,
           .hook .unmanaged_enter, .waitpid input_pid options, .hook .unmanaged_leave,
           .signal SIGHUP (p.signals SIGHUP).sa_handler,
           .signal SIGQUIT (p.signals SIGQUIT).sa_handler,
           .signal SIGINT (p.signals SIGINT).sa_handler, .check_async] ∧
      (check_async (wait_attempt input_pid options p).2.2).2.waits = p.waits ∧
      (check_async (wait_attempt input_pid options p).2.2).2.waits_done = p.waits_done + 1 ∧
      (check_async (wait_attempt input_pid options p).2.2).2.asyncs = p.asyncs ∧
      (check_async (wait_attempt input_pid options p).2.2).2.asyncs_done
        = p.asyncs_done + 1 := by
  obtain ⟨-, -, -, a4, a5, a6, a7, a8, -⟩ := wait_attempt_spec input_pid options p
  obtain ⟨-, c2, -, c4, c5, c6, c7, -⟩ := check_async_spec (wait_attempt input_pid options p).2.2
  refine ⟨?_, by rw [c4, a5], by rw [c5, a6], by rw [c6, a7], by rw [c7, a8]⟩
  rw [c2, a4, List.append_assoc]
  rfl

/-- The loop of `vm_wait_pid` returns once it has fuel for every `EINTR` that was
followed by a cancellation check with nothing pending, and one more turn. -/
theorem vm_wait_pid_retry_returns (input_pid options : Int) (no_hang : Object) :
    ∀ (k fuel : Nat) (p : Proc), k < fuel →
      (∀ j, j < k → p.waits (p.waits_done + j) = .failed EINTR ∧
        p.asyncs (p.asyncs_done + j) = true) →
      ((∃ pid status, p.waits (p.waits_done + k) = .returned pid status ∧ pid ≠ -1) ∨
       (∃ e, p.waits (p.waits_done + k) = .failed e ∧ e ≠ EINTR) ∨
       (p.waits (p.waits_done + k) = .failed EINTR ∧ p.asyncs (p.asyncs_done + k) = false)) →
      ∃ r p', vm_wait_pid_retry input_pid options no_hang fuel p = .ok (r, p') := by
  intro k
  induction k with
  | zero =>
    intro fuel p hf _ hlast
    obtain ⟨f, rfl⟩ : ∃ f, fuel = f + 1 := ⟨fuel - 1, by omega⟩
    simp only [Nat.add_zero] at hlast
    rcases hlast with ⟨pid, st, hw, hp⟩ | ⟨e, hw, he⟩ | ⟨hw, ha⟩
    · exact ⟨_, _, vm_wait_pid_retry_returned input_pid options no_hang f p pid st hw hp⟩
    · exact ⟨_, _, vm_wait_pid_retry_failed input_pid options no_hang f p e hw he⟩
    · exact ⟨_, _, vm_wait_pid_retry_interrupted input_pid options no_hang f p hw ha⟩
  | succ k ih =>
    intro fuel p hf hpre hlast
    obtain ⟨f, rfl⟩ : ∃ f, fuel = f + 1 := ⟨fuel - 1, by omega⟩
    have h0 := hpre 0 (by omega)
    simp only [Nat.add_zero] at h0
    rw [vm_wait_pid_retry_again input_pid options no_hang f p h0.1 h0.2]
    obtain ⟨-, s2, s3, s4, s5⟩ := wait_retry_state input_pid options p
    apply ih f _ (by omega)
    · intro j hj
      rw [s2, s3, s4, s5]
      have := hpre (j + 1) (by omega)
      rw [show p.waits_done + 1 + j = p.waits_done + (j + 1) by omega,
        show p.asyncs_done + 1 + j = p.asyncs_done + (j + 1) by omega]
      exact this
    · rw [s2, s3, s4, s5]
      rw [show p.waits_done + 1 + k = p.waits_done + (k + 1) by omega,
        show p.asyncs_done + 1 + k = p.asyncs_done + (k + 1) by omega]
      exact hlast

/-- C17: in `vm_wait_pid`, when `waitpid` fails with `EINTR` the cancellation check
is consulted: with an interrupt pending (the check answers false) the call returns
`NULL` right after that check, otherwise it starts again with the same pid and the
same options; every `waitpid` of a returning call has that pid and those options; a
result other than `NULL` comes only from an attempt that did not fail with `EINTR`;
and the call returns once the script of `waitpid` results reaches an attempt that
is not an `EINTR` with nothing pending. -/
theorem vm_wait_pid_eintr_retry (fuel : Nat) (input_pid : Int) (no_hang : Object) (p : Proc) :
    (p.waits p.waits_done = .failed EINTR → p.asyncs p.asyncs_done = false →
      ∃ p', vm_wait_pid (fuel + 1) input_pid no_hang p = .ok (none, p') ∧
        p'.os.trace = p.os.trace ++
          [.signal SIGHUP .SIG_IGN, .signal SIGQUIT .SIG_IGN, .signal SIGINT .SIG_IGN,
           .hook .unmanaged_enter, .waitpid input_pid (wait_options no_hang),
           .hook .unmanaged_leave,
           .signal SIGHUP (p.signals SIGHUP).sa_handler,
           .signal SIGQUIT (p.signals SIGQUIT).sa_handler,
           .signal SIGINT (p.signals SIGINT).sa_handler, .check_async]) ∧
    (p.waits p.waits_done = .failed EINTR → p.asyncs p.asyncs_done = true →
      ∃ p1, vm_wait_pid (fuel + 1) input_pid no_hang p = vm_wait_pid fuel input_pid no_hang p1 ∧
        p1.os.trace = p.os.trace ++
          [.signal SIGHUP .SIG_IGN, .signal SIGQUIT .SIG_IGN, .signal SIGINT .SIG_IGN,
           .hook .unmanaged_enter, .waitpid input_pid (wait_options no_hang),
           .hook .unmanaged_leave,
           .signal SIGHUP (p.signals SIGHUP).sa_handler,
           .signal SIGQUIT (p.signals SIGQUIT).sa_handler,
           .signal SIGINT (p.signals SIGINT).sa_handler, .check_async] ∧
        p1.waits = p.waits ∧ p1.waits_done = p.waits_done + 1 ∧
        p1.asyncs = p.asyncs ∧ p1.asyncs_done = p.asyncs_done + 1) ∧
    (∀ r q, vm_wait_pid fuel input_pid no_hang p = .ok (r, q) →
      ∀ a b, Syscall.waitpid a b ∈ q.os.trace.drop p.os.trace.length →
        a = input_pid ∧ b = wait_options no_hang) ∧
    (∀ o q, vm_wait_pid fuel input_pid no_hang p = .ok (some o, q) →
      p.waits_done < q.waits_done ∧ p.waits (q.waits_done - 1) ≠ .failed EINTR) ∧
    (∀ k, k < fuel →
      (∀ j, j < k → p.waits (p.waits_done + j) = .failed EINTR ∧
        p.asyncs (p.asyncs_done + j) = true) →
      ((∃ pid status, p.waits (p.waits_done + k) = .returned pid status ∧ pid ≠ -1) ∨
       (∃ e, p.waits (p.waits_done + k) = .failed e ∧ e ≠ EINTR) ∨
       (p.waits (p.waits_done + k) = .failed EINTR ∧ p.asyncs (p.asyncs_done + k) = false)) →
      ∃ r q, vm_wait_pid fuel input_pid no_hang p = .ok (r, q)) := by
  refine ⟨?_, ?_, ?_, ?_, ?_⟩
  · intro hw ha
    refine ⟨_, vm_wait_pid_retry_interrupted input_pid _ no_hang fuel p hw ha, ?_⟩
    exact (wait_retry_state input_pid (wait_options no_hang) p).1
  · intro hw ha
    refine ⟨_, vm_wait_pid_retry_again input_pid _ no_hang fuel p hw ha, ?_⟩
    exact wait_retry_state input_pid (wait_options no_hang) p
  · intro r q h a b hab
    obtain ⟨t, ht, hall, -⟩ := vm_wait_pid_retry_invariant input_pid _ no_hang fuel p r q h
    rw [ht, List.drop_left] at hab
    exact hall a b hab
  · intro o q h
    obtain ⟨t, -, -, -, -, -, -, -, hdone, hdec⟩ :=
      vm_wait_pid_retry_invariant input_pid _ no_hang fuel p (some o) q h
    exact ⟨hdone, hdec (by simp)⟩
  · intro k hk hpre hlast
    exact vm_wait_pid_retry_returns input_pid _ no_hang k fuel p hk hpre hlast

theorem vm_wait_pid_eintr_retry_witness :
    (∃ p1, vm_wait_pid 2 42 .cNil
        (sample_proc sample_os (fun i => if i = 0 then .failed EINTR else .returned 42 1792)
          (fun _ => true) (fun _ => .data []))
        = vm_wait_pid 1 42 .cNil p1 ∧
      p1.os.trace = [] ++
        [.signal SIGHUP .SIG_IGN, .signal SIGQUIT .SIG_IGN, .signal SIGINT .SIG_IGN,
         .hook .unmanaged_enter, .waitpid 42 (wait_options .cNil), .hook .unmanaged_leave,
         .signal SIGHUP .SIG_DFL, .signal SIGQUIT .SIG_DFL, .signal SIGINT (.fn 1),
         .check_async] ∧
      p1.waits = (fun i => if i = 0 then .failed EINTR else .returned 42 1792) ∧
      p1.waits_done = 0 + 1 ∧ p1.asyncs = (fun _ => true) ∧ p1.asyncs_done = 0 + 1) ∧
    (∃ p', vm_wait_pid 1 42 .cNil
        (sample_proc sample_os (fun _ => .failed EINTR) (fun _ => false) (fun _ => .data []))
        = .ok (none, p') ∧
      p'.os.trace = [] ++
        [.signal SIGHUP .SIG_IGN, .signal SIGQUIT .SIG_IGN, .signal SIGINT .SIG_IGN,
         .hook .unmanaged_enter, .waitpid 42 (wait_options .cNil), .hook .unmanaged_leave,
         .signal SIGHUP .SIG_DFL, .signal SIGQUIT .SIG_DFL, .signal SIGINT (.fn 1),
         .check_async]) :=
  ⟨(vm_wait_pid_eintr_retry 1 42 .cNil
      (sample_proc sample_os (fun i => if i = 0 then .failed EINTR else .returned 42 1792)
        (fun _ => true) (fun _ => .data []))).2.1 rfl rfl,
   (vm_wait_pid_eintr_retry 0 42 .cNil
      (sample_proc sample_os (fun _ => .failed EINTR) (fun _ => false)
        (fun _ => .data []))).1 rfl rfl⟩

/-- C19: with `no_hang` true the options of `vm_wait_pid` are `WNOHANG`, with
`no_hang` false they are 0; a returning call has called `waitpid` with these
options and with no others; and with `no_hang` true a `waitpid` that returns 0
makes the call return nil after that single attempt. -/
theorem vm_wait_pid_no_hang (fuel : Nat) (input_pid : Int) (no_hang : Object) (p : Proc) :
    (CBOOL no_hang = true → wait_options no_hang = WNOHANG) ∧
    (CBOOL no_hang = false → wait_options no_hang = 0) ∧
    (∀ r q, vm_wait_pid fuel input_pid no_hang p = .ok (r, q) →
      Syscall.waitpid input_pid (wait_options no_hang) ∈ q.os.trace.drop p.os.trace.length ∧
      ∀ a b, Syscall.waitpid a b ∈ q.os.trace.drop p.os.trace.length →
        b = wait_options no_hang) ∧
    (CBOOL no_hang = true → ∀ status, p.waits p.waits_done = .returned 0 status →
      ∃ q, vm_wait_pid (fuel + 1) input_pid no_hang p = .ok (some .cNil, q) ∧
        q.waits_done = p.waits_done + 1 ∧
        q.os.trace = p.os.trace ++
          [.signal SIGHUP .SIG_IGN, .signal SIGQUIT .SIG_IGN, .signal SIGINT .SIG_IGN,
           .hook .unmanaged_enter, .waitpid input_pid WNOHANG, .hook .unmanaged_leave,
           .signal SIGHUP (p.signals SIGHUP).sa_handler,
           .signal SIGQUIT (p.signals SIGQUIT).sa_handler,
           .signal SIGINT (p.signals SIGINT).sa_handler]) := by
  have hopt : CBOOL no_hang = true → wait_options no_hang = WNOHANG := by
    intro h
    simp only [wait_options, h, if_true]
    decide
  refine ⟨hopt, ?_, ?_, ?_⟩
  · intro h
    simp [wait_options, h]
  · intro r q h
    obtain ⟨t, ht, hall, hmem, -⟩ :=
      vm_wait_pid_retry_invariant input_pid _ no_hang fuel p r q h
    rw [ht, List.drop_left]
    exact ⟨hmem, fun a b hab => (hall a b hab).2⟩
  · intro hnh status hw
    obtain ⟨-, -, -, a4, -, a6, -⟩ := wait_attempt_spec input_pid (wait_options no_hang) p
    refine ⟨_, ?_, a6, ?_⟩
    · have := vm_wait_pid_retry_returned input_pid (wait_options no_hang) no_hang fuel p 0
        status hw (by decide)
      simpa [hnh] using this
    · rw [a4, hopt hnh]

theorem vm_wait_pid_no_hang_witness :
    ∃ q, vm_wait_pid 1 42 .cTrue
        (sample_proc sample_os (fun _ => .returned 0 0) (fun _ => true) (fun _ => .data []))
        = .ok (some .cNil, q) ∧
      q.waits_done = 0 + 1 ∧
      q.os.trace = [] ++
        [.signal SIGHUP .SIG_IGN, .signal SIGQUIT .SIG_IGN, .signal SIGINT .SIG_IGN,
         .hook .unmanaged_enter, .waitpid 42 WNOHANG, .hook .unmanaged_leave,
         .signal SIGHUP .SIG_DFL, .signal SIGQUIT .SIG_DFL, .signal SIGINT (.fn 1)] :=
  (vm_wait_pid_no_hang 0 42 .cTrue
    (sample_proc sample_os (fun _ => .returned 0 0) (fun _ => true)
      (fun _ => .data []))).2.2.2 rfl 0 rfl

/-- C20: whenever `vm_wait_pid` returns (a tuple, nil, false or `NULL`, after any
number of retries), the handlers of `SIGHUP`, `SIGQUIT` and `SIGINT` were
`SIG_IGN` at every `waitpid` it called, it called `waitpid` at least once, the
handlers of the three signals are those installed when the call began, and the
disposition of every other signal is unchanged. -/
theorem vm_wait_pid_signal_handlers (fuel : Nat) (input_pid : Int) (no_hang : Object)
    (p : Proc) (r : Option Object) (q : Proc)
    (h : vm_wait_pid fuel input_pid no_hang p = .ok (r, q)) :
    ignored_at_waits (p.signals SIGHUP).sa_handler (p.signals SIGQUIT).sa_handler
        (p.signals SIGINT).sa_handler (q.os.trace.drop p.os.trace.length) = true ∧
      Syscall.waitpid input_pid (wait_options no_hang) ∈ q.os.trace.drop p.os.trace.length ∧
      (q.signals SIGHUP).sa_handler = (p.signals SIGHUP).sa_handler ∧
      (q.signals SIGQUIT).sa_handler = (p.signals SIGQUIT).sa_handler ∧
      (q.signals SIGINT).sa_handler = (p.signals SIGINT).sa_handler ∧
      (∀ s, s ≠ SIGHUP → s ≠ SIGQUIT → s ≠ SIGINT → q.signals s = p.signals s) := by
  obtain ⟨t, ht, -, hmem, hig, hh, hs, -⟩ :=
    vm_wait_pid_retry_invariant input_pid _ no_hang fuel p r q h
  rw [ht, List.drop_left]
  exact ⟨hig, hmem, hh _, hh _, hh _, hs⟩

theorem vm_wait_pid_signal_handlers_witness :
    ignored_at_waits .SIG_DFL .SIG_DFL (.fn 1)
        ((wait_attempt 42 0 (check_async (wait_attempt 42 0
          (sample_proc sample_os (fun i => if i = 0 then .failed EINTR else .returned 42 1792)
            (fun _ => true) (fun _ => .data []))).2.2).2).2.2.os.trace.drop 0) = true ∧
      Syscall.waitpid 42 (wait_options .cNil) ∈
        (wait_attempt 42 0 (check_async (wait_attempt 42 0
          (sample_proc sample_os (fun i => if i = 0 then .failed EINTR else .returned 42 1792)
            (fun _ => true) (fun _ => .data []))).2.2).2).2.2.os.trace.drop 0 ∧
      ((wait_attempt 42 0 (check_async (wait_attempt 42 0
          (sample_proc sample_os (fun i => if i = 0 then .failed EINTR else .returned 42 1792)
            (fun _ => true) (fun _ => .data []))).2.2).2).2.2.signals SIGHUP).sa_handler
        = .SIG_DFL ∧
      ((wait_attempt 42 0 (check_async (wait_attempt 42 0
          (sample_proc sample_os (fun i => if i = 0 then .failed EINTR else .returned 42 1792)
            (fun _ => true) (fun _ => .data []))).2.2).2).2.2.signals SIGQUIT).sa_handler
        = .SIG_DFL ∧
      ((wait_attempt 42 0 (check_async (wait_attempt 42 0
          (sample_proc sample_os (fun i => if i = 0 then .failed EINTR else .returned 42 1792)
            (fun _ => true) (fun _ => .data []))).2.2).2).2.2.signals SIGINT).sa_handler
        = .fn 1 ∧
      (∀ s, s ≠ SIGHUP → s ≠ SIGQUIT → s ≠ SIGINT →
        (wait_attempt 42 0 (check_async (wait_attempt 42 0
          (sample_proc sample_os (fun i => if i = 0 then .failed EINTR else .returned 42 1792)
            (fun _ => true) (fun _ => .data []))).2.2).2).2.2.signals s
        = (sample_proc sample_os (fun i => if i = 0 then .failed EINTR else .returned 42 1792)
            (fun _ => true) (fun _ => .data [])).signals s) :=
  vm_wait_pid_signal_handlers 2 42 .cNil
    (sample_proc sample_os (fun i => if i = 0 then .failed EINTR else .returned 42 1792)
      (fun _ => true) (fun _ => .data []))
    (some (wait_tuple 1792 42)) _ rfl

theorem WTERMSIG_eq (s : Nat) : WTERMSIG s = s % 128 := by
  unfold WTERMSIG
  exact Nat.and_pow_two_sub_one_eq_mod s 7

theorem WEXITSTATUS_eq (s : Nat) : WEXITSTATUS s = s / 256 % 256 := by
  unfold WEXITSTATUS
  have h1 : s / 256 % 256 = (s >>> 8) &&& (0xff00 >>> 8) := by
    rw [show (0xff00 : Nat) >>> 8 = 2 ^ 8 - 1 by decide, Nat.and_pow_two_sub_one_eq_mod,
      Nat.shiftRight_eq_div_pow]
  rw [h1]
  apply Nat.eq_of_testBit_eq
  intro i
  simp only [Nat.testBit_shiftRight, Nat.testBit_and]

theorem WIFEXITED_eq (s : Nat) : WIFEXITED s = decide (s % 128 = 0) := by
  unfold WIFEXITED
  rw [WTERMSIG_eq]
  by_cases h : s % 128 = 0 <;> simp [h]

theorem WIFSIGNALED_eq (s : Nat) :
    WIFSIGNALED s = decide (1 ≤ s % 128 ∧ s % 128 ≤ 126) := by
  unfold WIFSIGNALED
  have h7 : s &&& 0x7f = s % 128 := Nat.and_pow_two_sub_one_eq_mod s 7
  simp only [h7]
  have hlt : s % 128 < 128 := Nat.mod_lt _ (by decide)
  generalize s % 128 = m at hlt
  by_cases h1 : m + 1 < 128
  · simp only [h1, if_true]
    rw [decide_eq_decide]
    omega
  · simp only [h1, if_false]
    rw [decide_eq_decide]
    omega

theorem WIFSTOPPED_eq (s : Nat) : WIFSTOPPED s = decide (s % 256 = 127) := by
  unfold WIFSTOPPED
  have h8 : s &&& 0xff = s % 256 := Nat.and_pow_two_sub_one_eq_mod s 8
  rw [h8]
  by_cases h : s % 256 = 127 <;> simp [h]

theorem wait_tuple_exited (status : Nat) (pid : Int) (h : status % 128 = 0) :
    wait_tuple status pid
      = .tuple [.fixnum ((status / 256 % 256 : Nat) : Int), .cNil, .cNil, .fixnum pid] := by
  simp [wait_tuple, WIFEXITED_eq, WEXITSTATUS_eq, h]

theorem wait_tuple_signaled (status : Nat) (pid : Int) (h1 : 1 ≤ status % 128)
    (h2 : status % 128 ≤ 126) :
    wait_tuple status pid
      = .tuple [.cNil, .fixnum ((status % 128 : Nat) : Int), .cNil, .fixnum pid] := by
  have h0 : status % 128 ≠ 0 := by omega
  simp [wait_tuple, WIFEXITED_eq, WIFSIGNALED_eq, WTERMSIG_eq, h0, h1, h2]

theorem wait_tuple_stopped (status : Nat) (pid : Int) (h : status % 256 = 127) :
    wait_tuple status pid
      = .tuple [.cNil, .cNil, .fixnum ((status / 256 % 256 : Nat) : Int), .fixnum pid] := by
  have h128 : status % 128 = 127 := by omega
  have h0 : status % 128 ≠ 0 := by omega
  have hs : ¬ (1 ≤ status % 128 ∧ status % 128 ≤ 126) := by omega
  simp [wait_tuple, WIFEXITED_eq, WIFSIGNALED_eq, WIFSTOPPED_eq, WSTOPSIG, WEXITSTATUS_eq,
    h0, hs, h]

theorem wait_tuple_one_field (status : Nat) (pid : Int) :
    wait_tuple status pid = .tuple [.fixnum (WEXITSTATUS status), .cNil, .cNil, .fixnum pid] ∨
    wait_tuple status pid = .tuple [.cNil, .fixnum (WTERMSIG status), .cNil, .fixnum pid] ∨
    wait_tuple status pid = .tuple [.cNil, .cNil, .fixnum (WSTOPSIG status), .fixnum pid] ∨
    wait_tuple status pid = .tuple [.cNil, .cNil, .cNil, .fixnum pid] := by
  unfold wait_tuple
  cases WIFEXITED status <;> cases WIFSIGNALED status <;> cases WIFSTOPPED status <;> simp

/-- C18: when `waitpid` succeeds with pid `pid` and wait status `status`,
`vm_wait_pid` returns the 4-tuple `wait_tuple status pid`, whose last field is the
pid and in which at most one of the first three fields is not nil: a status of a
normal exit (low seven bits 0) gives (exit code, nil, nil, pid), the exit code
being bits 8 to 15, so an exit with code `c < 256` gives `c` and code 7 gives 7; a
status of a termination by signal (low seven bits from 1 to 126) gives
(nil, signal, nil, pid); a status of a stop (low byte `0x7f`) gives
(nil, nil, signal, pid), the signal being bits 8 to 15. -/
theorem vm_wait_pid_status_tuple (fuel : Nat) (input_pid : Int) (no_hang : Object) (p : Proc)
    (pid : Int) (status : Nat)
    (hw : p.waits p.waits_done = .returned pid status) (hpid : 0 < pid) :
    (∃ q, vm_wait_pid (fuel + 1) input_pid no_hang p = .ok (some (wait_tuple status pid), q)) ∧
    (wait_tuple status pid = .tuple [.fixnum (WEXITSTATUS status), .cNil, .cNil, .fixnum pid] ∨
     wait_tuple status pid = .tuple [.cNil, .fixnum (WTERMSIG status), .cNil, .fixnum pid] ∨
     wait_tuple status pid = .tuple [.cNil, .cNil, .fixnum (WSTOPSIG status), .fixnum pid] ∨
     wait_tuple status pid = .tuple [.cNil, .cNil, .cNil, .fixnum pid]) ∧
    (status % 128 = 0 →
      wait_tuple status pid
        = .tuple [.fixnum ((status / 256 % 256 : Nat) : Int), .cNil, .cNil, .fixnum pid]) ∧
    (∀ c : Nat, c < 256 → status = c <<< 8 →
      wait_tuple status pid = .tuple [.fixnum (c : Int), .cNil, .cNil, .fixnum pid]) ∧
    (status = 7 <<< 8 →
      wait_tuple status pid = .tuple [.fixnum 7, .cNil, .cNil, .fixnum pid]) ∧
    (1 ≤ status % 128 → status % 128 ≤ 126 →
      wait_tuple status pid
        = .tuple [.cNil, .fixnum ((status % 128 : Nat) : Int), .cNil, .fixnum pid]) ∧
    (∀ s : Nat, 1 ≤ s → s ≤ 126 → (status = s ∨ status = s ||| 0x80) →
      wait_tuple status pid = .tuple [.cNil, .fixnum (s : Int), .cNil, .fixnum pid]) ∧
    (status % 256 = 127 →
      wait_tuple status pid
        = .tuple [.cNil, .cNil, .fixnum ((status / 256 % 256 : Nat) : Int), .fixnum pid]) ∧
    (∀ s : Nat, s < 256 → status = (s <<< 8) ||| 0x7f →
      wait_tuple status pid = .tuple [.cNil, .cNil, .fixnum (s : Int), .fixnum pid]) := by
  have hexit : ∀ c : Nat, c < 256 → status = c <<< 8 →
      wait_tuple status pid = .tuple [.fixnum (c : Int), .cNil, .cNil, .fixnum pid] := by
    intro c hc hs
    have hs2 : status = c * 256 := by rw [hs, Nat.shiftLeft_eq]
    rw [wait_tuple_exited status pid (by omega)]
    have : status / 256 % 256 = c := by omega
    rw [this]
  refine ⟨?_, wait_tuple_one_field status pid, wait_tuple_exited status pid, hexit,
    fun h => hexit 7 (by decide) h, wait_tuple_signaled status pid, ?_,
    wait_tuple_stopped status pid, ?_⟩
  · refine ⟨(wait_attempt input_pid (wait_options no_hang) p).2.2, ?_⟩
    have h0 : pid ≠ 0 := by omega
    show vm_wait_pid_retry input_pid (wait_options no_hang) no_hang (fuel + 1) p = _
    rw [vm_wait_pid_retry_returned input_pid (wait_options no_hang) no_hang fuel p pid
      status hw (by omega)]
    simp [h0]
  · intro s h1 h2 hs
    have hmod : status % 128 = s := by
      rcases hs with hs | hs
      · rw [hs]; omega
      · rw [hs]
        have : s < 2 ^ 7 := by omega
        have hor := Nat.mul_add_lt_is_or this 1
        rw [Nat.lor_comm, show (0x80 : Nat) = 2 ^ 7 * 1 by rfl, ← hor]
        omega
    rw [wait_tuple_signaled status pid (by omega) (by omega), hmod]
  · intro s h1 hs
    have hst : status = s * 256 + 127 := by
      rw [hs, Nat.shiftLeft_eq, show (256 : Nat) = 2 ^ 8 by rfl, Nat.mul_comm]
      rw [show (2 : Nat) ^ 8 * s = 2 ^ 8 * s by rfl]
      have : (127 : Nat) < 2 ^ 8 := by decide
      rw [← Nat.mul_add_lt_is_or this]
    rw [wait_tuple_stopped status pid (by omega)]
    have : status / 256 % 256 = s := by omega
    rw [this]

theorem vm_wait_pid_status_tuple_witness :
    wait_tuple 1792 42 = .tuple [.fixnum 7, .cNil, .cNil, .fixnum 42] :=
  (vm_wait_pid_status_tuple 0 42 .cNil
    (sample_proc sample_os (fun _ => .returned 42 1792) (fun _ => true) (fun _ => .data []))
    42 1792 rfl (by decide)).2.2.2.2.1 (by decide)

theorem sigaction_trace (sig : Nat) (act : Sigaction) (p : Proc) :
    (sigaction sig act p).2.2.os.trace = p.os.trace ++ [.sigaction sig act] := by
  unfold sigaction
  split <;> rfl

theorem sigaction_refused (sig : Nat) (act : Sigaction) (p : Proc)
    (h : sig = 0 ∨ NSIG ≤ sig ∨ uncatchable sig = true) :
    (sigaction sig act p).2.1 = none ∧ (sigaction sig act p).2.2.signals = p.signals := by
  unfold sigaction
  rw [if_pos h]
  exact ⟨rfl, rfl⟩

theorem sigaction_done (sig : Nat) (act : Sigaction) (p : Proc)
    (h : ¬ (sig = 0 ∨ NSIG ≤ sig ∨ uncatchable sig = true)) :
    (sigaction sig act p).2.1 = some (p.signals sig) ∧
      (sigaction sig act p).2.2.signals = fun s => if s = sig then act else p.signals s := by
  unfold sigaction
  rw [if_neg h]
  exact ⟨rfl, rfl⟩

theorem reset_signals_spec (junk : Handler) :
    ∀ (l : List Nat) (old_handlers : Nat → Handler) (p : Proc), l.Nodup →
      (∀ s, (reset_signals junk l old_handlers p).2.signals s
        = if s ∈ l ∧ ¬ (s = 0 ∨ NSIG ≤ s ∨ uncatchable s = true) then default_action
          else p.signals s) ∧
      (∀ s, (reset_signals junk l old_handlers p).1 s
        = if s ∈ l then
            (if s = 0 ∨ NSIG ≤ s ∨ uncatchable s = true then junk
             else (p.signals s).sa_handler)
          else old_handlers s) ∧
      (reset_signals junk l old_handlers p).2.os.trace
        = p.os.trace ++ l.map (fun i => Syscall.sigaction i default_action) := by
  intro l
  induction l with
  | nil => intro old p _; simp [reset_signals]
  | cons i rest ih =>
    intro old p hnd
    obtain ⟨hi, hrest⟩ := List.nodup_cons.mp hnd
    obtain ⟨h1, h2, h3⟩ := ih
      (fun s => if s = i then
        (match (sigaction i default_action p).2.1 with
          | some old_action => old_action.sa_handler
          | none => junk) else old s)
      (sigaction i default_action p).2.2 hrest
    refine ⟨?_, ?_, ?_⟩
    · intro s
      refine (h1 s).trans ?_
      by_cases hc : i = 0 ∨ NSIG ≤ i ∨ uncatchable i = true
      · rw [(sigaction_refused i default_action p hc).2]
        by_cases hs : s = i
        · subst hs
          simp [hi, hc]
        · simp [hs]
      · rw [(sigaction_done i default_action p hc).2]
        by_cases hs : s = i
        · subst hs
          simp [hi, hc]
        · simp [hs]
    · intro s
      refine (h2 s).trans ?_
      by_cases hs : s = i
      · subst hs
        by_cases hc : s = 0 ∨ NSIG ≤ s ∨ uncatchable s = true
        · simp [hi, hc, (sigaction_refused s default_action p hc).1]
        · simp [hi, hc, (sigaction_done s default_action p hc).1]
      · by_cases hm : s ∈ rest
        · have hsig : (sigaction i default_action p).2.2.signals s = p.signals s := by
            by_cases hc : i = 0 ∨ NSIG ≤ i ∨ uncatchable i = true
            · rw [(sigaction_refused i default_action p hc).2]
            · rw [(sigaction_done i default_action p hc).2]; simp [hs]
          simp [hm, hsig]
        · simp [hm, hs]
    · refine h3.trans ?_
      rw [sigaction_trace]
      simp

theorem restore_signals_spec (old_handlers : Nat → Handler) :
    ∀ (l : List Nat) (p : Proc),
      (∀ s, (restore_signals old_handlers l p).signals s
        = if s ∈ l ∧ ¬ (s = 0 ∨ NSIG ≤ s ∨ uncatchable s = true) then
            { sa_handler := old_handlers s, sa_flags := 0, sa_mask := sigfillset }
          else p.signals s) ∧
      (restore_signals old_handlers l p).os.trace
        = p.os.trace ++ l.map (fun i => Syscall.sigaction i
            { sa_handler := old_handlers i, sa_flags := 0, sa_mask := sigfillset }) := by
  intro l
  induction l with
  | nil => intro p; simp [restore_signals]
  | cons i rest ih =>
    intro p
    obtain ⟨h1, h2⟩ := ih
      (sigaction i { sa_handler := old_handlers i, sa_flags := 0, sa_mask := sigfillset } p).2.2
    refine ⟨?_, ?_⟩
    · intro s
      refine (h1 s).trans ?_
      by_cases hc : i = 0 ∨ NSIG ≤ i ∨ uncatchable i = true
      · rw [(sigaction_refused i _ p hc).2]
        by_cases hs : s = i
        · subst hs
          simp [hc]
        · simp [hs]
      · rw [(sigaction_done i _ p hc).2]
        by_cases hs : s = i
        · subst hs
          simp [hc]
        · by_cases hm : s ∈ rest ∧ ¬ (s = 0 ∨ NSIG ≤ s ∨ uncatchable s = true)
          · simp [hs, hm]
          · simp only [hs, List.mem_cons, false_or, hm, if_false]
    · refine h2.trans ?_
      rw [sigaction_trace]
      simp

theorem mem_signal_numbers (i : Nat) : i ∈ signal_numbers ↔ 1 ≤ i ∧ i < NSIG := by
  unfold signal_numbers NSIG
  rw [List.mem_range'_1]

theorem uncatchable_in_range (i : Nat) (h : uncatchable i = true) : 1 ≤ i ∧ i < NSIG := by
  simp only [uncatchable, SIGKILL, SIGSTOP, Bool.or_eq_true, beq_iff_eq] at h
  unfold NSIG
  omega

/-- The two signal loops of `vm_exec` around a failed `exec`, over any list of
distinct signal numbers. -/
theorem reset_restore_spec (junk : Handler) (l : List Nat) (hnd : l.Nodup)
    (hmem : ∀ i, i ∈ l ↔ 1 ≤ i ∧ i < NSIG) (p0 : Proc) (call : Exec) (e : Int) :
    (∀ i, (((restore_signals (reset_signals junk l (fun _ => junk) p0).1 l
          { (reset_signals junk l (fun _ => junk) p0).2.emit (.exec call) with
            errno := e }).hook .after_exec).hook .unlock_fork_exec).signals i
        = if (1 ≤ i ∧ i < NSIG) ∧ ¬ (i = 0 ∨ NSIG ≤ i ∨ uncatchable i = true) then
            { sa_handler := (p0.signals i).sa_handler, sa_flags := 0, sa_mask := sigfillset }
          else p0.signals i) ∧
      (((restore_signals (reset_signals junk l (fun _ => junk) p0).1 l
          { (reset_signals junk l (fun _ => junk) p0).2.emit (.exec call) with
            errno := e }).hook .after_exec).hook .unlock_fork_exec).os.trace
        = p0.os.trace ++ l.map (fun i => Syscall.sigaction i default_action) ++
          [.exec call] ++
          l.map (fun i => Syscall.sigaction i
            { sa_handler := if uncatchable i = true then junk else (p0.signals i).sa_handler
              sa_flags := 0
              sa_mask := sigfillset }) ++
          [.hook .after_exec, .hook .unlock_fork_exec] := by
  obtain ⟨r1, r2, r3⟩ := reset_signals_spec junk l (fun _ => junk) p0 hnd
  generalize reset_signals junk l (fun _ => junk) p0 = R at r1 r2 r3
  obtain ⟨s1, s2⟩ := restore_signals_spec R.1 l { R.2.emit (.exec call) with errno := e }
  refine ⟨?_, ?_⟩
  · intro i
    refine (s1 i).trans ?_
    simp only [hmem]
    by_cases hc : (1 ≤ i ∧ i < NSIG) ∧ ¬ (i = 0 ∨ NSIG ≤ i ∨ uncatchable i = true)
    · rw [if_pos hc, if_pos hc, r2 i, if_pos ((hmem i).2 hc.1), if_neg hc.2]
    · rw [if_neg hc, if_neg hc]
      refine (r1 i).trans ?_
      simp only [hmem, if_neg hc]
  · have hmap : l.map (fun i => Syscall.sigaction i
          { sa_handler := R.1 i, sa_flags := 0, sa_mask := sigfillset })
        = l.map (fun i => Syscall.sigaction i
          { sa_handler := if uncatchable i = true then junk else (p0.signals i).sa_handler
            sa_flags := 0
            sa_mask := sigfillset }) := by
      apply List.map_congr_left
      intro i hi
      have hr := (hmem i).1 hi
      have h2 := r2 i
      rw [if_pos hi] at h2
      by_cases hu : uncatchable i = true
      · rw [if_pos (Or.inr (Or.inr hu))] at h2
        simp only [h2, if_pos hu]
      · have hno : ¬ (i = 0 ∨ NSIG ≤ i ∨ uncatchable i = true) := by
          intro h
          rcases h with h | h | h
          · omega
          · omega
          · exact hu h
        rw [if_neg hno] at h2
        simp only [h2, if_neg hu]
    have hq : ((((restore_signals R.1 l { R.2.emit (.exec call) with errno := e }).hook
          .after_exec).hook .unlock_fork_exec)).os.trace
        = (restore_signals R.1 l { R.2.emit (.exec call) with errno := e }).os.trace
          ++ [.hook .after_exec, .hook .unlock_fork_exec] := by
      simp [Proc.hook, Proc.emit, OS.emit]
    rw [hq, s2, hmap]
    have hR : ({ R.2.emit (.exec call) with errno := e } : Proc).os.trace
        = R.2.os.trace ++ [.exec call] := rfl
    rw [hR, r3]

/-- The failure path of `vm_exec`, with the state it leaves. -/
theorem vm_exec_failure_spec (fuel : Nat) (junk : Handler) (path : List Nat)
    (args : List Object) (e : Int) (p : Proc) (exe : ExecCommand) (sh : ShFallback)
    (call : Exec) (hexe : ExecCommand.from_command_args path args = .ok exe)
    (hsh : launch_exec fuel exe = .ok sh) (hcall : sh.call = some call) :
    ∃ q, vm_exec fuel junk path args (some e) p
        = .ok (.raised (.errno_error "execvp(2) failed" e) q) ∧
      (∀ i, q.signals i
        = if (1 ≤ i ∧ i < NSIG) ∧ ¬ (i = 0 ∨ NSIG ≤ i ∨ uncatchable i = true) then
            { sa_handler := (p.signals i).sa_handler, sa_flags := 0, sa_mask := sigfillset }
          else p.signals i) ∧
      q.os.trace = p.os.trace ++
        [.log_write "exec: %s, %s, %s:%d", .hook .lock_fork_exec, .hook .before_exec] ++
        signal_numbers.map (fun i => Syscall.sigaction i default_action) ++
        [.exec call] ++
        signal_numbers.map (fun i => Syscall.sigaction i
          { sa_handler := if uncatchable i = true then junk else (p.signals i).sa_handler
            sa_flags := 0
            sa_mask := sigfillset }) ++
        [.hook .after_exec, .hook .unlock_fork_exec] := by
  have hnd : signal_numbers.Nodup := List.nodup_range' _ _
  obtain ⟨c1, c2⟩ := reset_restore_spec junk signal_numbers hnd mem_signal_numbers
    (((p.emit (.log_write "exec: %s, %s, %s:%d")).hook .lock_fork_exec).hook .before_exec)
    call e
  refine ⟨_, ?_, c1, ?_⟩
  · unfold vm_exec
    simp only [hexe, hsh, hcall]
  · rw [c2]
    have h0 : (((p.emit (.log_write "exec: %s, %s, %s:%d")).hook .lock_fork_exec).hook
        .before_exec).os.trace
        = p.os.trace ++ [.log_write "exec: %s, %s, %s:%d", .hook .lock_fork_exec,
            .hook .before_exec] := by
      simp [Proc.hook, Proc.emit, OS.emit]
    rw [h0]
    simp only [List.append_assoc]
    rfl

/-- C13 (as the code has it): if the `exec` call of `vm_exec` fails with `errno`
`e`, the call raises the errno error "execvp(2) failed" carrying `e`, after
`after_exec` has run; every signal `i` with `1 <= i < NSIG` has the handler it had
before the reset again, but only the handler is put back: a signal whose
disposition can be changed ends with no flags and with every signal in its mask,
whatever its flags and mask were, and `SIGKILL` and `SIGSTOP` are left as they
were. -/
theorem vm_exec_failure_restores_handlers (fuel : Nat) (junk : Handler) (path : List Nat)
    (args : List Object) (e : Int) (p : Proc) (exe : ExecCommand) (sh : ShFallback)
    (call : Exec) (hexe : ExecCommand.from_command_args path args = .ok exe)
    (hsh : launch_exec fuel exe = .ok sh) (hcall : sh.call = some call) :
    ∃ q, vm_exec fuel junk path args (some e) p
        = .ok (.raised (.errno_error "execvp(2) failed" e) q) ∧
      (∀ i, 1 ≤ i → i < NSIG → (q.signals i).sa_handler = (p.signals i).sa_handler) ∧
      (∀ i, 1 ≤ i → i < NSIG → uncatchable i = false →
        q.signals i
          = { sa_handler := (p.signals i).sa_handler, sa_flags := 0, sa_mask := sigfillset }) ∧
      (∀ i, uncatchable i = true → q.signals i = p.signals i) ∧
      q.os.trace = p.os.trace ++
        [.log_write "exec: %s, %s, %s:%d", .hook .lock_fork_exec, .hook .before_exec] ++
        signal_numbers.map (fun i => Syscall.sigaction i default_action) ++
        [.exec call] ++
        signal_numbers.map (fun i => Syscall.sigaction i
          { sa_handler := if uncatchable i = true then junk else (p.signals i).sa_handler
            sa_flags := 0
            sa_mask := sigfillset }) ++
        [.hook .after_exec, .hook .unlock_fork_exec] := by
  obtain ⟨q, hq, hsig, htrace⟩ :=
    vm_exec_failure_spec fuel junk path args e p exe sh call hexe hsh hcall
  have hcatch : ∀ i, 1 ≤ i → i < NSIG → uncatchable i = false →
      q.signals i
        = { sa_handler := (p.signals i).sa_handler, sa_flags := 0, sa_mask := sigfillset } := by
    intro i h1 h2 h3
    rw [hsig i, if_pos]
    refine ⟨⟨h1, h2⟩, ?_⟩
    intro h
    rcases h with h | h | h
    · omega
    · omega
    · rw [h3] at h; exact Bool.false_ne_true h
  have hun : ∀ i, uncatchable i = true → q.signals i = p.signals i := by
    intro i h
    rw [hsig i, if_neg]
    intro hc
    exact hc.2 (Or.inr (Or.inr h))
  refine ⟨q, hq, ?_, hcatch, hun, htrace⟩
  intro i h1 h2
  by_cases hu : uncatchable i = true
  · rw [hun i hu]
  · rw [hcatch i h1 h2 (by simpa using hu)]

theorem vm_exec_failure_restores_handlers_witness :
    ∃ q, vm_exec 1 .SIG_DFL [108, 115] [.string [45, 108]] (some ENOENT)
        (sample_proc sample_os (fun _ => .failed ECHILD) (fun _ => true) (fun _ => .data []))
        = .ok (.raised (.errno_error "execvp(2) failed" ENOENT) q) ∧
      (∀ i, 1 ≤ i → i < NSIG → (q.signals i).sa_handler
        = ((sample_proc sample_os (fun _ => .failed ECHILD) (fun _ => true)
            (fun _ => .data [])).signals i).sa_handler) ∧
      (∀ i, 1 ≤ i → i < NSIG → uncatchable i = false →
        q.signals i
          = { sa_handler := ((sample_proc sample_os (fun _ => .failed ECHILD) (fun _ => true)
                (fun _ => .data [])).signals i).sa_handler
              sa_flags := 0
              sa_mask := sigfillset }) ∧
      (∀ i, uncatchable i = true → q.signals i
        = (sample_proc sample_os (fun _ => .failed ECHILD) (fun _ => true)
            (fun _ => .data [])).signals i) ∧
      q.os.trace = [] ++
        [.log_write "exec: %s, %s, %s:%d", .hook .lock_fork_exec, .hook .before_exec] ++
        signal_numbers.map (fun i => Syscall.sigaction i default_action) ++
        [.exec (.execvp [108, 115] [.ptr [45, 108], .null])] ++
        signal_numbers.map (fun i => Syscall.sigaction i
          { sa_handler := if uncatchable i = true then .SIG_DFL
              else ((sample_proc sample_os (fun _ => .failed ECHILD) (fun _ => true)
                (fun _ => .data [])).signals i).sa_handler
            sa_flags := 0
            sa_mask := sigfillset }) ++
        [.hook .after_exec, .hook .unlock_fork_exec] :=
  vm_exec_failure_restores_handlers 1 .SIG_DFL [108, 115] [.string [45, 108]] ENOENT
    (sample_proc sample_os (fun _ => .failed ECHILD) (fun _ => true) (fun _ => .data []))
    _ _ _ rfl rfl (by rfl)

/-- C13 (counterexample to the claim as worded): `SIGINT` is installed with
`SA_RESTART` and an empty mask; after the failure path of `vm_exec` its handler is
the same but its flags are 0 and its mask holds every signal, so the disposition
is not the one captured before the reset. -/
theorem vm_exec_failure_not_verbatim :
    ∃ q, vm_exec 1 .SIG_DFL [108, 115] [.string [45, 108]] (some ENOENT)
        (sample_proc sample_os (fun _ => .failed ECHILD) (fun _ => true) (fun _ => .data []))
        = .ok (.raised (.errno_error "execvp(2) failed" ENOENT) q) ∧
      (sample_proc sample_os (fun _ => .failed ECHILD) (fun _ => true)
        (fun _ => .data [])).signals SIGINT
        = { sa_handler := .fn 1, sa_flags := SA_RESTART, sa_mask := [] } ∧
      q.signals SIGINT = { sa_handler := .fn 1, sa_flags := 0, sa_mask := sigfillset } ∧
      q.signals SIGINT
        ≠ (sample_proc sample_os (fun _ => .failed ECHILD) (fun _ => true)
            (fun _ => .data [])).signals SIGINT := by
  obtain ⟨q, hq, hsig, -⟩ :=
    vm_exec_failure_spec 1 .SIG_DFL [108, 115] [.string [45, 108]] ENOENT
      (sample_proc sample_os (fun _ => .failed ECHILD) (fun _ => true) (fun _ => .data []))
      _ _ _ rfl rfl rfl
  have h2 : q.signals SIGINT
      = { sa_handler := .fn 1, sa_flags := 0, sa_mask := sigfillset } := by
    rw [hsig SIGINT]
    rfl
  refine ⟨q, hq, rfl, h2, ?_⟩
  rw [h2]
  decide

/-! ### The output loop of `vm_backtick` -/

theorem Proc.close_of_open (p : Proc) (fd : Int) (d : Descriptor)
    (h : p.os.descriptor fd = some d) :
    p.close fd = { p with os := (Rubinius.close fd p.os).2 } := by
  unfold Proc.close
  have : (Rubinius.close fd p.os).1 = 0 := by simp [Rubinius.close, h]
  simp only [this]
  rfl

/-- One read of the output pipe, between the two calls of the unmanaged phase,
on an open descriptor. -/
theorem read_output_turn (output0 : Int) (p : Proc) (d : Descriptor)
    (h : p.os.descriptor output0 = some d) :
    (read_output output0 1023 (p.hook .unmanaged_enter)).1
        = (match p.outputs p.outputs_done with
           | .data bytes => (((bytes.take 1023).length : Nat) : Int)
           | .failed _ => -1) ∧
      (read_output output0 1023 (p.hook .unmanaged_enter)).2.1
        = (match p.outputs p.outputs_done with
           | .data bytes => bytes.take 1023
           | .failed _ => []) ∧
      ((read_output output0 1023 (p.hook .unmanaged_enter)).2.2.hook .unmanaged_leave).errno
        = (match p.outputs p.outputs_done with
           | .data _ => p.errno
           | .failed e => e) ∧
      ((read_output output0 1023 (p.hook .unmanaged_enter)).2.2.hook .unmanaged_leave).os
        = ((p.os.emit (.hook .unmanaged_enter)).emit (.read_output output0 1023)).emit
            (.hook .unmanaged_leave) ∧
      ((read_output output0 1023 (p.hook .unmanaged_enter)).2.2.hook .unmanaged_leave).outputs
        = p.outputs ∧
      ((read_output output0 1023 (p.hook .unmanaged_enter)).2.2.hook
          .unmanaged_leave).outputs_done = p.outputs_done + 1 ∧
      ((read_output output0 1023 (p.hook .unmanaged_enter)).2.2.hook .unmanaged_leave).asyncs
        = p.asyncs ∧
      ((read_output output0 1023 (p.hook .unmanaged_enter)).2.2.hook
          .unmanaged_leave).asyncs_done = p.asyncs_done := by
  have hd : (p.hook .unmanaged_enter).os.descriptor output0 = some d := h
  unfold read_output
  rw [hd]
  simp only
  have hout : (p.hook .unmanaged_enter).outputs (p.hook .unmanaged_enter).outputs_done
      = p.outputs p.outputs_done := rfl
  rw [hout]
  cases p.outputs p.outputs_done with
  | data bytes => exact ⟨rfl, rfl, rfl, rfl, rfl, rfl, rfl, rfl⟩
  | failed e => exact ⟨rfl, rfl, rfl, rfl, rfl, rfl, rfl, rfl⟩

theorem backtick_read_output_data (pid output0 : Int) (fuel : Nat) (buf : List Nat) (p : Proc)
    (d : Descriptor) (bytes : List Nat) (h : p.os.descriptor output0 = some d)
    (hout : p.outputs p.outputs_done = .data bytes) (hne : bytes ≠ []) :
    backtick_read_output pid output0 (fuel + 1) buf p
      = backtick_read_output pid output0 fuel (buf ++ bytes.take 1023)
          ((read_output output0 1023 (p.hook .unmanaged_enter)).2.2.hook .unmanaged_leave) := by
  obtain ⟨t1, t2, -⟩ := read_output_turn output0 p d h
  rw [hout] at t1 t2
  simp only at t1 t2
  have hpos : 0 < (bytes.take 1023).length := by
    cases bytes with
    | nil => exact absurd rfl hne
    | cons b bs => simp
  rw [backtick_read_output]
  simp only [t1, t2]
  rw [if_neg (by omega), if_neg (by omega)]

theorem backtick_read_output_eof (pid output0 : Int) (fuel : Nat) (buf : List Nat) (p : Proc)
    (d : Descriptor) (h : p.os.descriptor output0 = some d)
    (hout : p.outputs p.outputs_done = .data []) :
    backtick_read_output pid output0 (fuel + 1) buf p
      = .ok (.ok (some (.tuple [.fixnum pid, .string buf])),
          ((read_output output0 1023 (p.hook .unmanaged_enter)).2.2.hook
            .unmanaged_leave).close output0) := by
  obtain ⟨t1, -⟩ := read_output_turn output0 p d h
  rw [hout] at t1
  simp only at t1
  rw [backtick_read_output]
  simp only [t1]
  rfl

theorem backtick_read_output_failed (pid output0 : Int) (fuel : Nat) (buf : List Nat) (p : Proc)
    (d : Descriptor) (e : Int) (h : p.os.descriptor output0 = some d)
    (hout : p.outputs p.outputs_done = .failed e) :
    backtick_read_output pid output0 (fuel + 1) buf p
      = if e = EAGAIN ∨ e = EINTR then
          (if p.asyncs p.asyncs_done = false then
            .ok (.ok none,
              (check_async ((read_output output0 1023 (p.hook .unmanaged_enter)).2.2.hook
                .unmanaged_leave)).2.close output0)
           else backtick_read_output pid output0 fuel buf
              (check_async ((read_output output0 1023 (p.hook .unmanaged_enter)).2.2.hook
                .unmanaged_leave)).2)
        else
          .ok (.error (.errno_error "reading child data" e),
            ((read_output output0 1023 (p.hook .unmanaged_enter)).2.2.hook
              .unmanaged_leave).close output0) := by
  obtain ⟨t1, -, t3, t4, -, -, t7, t8⟩ := read_output_turn output0 p d h
  rw [hout] at t1 t3
  simp only at t1 t3
  have hd1 : ((read_output output0 1023 (p.hook .unmanaged_enter)).2.2.hook
      .unmanaged_leave).os.descriptor output0 = some d := by
    rw [t4]; exact h
  have hclose := Proc.close_of_open _ output0 d hd1
  have hc : (check_async ((read_output output0 1023 (p.hook .unmanaged_enter)).2.2.hook
      .unmanaged_leave)).1 = p.asyncs p.asyncs_done := by
    rw [(check_async_spec _).1, t7, t8]
  rw [backtick_read_output]
  simp only [t1, t3, hc]
  rw [if_pos (by decide)]
  by_cases he : e = EAGAIN ∨ e = EINTR
  · rw [if_pos he, if_pos he]
    cases p.asyncs p.asyncs_done <;> simp
  · rw [if_neg he, if_neg he, hclose]
    simp only [t3]

theorem close_descriptor (fd : Int) (os : OS) (x : Int) :
    (close fd os).2.descriptor x = if x = fd then none else os.descriptor x := by
  cases h : os.descriptor fd with
  | some d => exact (close_open fd os d h).1 x
  | none =>
    have : (close fd os).2 = os.emit (.close fd) := by simp [close, h]
    rw [this, descriptor_emit]
    by_cases hx : x = fd
    · rw [if_pos hx, hx, h]
    · rw [if_neg hx]

theorem close_reads (fd : Int) (os : OS) :
    (close fd os).2.reads = os.reads ∧ (close fd os).2.reads_done = os.reads_done ∧
      (close fd os).2.trace = os.trace ++ [.close fd] := by
  unfold close
  split <;> exact ⟨rfl, rfl, rfl⟩

theorem Proc.close_fields (p : Proc) (fd : Int) :
    (p.close fd).os = (Rubinius.close fd p.os).2 ∧
      (p.close fd).outputs = p.outputs ∧ (p.close fd).outputs_done = p.outputs_done ∧
      (p.close fd).asyncs = p.asyncs ∧ (p.close fd).asyncs_done = p.asyncs_done ∧
      (p.close fd).signals = p.signals ∧ (p.close fd).exit_handlers = p.exit_handlers := by
  unfold Proc.close
  simp only
  split <;> exact ⟨rfl, rfl, rfl, rfl, rfl, rfl, rfl⟩

/-- The parent branch of `vm_backtick` up to the test of `size`. -/
theorem vm_backtick_parent_channel (fuel : Nat) (pid errors0 errors1 output0 output1 : Int)
    (p : Proc) (k size : Nat) (error_no : Int)
    (h10 : errors1 ≠ errors0) (h30 : output1 ≠ errors0)
    (hopen : p.os.is_open errors0 = true)
    (herr : ∀ j, j < k → ∃ e, p.os.reads (p.os.reads_done + j) = .error e)
    (hread : p.os.reads (p.os.reads_done + k) = .bytes size error_no)
    (hfuel : k < fuel) :
    ∃ p4, vm_backtick_parent fuel pid errors0 errors1 output0 output1 p
        = (if size ≠ 0 then
            .ok (.error (.errno_error "execvp(2) failed" error_no), p4.close output0)
           else backtick_read_output pid output0 fuel [] p4) ∧
      (∀ x, p4.os.descriptor x
        = if x = errors0 ∨ x = errors1 ∨ x = output1 then none else p.os.descriptor x) ∧
      p4.outputs = p.outputs ∧ p4.outputs_done = p.outputs_done ∧
      p4.asyncs = p.asyncs ∧ p4.asyncs_done = p.asyncs_done := by
  obtain ⟨d0, hd0⟩ : ∃ d, p.os.descriptor errors0 = some d := by
    unfold OS.is_open at hopen
    exact Option.isSome_iff_exists.1 hopen
  obtain ⟨a1, a2, a3, a4, a5, -⟩ := Proc.close_fields p errors1
  obtain ⟨b1, b2, b3, b4, b5, -⟩ := Proc.close_fields (p.close errors1) output1
  obtain ⟨r1, r1d, r1t⟩ := close_reads errors1 p.os
  obtain ⟨r2, r2d, r2t⟩ := close_reads output1 (close errors1 p.os).2
  have hos2 : (((p.close errors1).close output1).emit
      (.log_write "backtick: %d: %s, %s, %s:%d")).os
      = ((close output1 (close errors1 p.os).2).2).emit
          (.log_write "backtick: %d: %s, %s, %s:%d") := by
    show ((p.close errors1).close output1).os.emit _ = _
    rw [b1, a1]
  have hdesc2 : ∀ x, (((p.close errors1).close output1).emit
      (.log_write "backtick: %d: %s, %s, %s:%d")).os.descriptor x
      = if x = output1 then none else if x = errors1 then none else p.os.descriptor x := by
    intro x
    rw [hos2, descriptor_emit, close_descriptor, close_descriptor]
  have hd2 : (((p.close errors1).close output1).emit
      (.log_write "backtick: %d: %s, %s, %s:%d")).os.descriptor errors0 = some d0 := by
    rw [hdesc2, if_neg (Ne.symm h30), if_neg (Ne.symm h10), hd0]
  obtain ⟨os3, hrun, hfds3, t3, ht3⟩ := read_error_channel_returns
    "%s: backtick: reading error status" errors0 size error_no k fuel
    (((p.close errors1).close output1).emit (.log_write "backtick: %d: %s, %s, %s:%d")).os
    d0 hfuel hd2
    (fun j hj => by
      obtain ⟨e, he⟩ := herr j hj
      refine ⟨e, ?_⟩
      rw [hos2]
      show (close output1 (close errors1 p.os).2).2.reads
        ((close output1 (close errors1 p.os).2).2.reads_done + j) = _
      rw [r2, r2d, r1, r1d]
      exact he)
    (by
      rw [hos2]
      show (close output1 (close errors1 p.os).2).2.reads
        ((close output1 (close errors1 p.os).2).2.reads_done + k) = _
      rw [r2, r2d, r1, r1d]
      exact hread)
  have hdesc3 : ∀ x, os3.descriptor x
      = if x = output1 then none else if x = errors1 then none else p.os.descriptor x := by
    intro x
    rw [← hdesc2 x]
    unfold OS.descriptor
    rw [hfds3]
  obtain ⟨c1, c2, c3, c4, c5, -⟩ := Proc.close_fields
    ({ ((p.close errors1).close output1).emit (.log_write "backtick: %d: %s, %s, %s:%d")
        with os := os3 } : Proc) errors0
  refine ⟨({ ((p.close errors1).close output1).emit (.log_write "backtick: %d: %s, %s, %s:%d")
        with os := os3 } : Proc).close errors0, ?_, ?_, ?_, ?_, ?_, ?_⟩
  · simp only [vm_backtick_parent, hrun]
  · intro x
    rw [c1, close_descriptor]
    show (if x = errors0 then none else os3.descriptor x) = _
    rw [hdesc3]
    by_cases hx0 : x = errors0
    · simp [hx0]
    · by_cases hx1 : x = errors1
      · simp [hx1]
      · by_cases hx3 : x = output1
        · simp [hx3]
        · simp [hx0, hx1, hx3]
  · rw [c2]; show ((p.close errors1).close output1).outputs = _; rw [b2, a2]
  · rw [c3]; show ((p.close errors1).close output1).outputs_done = _; rw [b3, a3]
  · rw [c4]; show ((p.close errors1).close output1).asyncs = _; rw [b4, a4]
  · rw [c5]; show ((p.close errors1).close output1).asyncs_done = _; rw [b5, a5]

/-- The output loop of `vm_backtick` on a pipe that delivers the chunks `cs` and
then end-of-file. -/
theorem backtick_read_output_chunks (pid output0 : Int) :
    ∀ (cs : List (List Nat)) (fuel : Nat) (buf : List Nat) (p : Proc) (d : Descriptor),
      cs.length < fuel → p.os.descriptor output0 = some d →
      (∀ j c, cs[j]? = some c → p.outputs (p.outputs_done + j) = .data c ∧ c ≠ []) →
      p.outputs (p.outputs_done + cs.length) = .data [] →
      ∃ q, backtick_read_output pid output0 fuel buf p
          = .ok (.ok (some (.tuple [.fixnum pid,
              .string (buf ++ (cs.map (List.take 1023)).flatten)])), q) ∧
        (∀ x, q.os.descriptor x = if x = output0 then none else p.os.descriptor x) := by
  intro cs
  induction cs with
  | nil =>
    intro fuel buf p d hf hd _ hend
    obtain ⟨f, rfl⟩ : ∃ f, fuel = f + 1 := ⟨fuel - 1, by omega⟩
    simp only [List.length_nil, Nat.add_zero] at hend
    obtain ⟨-, -, -, t4, -⟩ := read_output_turn output0 p d hd
    refine ⟨((read_output output0 1023 (p.hook .unmanaged_enter)).2.2.hook
      .unmanaged_leave).close output0, ?_, ?_⟩
    · rw [backtick_read_output_eof pid output0 f buf p d hd hend]
      simp
    · intro x
      rw [(Proc.close_fields _ output0).1, close_descriptor, t4]
      rfl
  | cons c rest ih =>
    intro fuel buf p d hf hd hchunks hend
    obtain ⟨f, rfl⟩ : ∃ f, fuel = f + 1 := ⟨fuel - 1, by omega⟩
    obtain ⟨h0, hc⟩ := hchunks 0 c (by simp)
    simp only [Nat.add_zero] at h0
    obtain ⟨-, -, -, t4, t5, t6, -⟩ := read_output_turn output0 p d hd
    have hd1 : ((read_output output0 1023 (p.hook .unmanaged_enter)).2.2.hook
        .unmanaged_leave).os.descriptor output0 = some d := by
      rw [t4]; exact hd
    obtain ⟨q, hq, hdesc⟩ := ih f (buf ++ c.take 1023) _ d
      (by simp only [List.length_cons] at hf; omega) hd1
      (fun j c' hj => by
        rw [t5, t6, show p.outputs_done + 1 + j = p.outputs_done + (j + 1) by omega]
        exact hchunks (j + 1) c' (by simpa using hj))
      (by
        rw [t5, t6, show p.outputs_done + 1 + rest.length
          = p.outputs_done + (c :: rest).length by simp only [List.length_cons]; omega]
        exact hend)
    refine ⟨q, ?_, ?_⟩
    · rw [backtick_read_output_data pid output0 f buf p d c hd h0 hc, hq]
      simp
    · intro x
      rw [hdesc x, t4]
      rfl

/-- C15: in the parent branch of `vm_backtick`, when the error channel is at
end-of-file (after any number of failed reads) and the output pipe delivers the
chunks `cs`, none of them empty, and then a zero-length read, the call returns the
2-tuple of `Fixnum(pid)` and the string whose bytes are the chunks read, in order,
whatever the bytes are (a NUL byte is a byte like any other); the parent has
closed the read end of the output pipe. -/
theorem vm_backtick_returns_output (fuel : Nat) (pid errors0 errors1 output0 output1 : Int)
    (p : Proc) (k : Nat) (v : Int) (cs : List (List Nat))
    (h10 : errors1 ≠ errors0) (h30 : output1 ≠ errors0)
    (h20 : output0 ≠ errors0) (h21 : output0 ≠ errors1) (h23 : output0 ≠ output1)
    (hopen0 : p.os.is_open errors0 = true) (hopen2 : p.os.is_open output0 = true)
    (herr : ∀ j, j < k → ∃ e, p.os.reads (p.os.reads_done + j) = .error e)
    (heof : p.os.reads (p.os.reads_done + k) = .bytes 0 v)
    (hchunks : ∀ j c, cs[j]? = some c → p.outputs (p.outputs_done + j) = .data c ∧ c ≠ [])
    (hend : p.outputs (p.outputs_done + cs.length) = .data [])
    (hk : k < fuel) (hcs : cs.length < fuel) :
    ∃ q, vm_backtick_parent fuel pid errors0 errors1 output0 output1 p
        = .ok (.ok (some (.tuple [.fixnum pid, .string (cs.map (List.take 1023)).flatten])), q) ∧
      q.os.is_open output0 = false := by
  obtain ⟨d2, hd2⟩ : ∃ d, p.os.descriptor output0 = some d := by
    unfold OS.is_open at hopen2
    exact Option.isSome_iff_exists.1 hopen2
  obtain ⟨p4, hrun, hdesc, ho, hod, -⟩ := vm_backtick_parent_channel fuel pid errors0 errors1
    output0 output1 p k 0 v h10 h30 hopen0 herr heof hk
  have hd4 : p4.os.descriptor output0 = some d2 := by
    rw [hdesc, if_neg, hd2]
    intro h
    rcases h with h | h | h
    · exact h20 h
    · exact h21 h
    · exact h23 h
  obtain ⟨q, hq, hqd⟩ := backtick_read_output_chunks pid output0 cs fuel [] p4 d2 hcs hd4
    (by rw [ho, hod]; exact hchunks) (by rw [ho, hod]; exact hend)
  refine ⟨q, ?_, ?_⟩
  · rw [hrun, if_neg (by simp), hq]
    simp
  · unfold OS.is_open
    rw [hqd, if_pos rfl]
    rfl

theorem vm_backtick_returns_output_witness :
    ∃ q, vm_backtick_parent 2 42 3 4 5 6
        (sample_proc (sample_backtick_os (fun _ => .bytes 0 0)) (fun _ => .failed ECHILD)
          (fun _ => true)
          (fun i => if i = 0 then .data [104, 101, 108, 108, 111, 10] else .data []))
        = .ok (.ok (some (.tuple [.fixnum 42,
            .string ([[104, 101, 108, 108, 111, 10]].map (List.take 1023)).flatten])), q) ∧
      q.os.is_open 5 = false :=
  vm_backtick_returns_output 2 42 3 4 5 6
    (sample_proc (sample_backtick_os (fun _ => .bytes 0 0)) (fun _ => .failed ECHILD)
      (fun _ => true)
      (fun i => if i = 0 then .data [104, 101, 108, 108, 111, 10] else .data []))
    0 0 [[104, 101, 108, 108, 111, 10]]
    (by decide) (by decide) (by decide) (by decide) (by decide) (by decide) (by decide)
    (fun j hj => absurd hj (Nat.not_lt_zero j))
    rfl
    (fun j c hj => by
      cases j with
      | zero =>
        simp at hj
        subst hj
        exact ⟨rfl, by decide⟩
      | succ n => simp at hj)
    rfl (by decide) (by decide)

/-- C16: in the output loop of `vm_backtick`, when a read of the output pipe
fails with `errno` `e`: if `e` is `EINTR` or `EAGAIN` and `check_async` reports a
pending interrupt (it answers false), the call closes the read end and returns
`NULL`, having called only the read, the cancellation check and `close` (no
`kill`, no `waitpid`); if `e` is `EINTR` or `EAGAIN` and nothing is pending, the
loop goes on with the same accumulated bytes; for any other `e` the call closes
the read end and raises the errno error "reading child data" with `e`. -/
theorem backtick_read_output_read_fails (pid output0 : Int) (fuel : Nat) (buf : List Nat)
    (p : Proc) (d : Descriptor) (e : Int)
    (hd : p.os.descriptor output0 = some d)
    (hout : p.outputs p.outputs_done = .failed e) :
    ((e = EINTR ∨ e = EAGAIN) → p.asyncs p.asyncs_done = false →
      ∃ q, backtick_read_output pid output0 (fuel + 1) buf p = .ok (.ok none, q) ∧
        q.os.is_open output0 = false ∧
        q.os.trace = p.os.trace ++
          [.hook .unmanaged_enter, .read_output output0 1023, .hook .unmanaged_leave,
           .check_async, .close output0] ∧
        (∀ a b, Syscall.kill a b ∉ q.os.trace.drop p.os.trace.length) ∧
        (∀ a b, Syscall.waitpid a b ∉ q.os.trace.drop p.os.trace.length)) ∧
    ((e = EINTR ∨ e = EAGAIN) → p.asyncs p.asyncs_done = true →
      ∃ p1, backtick_read_output pid output0 (fuel + 1) buf p
          = backtick_read_output pid output0 fuel buf p1 ∧
        p1.os.descriptor output0 = some d ∧
        p1.outputs = p.outputs ∧ p1.outputs_done = p.outputs_done + 1 ∧
        p1.asyncs = p.asyncs ∧ p1.asyncs_done = p.asyncs_done + 1 ∧
        p1.os.trace = p.os.trace ++
          [.hook .unmanaged_enter, .read_output output0 1023, .hook .unmanaged_leave,
           .check_async]) ∧
    (e ≠ EINTR → e ≠ EAGAIN →
      ∃ q, backtick_read_output pid output0 (fuel + 1) buf p
          = .ok (.error (.errno_error "reading child data" e), q) ∧
        q.os.is_open output0 = false ∧
        q.os.trace = p.os.trace ++
          [.hook .unmanaged_enter, .read_output output0 1023, .hook .unmanaged_leave,
           .close output0]) := by
  have hstep := backtick_read_output_failed pid output0 fuel buf p d e hd hout
  obtain ⟨-, -, -, t4, t5, t6, t7, t8⟩ := read_output_turn output0 p d hd
  obtain ⟨-, c2, -, -, -, c6, c7, -⟩ := check_async_spec
    ((read_output output0 1023 (p.hook .unmanaged_enter)).2.2.hook .unmanaged_leave)
  have htr1 : ((read_output output0 1023 (p.hook .unmanaged_enter)).2.2.hook
      .unmanaged_leave).os.trace
      = p.os.trace ++ [.hook .unmanaged_enter, .read_output output0 1023,
          .hook .unmanaged_leave] := by
    rw [t4]; simp [OS.emit]
  refine ⟨?_, ?_, ?_⟩
  · intro he ha
    have he2 : e = EAGAIN ∨ e = EINTR := he.symm
    rw [if_pos he2, if_pos ha] at hstep
    have htrace : ((check_async ((read_output output0 1023 (p.hook .unmanaged_enter)).2.2.hook
        .unmanaged_leave)).2.close output0).os.trace = p.os.trace ++
          [.hook .unmanaged_enter, .read_output output0 1023, .hook .unmanaged_leave,
           .check_async, .close output0] := by
      rw [(Proc.close_fields _ output0).1, (close_reads output0 _).2.2, c2, htr1]
      simp
    refine ⟨_, hstep, ?_, htrace, ?_, ?_⟩
    · unfold OS.is_open
      rw [(Proc.close_fields _ output0).1, close_descriptor, if_pos rfl]
      rfl
    · intro a b
      rw [htrace, List.drop_left]
      simp
    · intro a b
      rw [htrace, List.drop_left]
      simp
  · intro he ha
    have he2 : e = EAGAIN ∨ e = EINTR := he.symm
    rw [if_pos he2, if_neg (by simp [ha])] at hstep
    refine ⟨_, hstep, ?_, ?_, ?_, ?_, ?_, ?_⟩
    · show (check_async _).2.os.descriptor output0 = _
      have : (check_async ((read_output output0 1023 (p.hook .unmanaged_enter)).2.2.hook
          .unmanaged_leave)).2.os
          = ((read_output output0 1023 (p.hook .unmanaged_enter)).2.2.hook
              .unmanaged_leave).os.emit .check_async := rfl
      rw [this, descriptor_emit, t4]
      exact hd
    · show ((read_output output0 1023 (p.hook .unmanaged_enter)).2.2.hook
          .unmanaged_leave).outputs = _
      exact t5
    · show ((read_output output0 1023 (p.hook .unmanaged_enter)).2.2.hook
          .unmanaged_leave).outputs_done = _
      exact t6
    · rw [c6, t7]
    · rw [c7, t8]
    · rw [c2, htr1]
      simp
  · intro h1 h2
    have he2 : ¬ (e = EAGAIN ∨ e = EINTR) := by
      intro h
      rcases h with h | h
      · exact h2 h
      · exact h1 h
    rw [if_neg he2] at hstep
    have htrace : (((read_output output0 1023 (p.hook .unmanaged_enter)).2.2.hook
        .unmanaged_leave).close output0).os.trace = p.os.trace ++
          [.hook .unmanaged_enter, .read_output output0 1023, .hook .unmanaged_leave,
           .close output0] := by
      rw [(Proc.close_fields _ output0).1, (close_reads output0 _).2.2, htr1]
      simp
    refine ⟨_, hstep, ?_, htrace⟩
    unfold OS.is_open
    rw [(Proc.close_fields _ output0).1, close_descriptor, if_pos rfl]
    rfl

theorem backtick_read_output_read_fails_witness :
    ∃ q, backtick_read_output 42 5 (0 + 1) [104, 105]
        (sample_proc (sample_backtick_os (fun _ => .bytes 0 0)) (fun _ => .failed ECHILD)
          (fun _ => false) (fun _ => .failed EINTR))
        = .ok (.ok none, q) ∧
      q.os.is_open 5 = false ∧
      q.os.trace = [] ++
        [.hook .unmanaged_enter, .read_output 5 1023, .hook .unmanaged_leave,
         .check_async, .close 5] ∧
      (∀ a b, Syscall.kill a b ∉ q.os.trace.drop 0) ∧
      (∀ a b, Syscall.waitpid a b ∉ q.os.trace.drop 0) :=
  (backtick_read_output_read_fails 42 5 0 [104, 105]
    (sample_proc (sample_backtick_os (fun _ => .bytes 0 0)) (fun _ => .failed ECHILD)
      (fun _ => false) (fun _ => .failed EINTR))
    ⟨8, 0⟩ EINTR rfl rfl).1 (Or.inl rfl) rfl

/-! ### The child after a failed `exec` -/

theorem exit_handlers_trace (hs : List Nat) :
    ∀ p : Proc, (hs.foldl (fun q h => q.emit (.exit_handler h)) p).os.trace
      = p.os.trace ++ hs.map Syscall.exit_handler := by
  induction hs with
  | nil => intro p; simp
  | cons h rest ih =>
    intro p
    rw [List.foldl_cons, ih]
    simp [Proc.emit, OS.emit]

theorem exit_trace (status : Int) (p : Proc) :
    (exit status p).os.trace
      = p.os.trace ++ p.exit_handlers.map Syscall.exit_handler ++ [.exit status] := by
  unfold exit
  show (p.exit_handlers.foldl (fun q h => q.emit (.exit_handler h)) p).os.trace ++ _ = _
  rw [exit_handlers_trace]

theorem child_exec_failed_trace (exec_msg write_msg : String) (errors1 : Int) (p : Proc)
    (d : Descriptor) (hopen : p.os.descriptor errors1 = some d) :
    (child_exec_failed exec_msg write_msg errors1 p).os.trace
      = p.os.trace ++
        [.log_error exec_msg, .write errors1 (int_bytes p.errno), .close errors1] ++
        p.exit_handlers.map Syscall.exit_handler ++ [.exit 1] := by
  have hd1 : (p.emit (.log_error exec_msg)).os.descriptor errors1 = some d := hopen
  have hw : write errors1 (int_bytes p.errno) (p.emit (.log_error exec_msg))
      = ((((int_bytes p.errno).length : Nat) : Int),
          (p.emit (.log_error exec_msg)).emit (.write errors1 (int_bytes p.errno))) := by
    unfold write
    rw [hd1]
  unfold child_exec_failed
  simp only
  have herrno : (p.emit (.log_error exec_msg)).errno = p.errno := rfl
  rw [herrno, hw]
  simp only
  rw [if_neg (by omega), exit_trace, (Proc.close_fields _ errors1).2.2.2.2.2.2,
    (Proc.close_fields _ errors1).1, (close_reads errors1 _).2.2]
  simp [Proc.emit, OS.emit]

theorem written_to_append (fd : Int) (a b : List Syscall) :
    written_to fd (a ++ b) = written_to fd a ++ written_to fd b := by
  induction a with
  | nil => rfl
  | cons c rest ih =>
    cases c with
    | write f bytes =>
      simp only [List.cons_append, written_to]
      split
      · rw [List.append_assoc]
        exact congrArg (bytes ++ ·) ih
      · exact ih
    | _ => exact ih

theorem written_to_exit_handlers (fd : Int) (hs : List Nat) :
    written_to fd (hs.map Syscall.exit_handler) = [] := by
  induction hs with
  | nil => rfl
  | cons h rest ih => simpa [written_to] using ih

theorem bytes_int_int_bytes (e : Int) (h1 : -2147483648 ≤ e) (h2 : e < 2147483648) :
    bytes_int (int_bytes e) = e := by
  unfold int_bytes bytes_int
  simp only [List.getD_cons_zero, List.getD_cons_succ]
  have hu : ((e % 4294967296).toNat : Int) = e % 4294967296 :=
    Int.toNat_of_nonneg (Int.emod_nonneg _ (by decide))
  have hlt : e % 4294967296 < 4294967296 := Int.emod_lt_of_pos _ (by decide)
  generalize (e % 4294967296).toNat = u at hu
  have hsum : u % 256 + 256 * (u / 256 % 256) + 65536 * (u / 65536 % 256)
      + 16777216 * (u / 16777216 % 256) = u := by omega
  rw [hsum]
  split <;> omega

/-- C12 (as the code has it): in the forked child of `vm_spawn` and of
`vm_backtick`, once `exec` has failed, the child logs, writes `errno` to the error
channel exactly once as one `int` (four bytes), closes the channel and calls
`exit(1)`: the handlers registered for `exit` all run before the process ends. -/
theorem child_exec_failed_runs_exit (errors1 : Int) (p : Proc) (d : Descriptor)
    (hopen : p.os.descriptor errors1 = some d) :
    (vm_spawn_child_exec_failed errors1 p).os.trace
        = p.os.trace ++
          [.log_error "%s: spawn: exec failed: %s", .write errors1 (int_bytes p.errno),
           .close errors1] ++
          p.exit_handlers.map Syscall.exit_handler ++ [.exit 1] ∧
      (vm_backtick_child_exec_failed errors1 p).os.trace
        = p.os.trace ++
          [.log_error "%s: backtick: exec failed: %s", .write errors1 (int_bytes p.errno),
           .close errors1] ++
          p.exit_handlers.map Syscall.exit_handler ++ [.exit 1] ∧
      (int_bytes p.errno).length = 4 :=
  ⟨child_exec_failed_trace _ _ errors1 p d hopen,
   child_exec_failed_trace _ _ errors1 p d hopen, rfl⟩

theorem child_exec_failed_runs_exit_witness :
    (vm_spawn_child_exec_failed 4
        { sample_proc (sample_parent_os (fun _ => .bytes 0 0)) (fun _ => .failed ECHILD)
            (fun _ => true) (fun _ => .data []) with errno := ENOENT }).os.trace
        = [] ++
          [.log_error "%s: spawn: exec failed: %s", .write 4 (int_bytes ENOENT), .close 4] ++
          [7].map Syscall.exit_handler ++ [.exit 1] ∧
      (vm_backtick_child_exec_failed 4
        { sample_proc (sample_parent_os (fun _ => .bytes 0 0)) (fun _ => .failed ECHILD)
            (fun _ => true) (fun _ => .data []) with errno := ENOENT }).os.trace
        = [] ++
          [.log_error "%s: backtick: exec failed: %s", .write 4 (int_bytes ENOENT),
           .close 4] ++
          [7].map Syscall.exit_handler ++ [.exit 1] ∧
      (int_bytes ENOENT).length = 4 :=
  child_exec_failed_runs_exit 4
    { sample_proc (sample_parent_os (fun _ => .bytes 0 0)) (fun _ => .failed ECHILD)
        (fun _ => true) (fun _ => .data []) with errno := ENOENT }
    ⟨7, 1⟩ rfl

/-- C12 (counterexample to the claim as worded): a child with handler 7
registered for `exit` runs that handler after a failed `exec`, between closing
the error channel and ending, in `vm_spawn` and in `vm_backtick`. -/
theorem child_exec_failed_runs_handler :
    (vm_spawn_child_exec_failed 4
        { sample_proc (sample_parent_os (fun _ => .bytes 0 0)) (fun _ => .failed ECHILD)
            (fun _ => true) (fun _ => .data []) with errno := ENOENT }).os.trace
        = [.log_error "%s: spawn: exec failed: %s", .write 4 [2, 0, 0, 0], .close 4,
           .exit_handler 7, .exit 1] ∧
      (vm_backtick_child_exec_failed 4
        { sample_proc (sample_parent_os (fun _ => .bytes 0 0)) (fun _ => .failed ECHILD)
            (fun _ => true) (fun _ => .data []) with errno := ENOENT }).os.trace
        = [.log_error "%s: backtick: exec failed: %s", .write 4 [2, 0, 0, 0], .close 4,
           .exit_handler 7, .exit 1] :=
  ⟨rfl, rfl⟩

theorem child_exec_failed_written (exec_msg write_msg : String) (errors1 : Int) (p : Proc)
    (d : Descriptor) (hopen : p.os.descriptor errors1 = some d)
    (hclean : written_to errors1 p.os.trace = []) :
    written_to errors1 (child_exec_failed exec_msg write_msg errors1 p).os.trace
      = int_bytes p.errno := by
  rw [child_exec_failed_trace exec_msg write_msg errors1 p d hopen, written_to_append,
    written_to_append, written_to_append, hclean, written_to_exit_handlers]
  simp [written_to]

theorem pipe_read_int_bytes (e : Int) (h1 : -2147483648 ≤ e) (h2 : e < 2147483648) :
    pipe_read (int_bytes e) = .bytes 4 e := by
  have hlen : (int_bytes e).length = 4 := rfl
  have htake : (int_bytes e).take 4 = int_bytes e := by
    rw [← hlen, List.take_length]
  unfold pipe_read
  rw [htake, bytes_int_int_bytes e h1 h2, hlen]
  rfl

/-- The parent branch of `vm_spawn` once a read of the error channel returns a
byte count. -/
theorem vm_spawn_parent_spec (pid errors0 errors1 : Int) (os : OS) (k size : Nat)
    (error_no : Int) (fuel : Nat)
    (hne : errors0 ≠ errors1) (h0 : os.is_open errors0 = true)
    (herr : ∀ j, j < k → ∃ e, os.reads (os.reads_done + j) = .error e)
    (hread : os.reads (os.reads_done + k) = .bytes size error_no)
    (hfuel : k < fuel) :
    ∃ os', vm_spawn_parent fuel pid errors0 errors1 os
        = .ok (if size = 0 then .ok (.fixnum pid)
               else .error (.errno_error "execvp(2) failed" error_no), os') := by
  obtain ⟨d0, hd0⟩ : ∃ d, os.descriptor errors0 = some d := by
    unfold OS.is_open at h0
    exact Option.isSome_iff_exists.1 h0
  obtain ⟨hr1, hn1, -⟩ := close_reads errors1 os
  have hd0' : ((close errors1 os).2.emit (.log_write "spawn: %d: %s, %s, %s:%d")).descriptor
      errors0 = some d0 := by
    rw [descriptor_emit, close_descriptor, if_neg hne, hd0]
  obtain ⟨os3, hrun, -⟩ := read_error_channel_returns
    "%s: spawn: reading error status" errors0 size error_no k fuel
    ((close errors1 os).2.emit (.log_write "spawn: %d: %s, %s, %s:%d")) d0 hfuel hd0'
    (fun j hj => by
      obtain ⟨e, he⟩ := herr j hj
      exact ⟨e, by show (close errors1 os).2.reads ((close errors1 os).2.reads_done + j) = _
                   rw [hr1, hn1]; exact he⟩)
    (by show (close errors1 os).2.reads ((close errors1 os).2.reads_done + k) = _
        rw [hr1, hn1]; exact hread)
  refine ⟨(close errors0 os3).2, ?_⟩
  simp only [vm_spawn_parent, hrun]
  by_cases hs : size = 0
  · simp [hs]
  · simp [hs]

/-- The error channel when only the failing child writes to it: the child of
`vm_spawn` or `vm_backtick` whose `exec` failed leaves exactly the four bytes of
its `errno` on the channel, so a read of a channel that holds either nothing or
what this child wrote, and that returns a non-zero count, returns
`sizeof(int)` = 4 with that `errno`; and a parent whose read returns this, after
any number of failed reads, raises the errno error "execvp(2) failed" carrying
exactly the `errno` the child wrote, in `vm_spawn` and in `vm_backtick`. -/
theorem error_channel_carries_errno (child : Proc) (cfd : Int) (d : Descriptor)
    (hopen : child.os.descriptor cfd = some d)
    (hclean : written_to cfd child.os.trace = [])
    (h1 : -2147483648 ≤ child.errno) (h2 : child.errno < 2147483648) :
    written_to cfd (vm_spawn_child_exec_failed cfd child).os.trace = int_bytes child.errno ∧
    written_to cfd (vm_backtick_child_exec_failed cfd child).os.trace
      = int_bytes child.errno ∧
    (int_bytes child.errno).length = 4 ∧
    pipe_read (int_bytes child.errno) = .bytes 4 child.errno ∧
    (∀ (content : List Nat) (size : Nat) (error_no : Int),
      content = [] ∨ content = written_to cfd (vm_spawn_child_exec_failed cfd child).os.trace ∨
        content = written_to cfd (vm_backtick_child_exec_failed cfd child).os.trace →
      pipe_read content = .bytes size error_no → size ≠ 0 →
      size = 4 ∧ error_no = child.errno) ∧
    (∀ (fuel : Nat) (pid errors0 errors1 : Int) (os : OS) (k : Nat),
      errors0 ≠ errors1 → os.is_open errors0 = true →
      (∀ j, j < k → ∃ e, os.reads (os.reads_done + j) = .error e) →
      os.reads (os.reads_done + k)
        = pipe_read (written_to cfd (vm_spawn_child_exec_failed cfd child).os.trace) →
      k < fuel →
      ∃ os', vm_spawn_parent fuel pid errors0 errors1 os
        = .ok (.error (.errno_error "execvp(2) failed" child.errno), os')) ∧
    (∀ (fuel : Nat) (pid errors0 errors1 output0 output1 : Int) (p : Proc) (k : Nat),
      errors1 ≠ errors0 → output1 ≠ errors0 → p.os.is_open errors0 = true →
      (∀ j, j < k → ∃ e, p.os.reads (p.os.reads_done + j) = .error e) →
      p.os.reads (p.os.reads_done + k)
        = pipe_read (written_to cfd (vm_backtick_child_exec_failed cfd child).os.trace) →
      k < fuel →
      ∃ q, vm_backtick_parent fuel pid errors0 errors1 output0 output1 p
        = .ok (.error (.errno_error "execvp(2) failed" child.errno), q)) := by
  have hs : written_to cfd (vm_spawn_child_exec_failed cfd child).os.trace
      = int_bytes child.errno := child_exec_failed_written _ _ cfd child d hopen hclean
  have hb : written_to cfd (vm_backtick_child_exec_failed cfd child).os.trace
      = int_bytes child.errno := child_exec_failed_written _ _ cfd child d hopen hclean
  have hp := pipe_read_int_bytes child.errno h1 h2
  refine ⟨hs, hb, rfl, hp, ?_, ?_, ?_⟩
  · intro content size error_no hc hr hne
    rw [hs, hb] at hc
    rcases hc with hc | hc | hc
    · rw [hc] at hr
      injection hr with hsize _
      exact absurd hsize.symm hne
    · rw [hc, hp] at hr
      injection hr with hsize hv
      exact ⟨hsize.symm, hv.symm⟩
    · rw [hc, hp] at hr
      injection hr with hsize hv
      exact ⟨hsize.symm, hv.symm⟩
  · intro fuel pid errors0 errors1 os k hne h0 herr hread hk
    rw [hs, hp] at hread
    obtain ⟨os', hrun⟩ := vm_spawn_parent_spec pid errors0 errors1 os k 4 child.errno fuel
      hne h0 herr hread hk
    exact ⟨os', by rw [hrun]; rfl⟩
  · intro fuel pid errors0 errors1 output0 output1 p k h10 h30 h0 herr hread hk
    rw [hb, hp] at hread
    obtain ⟨p4, hrun, -⟩ := vm_backtick_parent_channel fuel pid errors0 errors1 output0 output1
      p k 4 child.errno h10 h30 h0 herr hread hk
    exact ⟨_, by rw [hrun]; rfl⟩

theorem error_channel_carries_errno_witness :
    written_to 4 (vm_spawn_child_exec_failed 4
        { sample_proc (sample_parent_os (fun _ => .bytes 0 0)) (fun _ => .failed ECHILD)
            (fun _ => true) (fun _ => .data []) with errno := ENOENT }).os.trace
        = int_bytes ENOENT ∧
      pipe_read (int_bytes ENOENT) = .bytes 4 ENOENT ∧
      ∃ os', vm_spawn_parent 2 42 3 4
          (sample_parent_os (fun i => if i = 0 then .error EINTR else
            pipe_read (written_to 4 (vm_spawn_child_exec_failed 4
              { sample_proc (sample_parent_os (fun _ => .bytes 0 0)) (fun _ => .failed ECHILD)
                  (fun _ => true) (fun _ => .data []) with errno := ENOENT }).os.trace)))
        = .ok (.error (.errno_error "execvp(2) failed" ENOENT), os') :=
  ⟨(error_channel_carries_errno
      { sample_proc (sample_parent_os (fun _ => .bytes 0 0)) (fun _ => .failed ECHILD)
          (fun _ => true) (fun _ => .data []) with errno := ENOENT }
      4 ⟨7, 1⟩ rfl rfl (by decide) (by decide)).1,
   (error_channel_carries_errno
      { sample_proc (sample_parent_os (fun _ => .bytes 0 0)) (fun _ => .failed ECHILD)
          (fun _ => true) (fun _ => .data []) with errno := ENOENT }
      4 ⟨7, 1⟩ rfl rfl (by decide) (by decide)).2.2.2.1,
   (error_channel_carries_errno
      { sample_proc (sample_parent_os (fun _ => .bytes 0 0)) (fun _ => .failed ECHILD)
          (fun _ => true) (fun _ => .data []) with errno := ENOENT }
      4 ⟨7, 1⟩ rfl rfl (by decide) (by decide)).2.2.2.2.2.1 2 42 3 4
      (sample_parent_os (fun i => if i = 0 then .error EINTR else
        pipe_read (written_to 4 (vm_spawn_child_exec_failed 4
          { sample_proc (sample_parent_os (fun _ => .bytes 0 0)) (fun _ => .failed ECHILD)
              (fun _ => true) (fun _ => .data []) with errno := ENOENT }).os.trace)))
      1 (by decide) rfl
      (fun j hj => ⟨EINTR, by
        have : j = 0 := by omega
        subst this; rfl⟩)
      rfl (by decide)⟩

/-! ### The tokenizer on an arbitrary buffer -/

theorem skip_spaces_run (s_end : Nat) :
    ∀ (n : Nat) (fuel : Nat) (buf : List Nat) (s : Nat), s_end - s ≤ n → n < fuel →
      s ≤ s_end → s_end ≤ buf.length →
      ∃ buf1 s1, skip_spaces fuel buf s_end s = .ok (buf1, s1) ∧ s ≤ s1 ∧ s1 ≤ s_end ∧
        buf1.length = buf.length ∧
        (s1 < s_end → ∃ c, buf1[s1]? = some c ∧ c ≠ SPACE) ∧
        (s < s_end → buf[s]? = some SPACE → s < s1) := by
  intro n
  induction n with
  | zero =>
    intro fuel buf s hn hf hs hb
    obtain ⟨f, rfl⟩ : ∃ f, fuel = f + 1 := ⟨fuel - 1, by omega⟩
    have : ¬ s < s_end := by omega
    refine ⟨buf, s, ?_, Nat.le_refl _, hs, rfl, fun h => absurd h this, fun h => absurd h this⟩
    simp [skip_spaces, this]
  | succ n ih =>
    intro fuel buf s hn hf hs hb
    obtain ⟨f, rfl⟩ : ∃ f, fuel = f + 1 := ⟨fuel - 1, by omega⟩
    by_cases hlt : s < s_end
    · have hsb : s < buf.length := by omega
      have hget : buf[s]? = some buf[s] := List.getElem?_eq_getElem hsb
      by_cases hc : buf[s] = SPACE
      · obtain ⟨buf1, s1, hrun, h1, h2, h3, h4, -⟩ :=
          ih f (buf.set s 0) (s + 1) (by omega) (by omega) (by omega) (by simpa using hb)
        refine ⟨buf1, s1, ?_, by omega, h2, by simpa using h3, h4, fun _ _ => by omega⟩
        simp only [skip_spaces, hlt, if_true, hget, hc]
        exact hrun
      · refine ⟨buf, s, ?_, Nat.le_refl _, hs, rfl, fun _ => ⟨buf[s], hget, hc⟩, ?_⟩
        · simp only [skip_spaces, hlt, if_true, hget, hc, if_false]
        · intro _ h
          rw [hget] at h
          exact absurd (Option.some.inj h) hc
    · refine ⟨buf, s, ?_, Nat.le_refl _, hs, rfl, fun h => absurd h hlt, fun h => absurd h hlt⟩
      simp [skip_spaces, hlt]

theorem skip_token_run (s_end : Nat) (buf : List Nat) (hb : s_end ≤ buf.length) :
    ∀ (n : Nat) (fuel : Nat) (s : Nat), s_end - s ≤ n → n < fuel → s ≤ s_end →
      ∃ s2, skip_token fuel buf s_end s = .ok s2 ∧ s ≤ s2 ∧ s2 ≤ s_end ∧
        (s2 < s_end → buf[s2]? = some SPACE) ∧
        (s < s_end → (∃ c, buf[s]? = some c ∧ c ≠ SPACE) → s < s2) := by
  intro n
  induction n with
  | zero =>
    intro fuel s hn hf hs
    obtain ⟨f, rfl⟩ : ∃ f, fuel = f + 1 := ⟨fuel - 1, by omega⟩
    have : ¬ s < s_end := by omega
    refine ⟨s, ?_, Nat.le_refl _, hs, fun h => absurd h this, fun h => absurd h this⟩
    simp [skip_token, this]
  | succ n ih =>
    intro fuel s hn hf hs
    obtain ⟨f, rfl⟩ : ∃ f, fuel = f + 1 := ⟨fuel - 1, by omega⟩
    by_cases hlt : s < s_end
    · have hsb : s < buf.length := by omega
      have hget : buf[s]? = some buf[s] := List.getElem?_eq_getElem hsb
      by_cases hc : buf[s] = SPACE
      · refine ⟨s, ?_, Nat.le_refl _, hs, fun _ => by rw [hget, hc], ?_⟩
        · simp only [skip_token, hlt, if_true, hget, hc, ne_eq, not_true_eq_false, if_false]
        · intro _ h
          obtain ⟨c, h1, h2⟩ := h
          rw [hget] at h1
          exact absurd ((Option.some.inj h1).trans rfl ▸ hc) h2
      · obtain ⟨s2, hrun, h1, h2, h3, -⟩ := ih f (s + 1) (by omega) (by omega) (by omega)
        refine ⟨s2, ?_, by omega, h2, h3, fun _ _ => by omega⟩
        simp only [skip_token, hlt, if_true, hget, ne_eq, hc, not_false_eq_true]
        exact hrun
    · refine ⟨s, ?_, Nat.le_refl _, hs, fun h => absurd h hlt, fun h => absurd h hlt⟩
      simp [skip_token, hlt]

/-- The tokenizer loop returns on every buffer that holds `s_end` bytes, with at
most `(s_end + 1) / 2` pointers stored. -/
theorem tokenize_run (inner max_spaces s_end : Nat) (hmax : s_end / 2 + 2 ≤ max_spaces)
    (hinner : s_end < inner) :
    ∀ (n : Nat) (fuel : Nat) (buf : List Nat) (s : Nat) (args : List Nat),
      s_end - s ≤ n → n < fuel → s ≤ s_end → s_end ≤ buf.length →
      2 * args.length ≤ s + 1 →
      (args ≠ [] → s < s_end → buf[s]? = some SPACE) →
      ∃ buf1 args1, tokenize inner max_spaces s_end fuel buf s args = .ok (buf1, args1) ∧
        2 * args1.length ≤ s_end + 1 ∧ buf1.length = buf.length ∧
        args.length ≤ args1.length := by
  intro n
  induction n with
  | zero =>
    intro fuel buf s args hn hf hs hb hidx _
    obtain ⟨f, rfl⟩ : ∃ f, fuel = f + 1 := ⟨fuel - 1, by omega⟩
    obtain ⟨buf1, s1, hrun, h1, h2, h3, -, -⟩ :=
      skip_spaces_run s_end (s_end - s) inner buf s (Nat.le_refl _) (by omega) hs hb
    have hs1 : s1 = s_end := by omega
    refine ⟨buf1, args, ?_, by omega, h3, Nat.le_refl _⟩
    simp only [tokenize, hrun, hs1, if_true]
  | succ n ih =>
    intro fuel buf s args hn hf hs hb hidx hsp
    obtain ⟨f, rfl⟩ : ∃ f, fuel = f + 1 := ⟨fuel - 1, by omega⟩
    obtain ⟨buf1, s1, hrun, h1, h2, h3, h4, h5⟩ :=
      skip_spaces_run s_end (s_end - s) inner buf s (Nat.le_refl _) (by omega) hs hb
    by_cases hend : s1 = s_end
    · refine ⟨buf1, args, ?_, by omega, h3, Nat.le_refl _⟩
      simp only [tokenize, hrun, hend, if_true]
    · have hlt1 : s1 < s_end := by omega
      have hslot : args.length < max_spaces := by omega
      obtain ⟨s2, hrun2, t1, t2, t3, t4⟩ :=
        skip_token_run s_end buf1 (by omega) (s_end - s1) inner s1 (Nat.le_refl _) (by omega) h2
      have hadv : s1 < s2 := t4 hlt1 (h4 hlt1)
      have hidx2 : 2 * (args ++ [s1]).length ≤ s2 + 1 := by
        simp only [List.length_append, List.length_singleton]
        by_cases hargs : args = []
        · subst hargs; simp; omega
        · have hs_lt : s < s_end := by omega
          have := h5 hs_lt (hsp hargs hs_lt)
          omega
      obtain ⟨buf2, args2, hrun3, b1, b2, b3⟩ :=
        ih f buf1 s2 (args ++ [s1]) (by omega) (by omega) t2 (by omega) hidx2
          (fun _ h => t3 h)
      refine ⟨buf2, args2, ?_, b1, by omega, ?_⟩
      · simp only [tokenize, hrun, hend, if_false, hslot, if_true, hrun2]
        exact hrun3
      · simp only [List.length_append, List.length_singleton] at b3
        omega

/-- C27: for every command length `c_len` and every content of a buffer that
holds `c_len` bytes, the tokenizer loop of `exec_sh_fallback` returns (budget
above `c_len`) and the number `idx` of pointers it has stored is at most
`c_len / 2 + 1`, so the stores `args[0..idx]` (the tokens and the null pointer)
stay inside the `c_len / 2 + 2` slots; below 4 GiB the count also fits the `int`
that holds it. When the first loop finds a NUL or a metacharacter in the buffer,
`exec_sh_fallback` itself returns, and an `execvp` vector has at most
`c_len / 2 + 2` slots. -/
theorem exec_sh_fallback_token_bound (buf : List Nat) (c_len fuel : Nat)
    (hlen : c_len ≤ buf.length) (hfuel : c_len < fuel) :
    (∃ buf1 args, tokenize fuel (c_len / 2 + 2) c_len fuel buf 0 [] = .ok (buf1, args) ∧
      args.length ≤ c_len / 2 + 1 ∧ args.length + 1 ≤ c_len / 2 + 2 ∧
      (c_len < 4294967294 → args.length ≤ 2147483647)) ∧
    ((∃ b, scan_metachar buf = .ok b) →
      ∃ r, exec_sh_fallback fuel buf c_len = .ok r ∧
        ∀ file argv, r.call = some (.execvp file argv) → argv.length ≤ c_len / 2 + 2) := by
  obtain ⟨buf1, args, hrun, hb, -, -⟩ :=
    tokenize_run fuel (c_len / 2 + 2) c_len (Nat.le_refl _) hfuel c_len fuel buf 0 []
      (by omega) hfuel (Nat.zero_le _) hlen (by simp) (fun h => absurd rfl h)
  have hidx : args.length ≤ c_len / 2 + 1 := by omega
  refine ⟨⟨buf1, args, hrun, hidx, by omega, fun _ => by omega⟩, ?_⟩
  rintro ⟨b, hscan⟩
  cases b with
  | true =>
    refine ⟨{ buf := buf, call := some (.execl bin_sh [sh_arg0, sh_dash_c, cstr buf 0]) },
      by simp only [exec_sh_fallback, hscan], ?_⟩
    intro file argv h
    simp at h
  | false =>
    have hlt : args.length < c_len / 2 + 2 := by omega
    cases hargs : args with
    | nil =>
      subst hargs
      refine ⟨{ buf := buf1, call := none }, ?_, ?_⟩
      · simp only [exec_sh_fallback, hscan, hrun, if_pos hlt]
      · intro file argv h
        simp at h
    | cons a0 rest =>
      subst hargs
      refine ⟨{ buf := buf1,
                call := some (.execvp (cstr buf1 a0)
                  ((a0 :: rest).map (fun p => CharPtr.ptr (cstr buf1 p)) ++ [CharPtr.null])) },
        by simp only [exec_sh_fallback, hscan, hrun, if_pos hlt], ?_⟩
      intro file argv h
      simp only [Option.some.injEq, Exec.execvp.injEq] at h
      rw [← h.2]
      simp only [List.length_append, List.length_map, List.length_singleton]
      omega

theorem exec_sh_fallback_token_bound_witness :
    (∃ buf1 args, tokenize 6 (5 / 2 + 2) 5 6 [97, 32, 98, 32, 99, 0] 0 [] = .ok (buf1, args) ∧
      args.length ≤ 5 / 2 + 1 ∧ args.length + 1 ≤ 5 / 2 + 2 ∧
      (5 < 4294967294 → args.length ≤ 2147483647)) ∧
    ∃ r, exec_sh_fallback 6 [97, 32, 98, 32, 99, 0] 5 = .ok r ∧
      ∀ file argv, r.call = some (.execvp file argv) → argv.length ≤ 5 / 2 + 2 :=
  ⟨(exec_sh_fallback_token_bound [97, 32, 98, 32, 99, 0] 5 6 (by decide) (by decide)).1,
   (exec_sh_fallback_token_bound [97, 32, 98, 32, 99, 0] 5 6 (by decide) (by decide)).2
     ⟨false, rfl⟩⟩

theorem sigaction_fields (sig : Nat) (act : Sigaction) (p : Proc) :
    (sigaction sig act p).2.2.os.fds = p.os.fds ∧
    (sigaction sig act p).2.2.exit_handlers = p.exit_handlers ∧
    (sigaction sig act p).2.2.errno
      = (if sig = 0 ∨ NSIG ≤ sig ∨ uncatchable sig = true then EINVAL else p.errno) := by
  unfold sigaction
  split <;> exact ⟨rfl, rfl, rfl⟩

theorem default_signals_spec :
    ∀ (l : List Nat) (p : Proc),
      (default_signals l p).os.fds = p.os.fds ∧
      (default_signals l p).exit_handlers = p.exit_handlers ∧
      (default_signals l p).os.trace
        = p.os.trace ++ l.map (fun i => Syscall.sigaction i default_action) ∧
      (default_signals l p).errno
        = (if l.any (fun i => decide (i = 0 ∨ NSIG ≤ i ∨ uncatchable i = true)) = true
           then EINVAL else p.errno) := by
  intro l
  induction l with
  | nil => intro p; simp [default_signals]
  | cons i rest ih =>
    intro p
    obtain ⟨h1, h2, h3, h4⟩ := ih (sigaction i default_action p).2.2
    obtain ⟨s1, s2, s3⟩ := sigaction_fields i default_action p
    refine ⟨h1.trans s1, h2.trans s2, ?_, ?_⟩
    · refine h3.trans ?_
      rw [sigaction_trace]
      simp
    · refine h4.trans ?_
      rw [s3, List.any_cons]
      generalize rest.any (fun i => decide (i = 0 ∨ NSIG ≤ i ∨ uncatchable i = true)) = b
      by_cases hi : i = 0 ∨ NSIG ≤ i ∨ uncatchable i = true
      · cases b <;> simp [hi]
      · cases b <;> simp [hi]

theorem descriptor_of_fds (os1 os2 : OS) (h : os1.fds = os2.fds) (fd : Int) :
    os1.descriptor fd = os2.descriptor fd := by
  unfold OS.descriptor
  rw [h]

theorem locked_quiet_cons (held : Bool) (c : Syscall) (rest : List Syscall)
    (h : quiet_call c = true) :
    locked_at_mutations held (c :: rest) = locked_at_mutations held rest := by
  cases c with
  | hook k =>
    have h1 : k ≠ .lock_fork_exec := by
      intro hk; subst hk; simp [quiet_call] at h
    have h2 : k ≠ .unlock_fork_exec := by
      intro hk; subst hk; simp [quiet_call] at h
    simp only [locked_at_mutations, if_neg h1, if_neg h2]
  | fork => simp [quiet_call] at h
  | signal a b => simp [quiet_call] at h
  | sigaction a b => simp [quiet_call] at h
  | _ => rfl

theorem locked_quiet_append (held : Bool) (a b : List Syscall)
    (h : ∀ c ∈ a, quiet_call c = true) :
    locked_at_mutations held (a ++ b) = locked_at_mutations held b := by
  induction a with
  | nil => rfl
  | cons c rest ih =>
    rw [List.cons_append, locked_quiet_cons held c _ (h c (List.mem_cons_self _ _))]
    exact ih (fun x hx => h x (List.mem_cons_of_mem _ hx))

theorem locked_quiet (held : Bool) (a : List Syscall) (h : ∀ c ∈ a, quiet_call c = true) :
    locked_at_mutations held a = true := by
  have := locked_quiet_append held a [] h
  rw [List.append_nil] at this
  rw [this]
  rfl

/-- While the lock is held, calls that do not release it keep the check true. -/
theorem locked_held_append (a b : List Syscall)
    (h : ∀ c ∈ a, c ≠ Syscall.hook .unlock_fork_exec) :
    locked_at_mutations true (a ++ b) = locked_at_mutations true b := by
  induction a with
  | nil => rfl
  | cons c rest ih =>
    have hrest := ih (fun x hx => h x (List.mem_cons_of_mem _ hx))
    have hc := h c (List.mem_cons_self _ _)
    rw [List.cons_append]
    cases c with
    | hook k =>
      have h2 : k ≠ .unlock_fork_exec := fun hk => hc (by rw [hk])
      by_cases h1 : k = .lock_fork_exec
      · simp only [locked_at_mutations, if_pos h1]
        exact hrest
      · simp only [locked_at_mutations, if_neg h1, if_neg h2]
        exact hrest
    | fork => simp only [locked_at_mutations, Bool.true_and]; exact hrest
    | signal a b => simp only [locked_at_mutations, Bool.true_and]; exact hrest
    | sigaction a b => simp only [locked_at_mutations, Bool.true_and]; exact hrest
    | _ => exact hrest

theorem Proc.close_trace (p : Proc) (fd : Int) :
    (p.close fd).os.trace = p.os.trace ++ [.close fd] := by
  rw [(Proc.close_fields p fd).1, (close_reads fd p.os).2.2]

theorem pipe_trace (r : PipeResult) (p : Proc) :
    (pipe r p).2.2.os.trace = p.os.trace ++ [.pipe] := by
  unfold pipe
  split
  · rfl
  · split
    · rfl
    · split <;> rfl

theorem fork_exec_spec (ret err errors_fd : Int) (p : Proc) :
    (fork_exec ret err errors_fd p).1 = ret ∧
    (fork_exec ret err errors_fd p).2.os.trace = p.os.trace ++
      ([.hook .lock_fork_exec, .hook .before_fork_exec, .fcntl_setfd errors_fd FD_CLOEXEC,
        .hook .become_managed, .hook .lock_phase_enter, .fork] ++
       (if ret = 0 then [.hook .vm_after_fork_child] else []) ++
       [.hook .lock_phase_leave, .hook .become_unmanaged] ++
       (if ret > 0 then [.hook .after_fork_exec_parent] else []) ++
       [.hook .unlock_fork_exec]) := by
  refine ⟨rfl, ?_⟩
  unfold fork_exec
  simp only
  by_cases h0 : ret = 0
  · have hpos : ¬ ret > 0 := by omega
    have hm1 : ¬ ret = -1 := by omega
    simp [h0, fork, Proc.hook, Proc.emit, OS.emit, fcntl_setfd_trace]
  · by_cases hpos : ret > 0
    · have hm1 : ¬ ret = -1 := by omega
      simp [h0, hpos, hm1, fork, Proc.hook, Proc.emit, OS.emit, fcntl_setfd_trace]
    · by_cases hm1 : ret = -1
      · simp [h0, hm1, fork, Proc.hook, Proc.emit, OS.emit, fcntl_setfd_trace]
      · simp [h0, hpos, hm1, fork, Proc.hook, Proc.emit, OS.emit, fcntl_setfd_trace]

/-- The calls of `fork_exec` are made with the lock held, and the lock is free
again afterwards. -/
theorem locked_fork_exec (held : Bool) (ret errors_fd : Int) (rest : List Syscall) :
    locked_at_mutations held
      (([.hook .lock_fork_exec, .hook .before_fork_exec, .fcntl_setfd errors_fd FD_CLOEXEC,
        .hook .become_managed, .hook .lock_phase_enter, .fork] ++
       (if ret = 0 then [.hook .vm_after_fork_child] else []) ++
       [.hook .lock_phase_leave, .hook .become_unmanaged] ++
       (if ret > 0 then [.hook .after_fork_exec_parent] else []) ++
       [.hook .unlock_fork_exec]) ++ rest)
      = locked_at_mutations false rest := by
  by_cases h0 : ret = 0
  · have hpos : ¬ ret > 0 := by omega
    simp [h0, locked_at_mutations]
  · by_cases hpos : ret > 0
    · simp [h0, hpos, locked_at_mutations]
    · simp [h0, hpos, locked_at_mutations]

theorem read_trace (fd : Int) (os : OS) : (read fd os).2.trace = os.trace ++ [.read fd] := by
  unfold read
  split <;> rfl

theorem read_output_trace (fd : Int) (n : Nat) (p : Proc) :
    (read_output fd n p).2.2.os.trace = p.os.trace ++ [.read_output fd n] := by
  unfold read_output
  split
  · rfl
  · split <;> rfl

theorem read_error_channel_quiet (msg : String) (fd : Int) :
    ∀ (fuel : Nat) (os : OS) (r : Nat × Int) (os' : OS),
      read_error_channel msg fd fuel os = .ok (r, os') →
      ∃ t, os'.trace = os.trace ++ t ∧ ∀ c ∈ t, quiet_call c = true := by
  intro fuel
  induction fuel with
  | zero => intro os r os' h; simp [read_error_channel] at h
  | succ f ih =>
    intro os r os' h
    have ht := read_trace fd os
    rw [read_error_channel] at h
    cases hr : read fd os with
    | mk res os1 =>
      rw [hr] at h ht
      simp only at ht
      cases res with
      | bytes size error_no =>
        simp only at h
        injection h with h
        injection h with _ h2
        subst h2
        exact ⟨[.read fd], ht, by simp [quiet_call]⟩
      | error errno =>
        simp only at h
        by_cases he : errno = EAGAIN ∨ errno = EINTR
        · rw [if_pos he] at h
          obtain ⟨t, h1, h2⟩ := ih os1 r os' h
          refine ⟨[.read fd] ++ t, by rw [h1, ht, List.append_assoc], ?_⟩
          intro c hc
          rcases List.mem_append.1 hc with hc | hc
          · simp at hc; subst hc; rfl
          · exact h2 c hc
        · rw [if_neg he] at h
          obtain ⟨t, h1, h2⟩ := ih (os1.emit (.log_error msg)) r os' h
          refine ⟨[.read fd, .log_error msg] ++ t, ?_, ?_⟩
          · rw [h1]
            show (os1.trace ++ [.log_error msg]) ++ t = _
            rw [ht]
            simp
          · intro c hc
            rcases List.mem_append.1 hc with hc | hc
            · simp at hc
              rcases hc with hc | hc <;> subst hc <;> rfl
            · exact h2 c hc

theorem vm_spawn_parent_quiet (fuel : Nat) (pid errors0 errors1 : Int) (os : OS)
    (r : Except Exn Object) (os' : OS)
    (h : vm_spawn_parent fuel pid errors0 errors1 os = .ok (r, os')) :
    ∃ t, os'.trace = os.trace ++ t ∧ ∀ c ∈ t, quiet_call c = true := by
  unfold vm_spawn_parent at h
  simp only at h
  cases hrun : read_error_channel "%s: spawn: reading error status" errors0 fuel
      ((close errors1 os).2.emit (.log_write "spawn: %d: %s, %s, %s:%d")) with
  | undefined => rw [hrun] at h; simp at h
  | outOfFuel => rw [hrun] at h; simp at h
  | ok v =>
    obtain ⟨⟨size, error_no⟩, os3⟩ := v
    rw [hrun] at h
    simp only at h
    obtain ⟨t, h1, h2⟩ := read_error_channel_quiet _ _ _ _ _ _ hrun
    have hos' : os' = (close errors0 os3).2 := by
      by_cases hs : size ≠ 0
      · rw [if_pos hs] at h
        injection h with h
        injection h with _ h
        exact h.symm
      · rw [if_neg hs] at h
        injection h with h
        injection h with _ h
        exact h.symm
    refine ⟨[.close errors1, .log_write "spawn: %d: %s, %s, %s:%d"] ++ t ++ [.close errors0],
      ?_, ?_⟩
    · rw [hos', (close_reads errors0 os3).2.2, h1]
      show (((close errors1 os).2.trace ++ [_]) ++ t) ++ _ = _
      rw [(close_reads errors1 os).2.2]
      simp
    · intro c hc
      rcases List.mem_append.1 hc with hc | hc
      · rcases List.mem_append.1 hc with hc | hc
        · simp at hc
          rcases hc with hc | hc <;> subst hc <;> rfl
        · exact h2 c hc
      · simp at hc; subst hc; rfl

theorem backtick_read_output_quiet (pid output0 : Int) :
    ∀ (fuel : Nat) (buf : List Nat) (p : Proc) (r : Except Exn (Option Object)) (q : Proc),
      backtick_read_output pid output0 fuel buf p = .ok (r, q) →
      ∃ t, q.os.trace = p.os.trace ++ t ∧ ∀ c ∈ t, quiet_call c = true := by
  intro fuel
  induction fuel with
  | zero => intro buf p r q h; simp [backtick_read_output] at h
  | succ f ih =>
    intro buf p r q h
    have ht1 : ((read_output output0 1023 (p.hook .unmanaged_enter)).2.2.hook
        .unmanaged_leave).os.trace
        = p.os.trace ++ [.hook .unmanaged_enter, .read_output output0 1023,
            .hook .unmanaged_leave] := by
      show (read_output output0 1023 (p.hook .unmanaged_enter)).2.2.os.trace ++ [_] = _
      rw [read_output_trace]
      simp [Proc.hook, Proc.emit, OS.emit]
    have hq3 : ∀ c ∈ [Syscall.hook .unmanaged_enter, .read_output output0 1023,
        .hook .unmanaged_leave], quiet_call c = true := by
      intro c hc
      simp at hc
      rcases hc with hc | hc | hc <;> subst hc <;> rfl
    rw [backtick_read_output] at h
    simp only at h
    generalize (read_output output0 1023 (p.hook .unmanaged_enter)).2.2.hook
      .unmanaged_leave = p1 at h ht1
    generalize (read_output output0 1023 (p.hook .unmanaged_enter)).1 = bytes at h
    generalize (read_output output0 1023 (p.hook .unmanaged_enter)).2.1 = raw at h
    -- a result that is reached by closing the pipe
    have hclose : ∀ x : Proc, q = x.close output0 → (∃ u, x.os.trace = p1.os.trace ++ u ∧
        ∀ c ∈ u, quiet_call c = true) →
        ∃ t, q.os.trace = p.os.trace ++ t ∧ ∀ c ∈ t, quiet_call c = true := by
      rintro x hx ⟨u, hu, hqu⟩
      refine ⟨[.hook .unmanaged_enter, .read_output output0 1023, .hook .unmanaged_leave]
        ++ u ++ [.close output0], ?_, ?_⟩
      · rw [hx, Proc.close_trace, hu, ht1]
        simp
      · intro c hc
        rcases List.mem_append.1 hc with hc | hc
        · rcases List.mem_append.1 hc with hc | hc
          · exact hq3 c hc
          · exact hqu c hc
        · simp at hc; subst hc; rfl
    have hrec : ∀ (b : List Nat) (x : Proc), backtick_read_output pid output0 f b x = .ok (r, q) →
        (∃ u, x.os.trace = p1.os.trace ++ u ∧ ∀ c ∈ u, quiet_call c = true) →
        ∃ t, q.os.trace = p.os.trace ++ t ∧ ∀ c ∈ t, quiet_call c = true := by
      rintro b x hx ⟨u, hu, hqu⟩
      obtain ⟨t, h1, h2⟩ := ih b x r q hx
      refine ⟨[.hook .unmanaged_enter, .read_output output0 1023, .hook .unmanaged_leave]
        ++ u ++ t, ?_, ?_⟩
      · rw [h1, hu, ht1]
        simp
      · intro c hc
        rcases List.mem_append.1 hc with hc | hc
        · rcases List.mem_append.1 hc with hc | hc
          · exact hq3 c hc
          · exact hqu c hc
        · exact h2 c hc
    have hasync : ∃ u, (check_async p1).2.os.trace = p1.os.trace ++ u ∧
        ∀ c ∈ u, quiet_call c = true :=
      ⟨[.check_async], rfl, by intro c hc; simp at hc; subst hc; rfl⟩
    have hself : ∃ u, p1.os.trace = p1.os.trace ++ u ∧ ∀ c ∈ u, quiet_call c = true :=
      ⟨[], by simp, by simp⟩
    by_cases hneg : bytes < 0
    · rw [if_pos hneg] at h
      by_cases he : p1.errno = EAGAIN ∨ p1.errno = EINTR
      · rw [if_pos he] at h
        by_cases ha : (!(check_async p1).1) = true
        · rw [if_pos ha] at h
          injection h with h
          injection h with _ h
          exact hclose _ h.symm hasync
        · rw [if_neg ha] at h
          exact hrec _ _ h hasync
      · rw [if_neg he] at h
        injection h with h
        injection h with _ h
        exact hclose _ h.symm hself
    · rw [if_neg hneg] at h
      by_cases hz : bytes = 0
      · rw [if_pos hz] at h
        injection h with h
        injection h with _ h
        exact hclose _ h.symm hself
      · rw [if_neg hz] at h
        exact hrec _ _ h hself

theorem vm_backtick_parent_quiet (fuel : Nat) (pid errors0 errors1 output0 output1 : Int)
    (p : Proc) (r : Except Exn (Option Object)) (q : Proc)
    (h : vm_backtick_parent fuel pid errors0 errors1 output0 output1 p = .ok (r, q)) :
    ∃ t, q.os.trace = p.os.trace ++ t ∧ ∀ c ∈ t, quiet_call c = true := by
  unfold vm_backtick_parent at h
  simp only at h
  have ht2 : (((p.close errors1).close output1).emit
      (.log_write "backtick: %d: %s, %s, %s:%d")).os.trace
      = p.os.trace ++ [.close errors1, .close output1,
          .log_write "backtick: %d: %s, %s, %s:%d"] := by
    show ((p.close errors1).close output1).os.trace ++ [_] = _
    rw [Proc.close_trace, Proc.close_trace]
    simp
  cases hrun : read_error_channel "%s: backtick: reading error status" errors0 fuel
      (((p.close errors1).close output1).emit
        (.log_write "backtick: %d: %s, %s, %s:%d")).os with
  | undefined => rw [hrun] at h; simp at h
  | outOfFuel => rw [hrun] at h; simp at h
  | ok v =>
    obtain ⟨⟨size, error_no⟩, os3⟩ := v
    rw [hrun] at h
    simp only at h
    obtain ⟨t, h1, h2⟩ := read_error_channel_quiet _ _ _ _ _ _ hrun
    rw [ht2] at h1
    generalize hp4 : (({ ((p.close errors1).close output1).emit
        (.log_write "backtick: %d: %s, %s, %s:%d") with os := os3 } : Proc).close errors0)
        = p4 at h
    have ht4 : p4.os.trace = p.os.trace ++ ([.close errors1, .close output1,
          .log_write "backtick: %d: %s, %s, %s:%d"] ++ t ++ [.close errors0]) := by
      rw [← hp4, Proc.close_trace]
      show os3.trace ++ _ = _
      rw [h1]
      simp
    have hq4 : ∀ c ∈ ([Syscall.close errors1, .close output1,
          .log_write "backtick: %d: %s, %s, %s:%d"] ++ t ++ [.close errors0]),
        quiet_call c = true := by
      intro c hc
      rcases List.mem_append.1 hc with hc | hc
      · rcases List.mem_append.1 hc with hc | hc
        · simp at hc
          rcases hc with hc | hc | hc <;> subst hc <;> rfl
        · exact h2 c hc
      · simp at hc; subst hc; rfl
    by_cases hs : size ≠ 0
    · rw [if_pos hs] at h
      injection h with h
      injection h with _ h
      refine ⟨([.close errors1, .close output1,
          .log_write "backtick: %d: %s, %s, %s:%d"] ++ t ++ [.close errors0])
          ++ [.close output0], ?_, ?_⟩
      · rw [← h, Proc.close_trace, ht4, List.append_assoc]
      · intro c hc
        rcases List.mem_append.1 hc with hc | hc
        · exact hq4 c hc
        · simp at hc; subst hc; rfl
    · rw [if_neg hs] at h
      obtain ⟨u, u1, u2⟩ := backtick_read_output_quiet pid output0 fuel [] p4 r q h
      refine ⟨([.close errors1, .close output1,
          .log_write "backtick: %d: %s, %s, %s:%d"] ++ t ++ [.close errors0]) ++ u, ?_, ?_⟩
      · rw [u1, ht4, List.append_assoc]
      · intro c hc
        rcases List.mem_append.1 hc with hc | hc
        · exact hq4 c hc
        · exact u2 c hc

/-- The state in which a launcher goes on after `fork_exec`, and the replay of
what follows. -/
theorem locked_after_fork_exec (ret err errors1 : Int) (p0 : Proc) (pre tail : List Syscall)
    (hpre : ∀ c ∈ pre, quiet_call c = true) (htail : ∀ c ∈ tail, quiet_call c = true)
    (x : Proc)
    (hx : x.os.trace
      = ((fork_exec ret err errors1 (p0.hook .unmanaged_enter)).2.hook
          .unmanaged_leave).os.trace ++ tail)
    (p : Proc) (hp0 : p0.os.trace = p.os.trace ++ pre) :
    ∃ t, x.os.trace = p.os.trace ++ t ∧ locked_at_mutations false t = true := by
  obtain ⟨-, hfe⟩ := fork_exec_spec ret err errors1 (p0.hook .unmanaged_enter)
  have h1 : ((fork_exec ret err errors1 (p0.hook .unmanaged_enter)).2.hook
      .unmanaged_leave).os.trace
      = (fork_exec ret err errors1 (p0.hook .unmanaged_enter)).2.os.trace
        ++ [.hook .unmanaged_leave] := rfl
  have h2 : (p0.hook .unmanaged_enter).os.trace = p0.os.trace ++ [.hook .unmanaged_enter] := rfl
  rw [h1, hfe, h2, hp0] at hx
  generalize hFE : ([Syscall.hook .lock_fork_exec, .hook .before_fork_exec,
        .fcntl_setfd errors1 FD_CLOEXEC,
        .hook .become_managed, .hook .lock_phase_enter, .fork] ++
       (if ret = 0 then [.hook .vm_after_fork_child] else []) ++
       [.hook .lock_phase_leave, .hook .become_unmanaged] ++
       (if ret > 0 then [.hook .after_fork_exec_parent] else []) ++
       [.hook .unlock_fork_exec]) = FE at hx
  refine ⟨(pre ++ [.hook .unmanaged_enter]) ++ (FE ++ ([.hook .unmanaged_leave] ++ tail)),
    ?_, ?_⟩
  · rw [hx]
    simp only [List.append_assoc]
  · rw [locked_quiet_append, ← hFE, locked_fork_exec, locked_quiet]
    · intro c hc
      rcases List.mem_append.1 hc with hc | hc
      · simp at hc; subst hc; rfl
      · exact htail c hc
    · intro c hc
      rcases List.mem_append.1 hc with hc | hc
      · exact hpre c hc
      · simp at hc; subst hc; rfl

/-- In the process that goes on as the parent, `vm_spawn` forks with the lock
held and changes no signal disposition. -/
theorem vm_spawn_locked (fuel : Nat) (spawn_state : Object) (path : List Nat)
    (args : List Object) (pr : PipeResult) (ret err : Int) (exec_errno : Option Int)
    (p : Proc) (out : Outcome Object) (hret : ret ≠ 0)
    (h : vm_spawn fuel spawn_state path args pr ret err exec_errno p = .ok out) :
    ∃ t, out.proc.os.trace = p.os.trace ++ t ∧ locked_at_mutations false t = true := by
  unfold vm_spawn at h
  cases hexe : ExecCommand.from_command_args path args with
  | error e =>
    rw [hexe] at h
    simp only at h
    injection h with h
    subst h
    exact ⟨[], by simp [Outcome.proc], rfl⟩
  | ok exe =>
    rw [hexe] at h
    simp only at h
    have hpt := pipe_trace pr p
    by_cases hp : (pipe pr p).1 ≠ 0
    · rw [if_pos hp] at h
      injection h with h
      subst h
      exact ⟨[.pipe], hpt, rfl⟩
    · rw [if_neg hp] at h
      have hpid := (fork_exec_spec ret err (pipe pr p).2.1.2
        ((pipe pr p).2.2.hook .unmanaged_enter)).1
      rw [hpid] at h
      have hpre : ∀ c ∈ [Syscall.pipe], quiet_call c = true := by
        intro c hc; simp at hc; subst hc; rfl
      by_cases hm1 : ret = -1
      · rw [if_pos hm1] at h
        injection h with h
        subst h
        refine locked_after_fork_exec ret err (pipe pr p).2.1.2 (pipe pr p).2.2 [.pipe]
          [.close (pipe pr p).2.1.1, .close (pipe pr p).2.1.2] hpre ?_ _ ?_ p hpt
        · intro c hc
          simp at hc
          rcases hc with hc | hc <;> subst hc <;> rfl
        · show (((_ : Proc).close _).close _).os.trace = _
          rw [Proc.close_trace, Proc.close_trace, List.append_assoc]
          rfl
      · rw [if_neg hm1, if_neg hret] at h
        cases hpar : vm_spawn_parent fuel ret (pipe pr p).2.1.1 (pipe pr p).2.1.2
            ((fork_exec ret err (pipe pr p).2.1.2
              ((pipe pr p).2.2.hook .unmanaged_enter)).2.hook .unmanaged_leave).os with
        | undefined => rw [hpar] at h; simp at h
        | outOfFuel => rw [hpar] at h; simp at h
        | ok v =>
          obtain ⟨r, os2⟩ := v
          rw [hpar] at h
          simp only at h
          injection h with h
          subst h
          obtain ⟨t, h1, h2⟩ := vm_spawn_parent_quiet _ _ _ _ _ _ _ hpar
          exact locked_after_fork_exec ret err (pipe pr p).2.1.2 (pipe pr p).2.2 [.pipe]
            t hpre h2 _ h1 p hpt

/-- In the process that goes on as the parent, `vm_backtick` forks with the lock
held and changes no signal disposition. -/
theorem vm_backtick_locked (fuel : Nat) (str : List Nat) (pr1 pr2 : PipeResult)
    (ret err : Int) (exec_errno : Option Int) (p : Proc) (out : Outcome (Option Object))
    (hret : ret ≠ 0)
    (h : vm_backtick fuel str pr1 pr2 ret err exec_errno p = .ok out) :
    ∃ t, out.proc.os.trace = p.os.trace ++ t ∧ locked_at_mutations false t = true := by
  unfold vm_backtick at h
  simp only at h
  have hpt := pipe_trace pr1 p
  by_cases hp : (pipe pr1 p).1 ≠ 0
  · rw [if_pos hp] at h
    injection h with h
    subst h
    exact ⟨[.pipe], hpt, rfl⟩
  · rw [if_neg hp] at h
    have hpt2 : (pipe pr2 (pipe pr1 p).2.2).2.2.os.trace = p.os.trace ++ [.pipe, .pipe] := by
      rw [pipe_trace, hpt, List.append_assoc]
      rfl
    by_cases hp2 : (pipe pr2 (pipe pr1 p).2.2).1 ≠ 0
    · rw [if_pos hp2] at h
      injection h with h
      subst h
      exact ⟨[.pipe, .pipe], hpt2, rfl⟩
    · rw [if_neg hp2] at h
      have hpid := (fork_exec_spec ret err (pipe pr1 p).2.1.2
        ((pipe pr2 (pipe pr1 p).2.2).2.2.hook .unmanaged_enter)).1
      rw [hpid] at h
      have hpre : ∀ c ∈ [Syscall.pipe, Syscall.pipe], quiet_call c = true := by
        intro c hc; simp at hc; subst hc; rfl
      by_cases hm1 : ret = -1
      · rw [if_pos hm1] at h
        injection h with h
        subst h
        refine locked_after_fork_exec ret err (pipe pr1 p).2.1.2
          (pipe pr2 (pipe pr1 p).2.2).2.2 [.pipe, .pipe]
          [.close (pipe pr1 p).2.1.1, .close (pipe pr1 p).2.1.2,
           .close (pipe pr2 (pipe pr1 p).2.2).2.1.1,
           .close (pipe pr2 (pipe pr1 p).2.2).2.1.2] hpre ?_ _ ?_ p hpt2
        · intro c hc
          simp at hc
          rcases hc with hc | hc | hc | hc <;> subst hc <;> rfl
        · show (((((_ : Proc).close _).close _).close _).close _).os.trace = _
          rw [Proc.close_trace, Proc.close_trace, Proc.close_trace, Proc.close_trace]
          simp only [List.append_assoc]
          rfl
      · rw [if_neg hm1, if_neg hret] at h
        cases hpar : vm_backtick_parent fuel ret (pipe pr1 p).2.1.1 (pipe pr1 p).2.1.2
            (pipe pr2 (pipe pr1 p).2.2).2.1.1 (pipe pr2 (pipe pr1 p).2.2).2.1.2
            ((fork_exec ret err (pipe pr1 p).2.1.2
              ((pipe pr2 (pipe pr1 p).2.2).2.2.hook .unmanaged_enter)).2.hook
                .unmanaged_leave) with
        | undefined => rw [hpar] at h; simp at h
        | outOfFuel => rw [hpar] at h; simp at h
        | ok v =>
          obtain ⟨r, q⟩ := v
          rw [hpar] at h
          simp only at h
          injection h with h
          subst h
          obtain ⟨t, h1, h2⟩ := vm_backtick_parent_quiet _ _ _ _ _ _ _ _ _ hpar
          exact locked_after_fork_exec ret err (pipe pr1 p).2.1.2
            (pipe pr2 (pipe pr1 p).2.2).2.2 [.pipe, .pipe] t hpre h2 _ h1 p hpt2

theorem vm_fork_locked (ret err : Int) (p : Proc) :
    ∃ t, (vm_fork ret err p).2.os.trace = p.os.trace ++ t ∧
      locked_at_mutations false t = true := by
  by_cases h0 : ret = 0
  · subst h0
    refine ⟨[.hook .lock_fork_exec, .hook .before_fork, .hook .lock_phase_enter, .fork,
         .hook .vm_after_fork_child, .hook .lock_phase_leave, .hook .unlock_fork_exec,
         .hook .thread_init_lock, .hook .shared_after_fork_child,
         .hook .threads_after_fork_child], ?_, by decide⟩
    simp [vm_fork, fork, Proc.hook, Proc.emit, OS.emit]
  · by_cases hpos : ret > 0
    · have hm1 : ¬ ret = -1 := by omega
      refine ⟨[.hook .lock_fork_exec, .hook .before_fork, .hook .lock_phase_enter, .fork,
         .hook .after_fork_parent, .hook .lock_phase_leave, .hook .unlock_fork_exec,
         .log_write "fork: child: %d, %s, %s:%d"], ?_, by decide⟩
      simp [vm_fork, fork, h0, hpos, hm1, Proc.hook, Proc.emit, OS.emit]
    · refine ⟨[.hook .lock_fork_exec, .hook .before_fork, .hook .lock_phase_enter, .fork,
         .hook .lock_phase_leave, .hook .unlock_fork_exec], ?_, by decide⟩
      by_cases hm1 : ret = -1
      · simp [vm_fork, fork, hm1, Proc.hook, Proc.emit, OS.emit]
      · simp [vm_fork, fork, h0, hpos, hm1, Proc.hook, Proc.emit, OS.emit]

/-- The replay of the calls of `vm_exec` from the lock on. -/
theorem locked_exec_calls (mid tail : List Syscall)
    (hmid : ∀ c ∈ mid, c ≠ Syscall.hook .unlock_fork_exec)
    (htail : tail = [] ∨ tail = [.hook .unlock_fork_exec]) :
    locked_at_mutations false
      ([.log_write "exec: %s, %s, %s:%d", .hook .lock_fork_exec] ++ mid ++ tail) = true := by
  have h1 : locked_at_mutations false
      ([.log_write "exec: %s, %s, %s:%d", .hook .lock_fork_exec] ++ mid ++ tail)
      = locked_at_mutations true (mid ++ tail) := by
    simp [locked_at_mutations]
  rw [h1, locked_held_append mid tail hmid]
  rcases htail with h | h <;> subst h <;> rfl

theorem map_sigaction_ne_unlock (l : List Nat) (f : Nat → Sigaction) :
    ∀ c ∈ l.map (fun i => Syscall.sigaction i (f i)), c ≠ Syscall.hook .unlock_fork_exec := by
  intro c hc
  obtain ⟨i, -, rfl⟩ := List.mem_map.1 hc
  simp

theorem vm_exec_locked (fuel : Nat) (junk : Handler) (path : List Nat) (args : List Object)
    (exec_errno : Option Int) (p : Proc) (out : ExecOutcome)
    (h : vm_exec fuel junk path args exec_errno p = .ok out) :
    ∃ t, out.proc.os.trace = p.os.trace ++ t ∧ locked_at_mutations false t = true := by
  have hnd : signal_numbers.Nodup := List.nodup_range' _ _
  unfold vm_exec at h
  cases hexe : ExecCommand.from_command_args path args with
  | error e =>
    rw [hexe] at h
    simp only at h
    injection h with h
    subst h
    exact ⟨[], by simp [ExecOutcome.proc], rfl⟩
  | ok exe =>
    rw [hexe] at h
    simp only at h
    obtain ⟨-, -, r3⟩ := reset_signals_spec junk signal_numbers (fun _ => junk)
      (((p.emit (.log_write "exec: %s, %s, %s:%d")).hook .lock_fork_exec).hook .before_exec) hnd
    have hp3 : (((p.emit (.log_write "exec: %s, %s, %s:%d")).hook .lock_fork_exec).hook
        .before_exec).os.trace
        = p.os.trace ++ [.log_write "exec: %s, %s, %s:%d", .hook .lock_fork_exec,
            .hook .before_exec] := by
      simp [Proc.hook, Proc.emit, OS.emit]
    rw [hp3] at r3
    generalize reset_signals junk signal_numbers (fun _ => junk)
      (((p.emit (.log_write "exec: %s, %s, %s:%d")).hook .lock_fork_exec).hook .before_exec)
      = R at h r3
    -- the failure path from a state `p4` reached after the reset
    have hfail : ∀ (p4 : Proc) (ev : List Syscall) (e : Exn),
        p4.os.trace = R.2.os.trace ++ ev →
        (∀ c ∈ ev, c ≠ Syscall.hook .unlock_fork_exec) →
        out = .raised e (((restore_signals R.1 signal_numbers p4).hook .after_exec).hook
          .unlock_fork_exec) →
        ∃ t, out.proc.os.trace = p.os.trace ++ t ∧ locked_at_mutations false t = true := by
      intro p4 ev e hp4 hev hout
      obtain ⟨-, s2⟩ := restore_signals_spec R.1 signal_numbers p4
      refine ⟨[.log_write "exec: %s, %s, %s:%d", .hook .lock_fork_exec] ++
        ([.hook .before_exec] ++
          signal_numbers.map (fun i => Syscall.sigaction i default_action) ++ ev ++
          signal_numbers.map (fun i => Syscall.sigaction i
            { sa_handler := R.1 i, sa_flags := 0, sa_mask := sigfillset }) ++
          [.hook .after_exec]) ++ [.hook .unlock_fork_exec], ?_, ?_⟩
      · rw [hout]
        show ((restore_signals R.1 signal_numbers p4).os.trace ++ [_]) ++ [_] = _
        rw [s2, hp4, r3]
        simp only [List.append_assoc, List.cons_append, List.nil_append]
      · apply locked_exec_calls _ _ _ (Or.inr rfl)
        intro c hc
        simp only [List.mem_append, List.mem_singleton] at hc
        rcases hc with (((hc | hc) | hc) | hc) | hc
        · subst hc; simp
        · exact map_sigaction_ne_unlock _ _ c hc
        · exact hev c hc
        · exact map_sigaction_ne_unlock _ _ c hc
        · subst hc; simp
    cases hsh : launch_exec fuel exe with
    | undefined => rw [hsh] at h; simp at h
    | outOfFuel => rw [hsh] at h; simp at h
    | ok sh =>
      rw [hsh] at h
      simp only at h
      cases hcall : sh.call with
      | none =>
        rw [hcall] at h
        simp only at h
        injection h with h
        exact hfail R.2 [] _ (by simp) (by simp) h.symm
      | some call =>
        rw [hcall] at h
        cases exec_errno with
        | none =>
          simp only at h
          injection h with h
          subst h
          refine ⟨[.log_write "exec: %s, %s, %s:%d", .hook .lock_fork_exec] ++
            ([.hook .before_exec] ++
              signal_numbers.map (fun i => Syscall.sigaction i default_action) ++
              [.exec call]) ++ [], ?_, ?_⟩
          · show R.2.os.trace ++ [_] = _
            rw [r3]
            simp only [List.append_assoc, List.cons_append, List.nil_append, List.append_nil]
          · apply locked_exec_calls _ _ _ (Or.inl rfl)
            intro c hc
            simp only [List.mem_append, List.mem_singleton] at hc
            rcases hc with (hc | hc) | hc
            · subst hc; simp
            · exact map_sigaction_ne_unlock _ _ c hc
            · subst hc; simp
        | some e =>
          simp only at h
          injection h with h
          exact hfail { R.2.emit (.exec call) with errno := e } [.exec call] _ rfl
            (by intro c hc; simp at hc; subst hc; simp) h.symm

/-- The first call of a returning `vm_wait_pid` is `signal(SIGHUP, SIG_IGN)`. -/
theorem vm_wait_pid_retry_first_call (input_pid options : Int) (no_hang : Object)
    (fuel : Nat) (p : Proc) (r : Option Object) (q : Proc)
    (h : vm_wait_pid_retry input_pid options no_hang fuel p = .ok (r, q)) :
    ∃ rest, q.os.trace = p.os.trace ++ (Syscall.signal SIGHUP .SIG_IGN :: rest) := by
  cases fuel with
  | zero => simp [vm_wait_pid_retry] at h
  | succ f =>
    obtain ⟨-, -, -, a4, -⟩ := wait_attempt_spec input_pid options p
    have hext : ∃ u, q.os.trace = (wait_attempt input_pid options p).2.2.os.trace ++ u := by
      rw [vm_wait_pid_retry] at h
      simp only at h
      by_cases hpid : (wait_attempt input_pid options p).1 = -1
      · rw [if_pos hpid] at h
        by_cases hchild : (wait_attempt input_pid options p).2.2.errno = ECHILD
        · rw [if_pos hchild] at h
          injection h with h
          injection h with _ h
          exact ⟨[], by rw [← h, List.append_nil]⟩
        · rw [if_neg hchild] at h
          by_cases hintr : (wait_attempt input_pid options p).2.2.errno = EINTR
          · rw [if_pos hintr] at h
            by_cases ha : (!(check_async (wait_attempt input_pid options p).2.2).1) = true
            · rw [if_pos ha] at h
              injection h with h
              injection h with _ h
              exact ⟨[.check_async], by rw [← h]; rfl⟩
            · rw [if_neg ha] at h
              obtain ⟨t, ht, -⟩ := vm_wait_pid_retry_invariant input_pid options no_hang f _ r q h
              exact ⟨[.check_async] ++ t, by rw [ht, ← List.append_assoc]; rfl⟩
          · rw [if_neg hintr] at h
            injection h with h
            injection h with _ h
            exact ⟨[], by rw [← h, List.append_nil]⟩
      · rw [if_neg hpid] at h
        by_cases hnh : (CBOOL no_hang && decide ((wait_attempt input_pid options p).1 = 0)) = true
        · rw [if_pos hnh] at h
          injection h with h
          injection h with _ h
          exact ⟨[], by rw [← h, List.append_nil]⟩
        · rw [if_neg hnh] at h
          injection h with h
          injection h with _ h
          exact ⟨[], by rw [← h, List.append_nil]⟩
    obtain ⟨u, hu⟩ := hext
    rw [a4] at hu
    exact ⟨_, by rw [hu, List.append_assoc]; rfl⟩

/-- C22 (as the code has it): `vm_fork`, `vm_exec`, and `vm_spawn` and
`vm_backtick` in the process that goes on as the parent (`fork()` did not
return 0), call `fork` and change signal dispositions only with the fork/exec
lock held: the calls each of them adds to the trace pass the replay
`locked_at_mutations`. `vm_wait_pid` never takes the lock: its first call is
`signal(SIGHUP, SIG_IGN)`, made with the lock free, so its calls fail the
replay. -/
theorem fork_and_dispositions_locked (fuel : Nat) (junk : Handler) (spawn_state : Object)
    (path str : List Nat) (args : List Object) (pr pr1 pr2 : PipeResult) (ret err : Int)
    (exec_errno : Option Int) (pid_obj : Int) (no_hang : Object) (p : Proc)
    (hret : ret ≠ 0) :
    (∃ t, (vm_fork ret err p).2.os.trace = p.os.trace ++ t ∧
      locked_at_mutations false t = true) ∧
    (∀ out, vm_exec fuel junk path args exec_errno p = .ok out →
      ∃ t, out.proc.os.trace = p.os.trace ++ t ∧ locked_at_mutations false t = true) ∧
    (∀ out, vm_spawn fuel spawn_state path args pr ret err exec_errno p = .ok out →
      ∃ t, out.proc.os.trace = p.os.trace ++ t ∧ locked_at_mutations false t = true) ∧
    (∀ out, vm_backtick fuel str pr1 pr2 ret err exec_errno p = .ok out →
      ∃ t, out.proc.os.trace = p.os.trace ++ t ∧ locked_at_mutations false t = true) ∧
    (∀ r q, vm_wait_pid fuel pid_obj no_hang p = .ok (r, q) →
      ∃ rest, q.os.trace = p.os.trace ++ (Syscall.signal SIGHUP .SIG_IGN :: rest) ∧
        locked_at_mutations false (Syscall.signal SIGHUP .SIG_IGN :: rest) = false) := by
  refine ⟨vm_fork_locked ret err p, ?_, ?_, ?_, ?_⟩
  · intro out h
    exact vm_exec_locked fuel junk path args exec_errno p out h
  · intro out h
    exact vm_spawn_locked fuel spawn_state path args pr ret err exec_errno p out hret h
  · intro out h
    exact vm_backtick_locked fuel str pr1 pr2 ret err exec_errno p out hret h
  · intro r q h
    obtain ⟨rest, hrest⟩ := vm_wait_pid_retry_first_call _ _ _ fuel p r q h
    exact ⟨rest, hrest, rfl⟩

theorem fork_and_dispositions_locked_witness :
    (42 : Int) ≠ 0 ∧
    (∃ t, (vm_fork 42 0 (sample_proc sample_launch_os (fun _ => .failed ECHILD)
        (fun _ => true) (fun _ => .data []))).2.os.trace = [] ++ t ∧
      locked_at_mutations false t = true) ∧
    (∃ out t, vm_exec 5 (.fn 9) [108, 115] [] (some ENOENT) (sample_proc sample_launch_os
        (fun _ => .failed ECHILD) (fun _ => true) (fun _ => .data [])) = .ok out ∧
      out.proc.os.trace = [] ++ t ∧ locked_at_mutations false t = true) ∧
    (∃ out t, vm_spawn 5 .cNil [108, 115] [] (.created 7) 42 0 (some ENOENT)
        (sample_proc sample_launch_os (fun _ => .failed ECHILD) (fun _ => true)
          (fun _ => .data [])) = .ok out ∧
      out.proc.os.trace = [] ++ t ∧ locked_at_mutations false t = true) ∧
    (∃ out t, vm_backtick 5 [108, 115] (.created 7) (.created 8) 42 0 (some ENOENT)
        (sample_proc sample_launch_os (fun _ => .failed ECHILD) (fun _ => true)
          (fun _ => .data [])) = .ok out ∧
      out.proc.os.trace = [] ++ t ∧ locked_at_mutations false t = true) ∧
    (∃ r q rest, vm_wait_pid 5 42 .cNil (sample_proc sample_launch_os
        (fun _ => .failed ECHILD) (fun _ => true) (fun _ => .data [])) = .ok (r, q) ∧
      q.os.trace = [] ++ (Syscall.signal SIGHUP .SIG_IGN :: rest) ∧
      locked_at_mutations false (Syscall.signal SIGHUP .SIG_IGN :: rest) = false) :=
  have h := fork_and_dispositions_locked 5 (.fn 9) .cNil [108, 115] [108, 115] []
    (.created 7) (.created 7) (.created 8) 42 0 (some ENOENT) 42 .cNil
    (sample_proc sample_launch_os (fun _ => .failed ECHILD) (fun _ => true)
      (fun _ => .data [])) (by decide)
  ⟨by decide, h.1,
   ⟨_, (h.2.1 _ rfl).choose, rfl, (h.2.1 _ rfl).choose_spec⟩,
   ⟨_, (h.2.2.1 _ rfl).choose, rfl, (h.2.2.1 _ rfl).choose_spec⟩,
   ⟨_, (h.2.2.2.1 _ rfl).choose, rfl, (h.2.2.2.1 _ rfl).choose_spec⟩,
   ⟨_, _, (h.2.2.2.2 _ _ rfl).choose, rfl, (h.2.2.2.2 _ _ rfl).choose_spec⟩⟩

/-- C22 (counterexample): a `vm_wait_pid` run that reaps child 42 changes the
dispositions of `SIGHUP`, `SIGQUIT` and `SIGINT` six times and never takes the
fork/exec lock. -/
theorem vm_wait_pid_signal_without_lock :
    ∃ r q, vm_wait_pid 1 42 .cNil (sample_proc sample_launch_os (fun _ => .returned 42 0)
        (fun _ => true) (fun _ => .data [])) = .ok (some r, q) ∧
      q.os.trace = [.signal SIGHUP .SIG_IGN, .signal SIGQUIT .SIG_IGN, .signal SIGINT .SIG_IGN,
        .hook .unmanaged_enter, .waitpid 42 0, .hook .unmanaged_leave,
        .signal SIGHUP .SIG_DFL, .signal SIGQUIT .SIG_DFL, .signal SIGINT (.fn 1)] ∧
      locked_at_mutations false q.os.trace = false :=
  ⟨_, _, rfl, rfl, rfl⟩

/-- C23 (the code at a failed `fork`): when `fork()` returns -1, `vm_fork`
raises "fork(2) failed" and `fork_exec` returns -1 after the hooks
`before_fork` / `before_fork_exec` ran, and neither runs `after_fork_parent` /
`after_fork_exec_parent`: the hook is guarded by `pid > 0`. On the sample
process `vm_spawn` and `vm_backtick` raise "error forking" with no parent hook
in their trace, while with `fork() = 42` the hook follows. -/
theorem fork_failure_skips_parent_hook :
    (∀ (err : Int) (p : Proc),
      (vm_fork (-1) err p).1 = .error (.errno_error "fork(2) failed" err) ∧
      (vm_fork (-1) err p).2.os.trace = p.os.trace ++
        [.hook .lock_fork_exec, .hook .before_fork, .hook .lock_phase_enter, .fork,
         .hook .lock_phase_leave, .hook .unlock_fork_exec]) ∧
    hook_followed .before_fork .after_fork_parent
      [.hook .lock_fork_exec, .hook .before_fork, .hook .lock_phase_enter, .fork,
       .hook .lock_phase_leave, .hook .unlock_fork_exec] = false ∧
    (∀ (err errors_fd : Int) (p : Proc),
      (fork_exec (-1) err errors_fd p).1 = -1 ∧
      (fork_exec (-1) err errors_fd p).2.os.trace = p.os.trace ++
        [.hook .lock_fork_exec, .hook .before_fork_exec, .fcntl_setfd errors_fd FD_CLOEXEC,
         .hook .become_managed, .hook .lock_phase_enter, .fork, .hook .lock_phase_leave,
         .hook .become_unmanaged, .hook .unlock_fork_exec]) ∧
    (∀ errors_fd : Int, hook_followed .before_fork_exec .after_fork_exec_parent
      [.hook .lock_fork_exec, .hook .before_fork_exec, .fcntl_setfd errors_fd FD_CLOEXEC,
       .hook .become_managed, .hook .lock_phase_enter, .fork, .hook .lock_phase_leave,
       .hook .become_unmanaged, .hook .unlock_fork_exec] = false) ∧
    (∃ q, vm_spawn 5 .cNil [108, 115] [] (.created 7) (-1) EAGAIN none
        (sample_proc sample_launch_os (fun _ => .failed ECHILD) (fun _ => true)
          (fun _ => .data []))
        = .ok (.returned (.error (.errno_error "error forking" EAGAIN)) q) ∧
      q.os.trace.contains (.hook .before_fork_exec) = true ∧
      q.os.trace.contains (.hook .after_fork_exec_parent) = false ∧
      hook_followed .before_fork_exec .after_fork_exec_parent q.os.trace = false) ∧
    (∃ q, vm_backtick 5 [108, 115] (.created 7) (.created 8) (-1) EAGAIN none
        (sample_proc sample_launch_os (fun _ => .failed ECHILD) (fun _ => true)
          (fun _ => .data []))
        = .ok (.returned (.error (.errno_error "error forking" EAGAIN)) q) ∧
      q.os.trace.contains (.hook .before_fork_exec) = true ∧
      q.os.trace.contains (.hook .after_fork_exec_parent) = false ∧
      hook_followed .before_fork_exec .after_fork_exec_parent q.os.trace = false) ∧
    hook_followed .before_fork .after_fork_parent
      (vm_fork 42 0 (sample_proc sample_launch_os (fun _ => .failed ECHILD) (fun _ => true)
        (fun _ => .data []))).2.os.trace = true ∧
    (∃ r q, vm_spawn 5 .cNil [108, 115] [] (.created 7) 42 0 none
        (sample_proc sample_launch_os (fun _ => .failed ECHILD) (fun _ => true)
          (fun _ => .data [])) = .ok (.returned (.ok r) q) ∧
      hook_followed .before_fork_exec .after_fork_exec_parent q.os.trace = true) := by
  refine ⟨?_, by decide, ?_, ?_, ⟨_, rfl, rfl, rfl, rfl⟩, ⟨_, rfl, rfl, rfl, rfl⟩, rfl,
    ⟨_, _, rfl, rfl⟩⟩
  · intro err p
    constructor
    · simp [vm_fork, fork, Proc.hook, Proc.emit, OS.emit]
    · simp [vm_fork, fork, Proc.hook, Proc.emit, OS.emit]
  · intro err errors_fd p
    obtain ⟨h1, h2⟩ := fork_exec_spec (-1) err errors_fd p
    refine ⟨h1, ?_⟩
    rw [h2]
    simp
  · intro errors_fd
    simp [hook_followed]

/-- C21 (the code when `pipe` fails): on a process with descriptors 0 to 2 open
and three free slots, `vm_backtick` creates its error-channel pipe on
descriptors 3 and 4, its second `pipe` fails with `EMFILE`, and the call raises
"error setting up pipes" before any fork with descriptors 3 and 4 still open.
The path on which `fork` fails closes all four descriptors, and a failure of
the first `pipe` of `vm_backtick` or of the `pipe` of `vm_spawn` leaves the
descriptor table as it was. -/
theorem vm_backtick_second_pipe_leak :
    (sample_proc sample_os (fun _ => .failed ECHILD) (fun _ => true)
      (fun _ => .data [])).os.open_set = [true, true, true, false, false, false] ∧
    (∃ q, vm_backtick 5 [108, 115] (.created 7) (.created 8) 42 0 none
        (sample_proc sample_os (fun _ => .failed ECHILD) (fun _ => true) (fun _ => .data []))
        = .ok (.returned (.error (.errno_error "error setting up pipes" EMFILE)) q) ∧
      q.os.trace = [.pipe, .pipe] ∧
      q.os.open_set = [true, true, true, true, true, false]) ∧
    (∃ q, vm_backtick 5 [108, 115] (.created 7) (.failed EMFILE) 42 0 none
        (sample_proc sample_launch_os (fun _ => .failed ECHILD) (fun _ => true)
          (fun _ => .data []))
        = .ok (.returned (.error (.errno_error "error setting up pipes" EMFILE)) q) ∧
      q.os.trace = [.pipe, .pipe] ∧
      q.os.open_set = [true, true, true, true, true, false, false, false]) ∧
    (∃ q, vm_backtick 5 [108, 115] (.created 7) (.created 8) (-1) EAGAIN none
        (sample_proc sample_launch_os (fun _ => .failed ECHILD) (fun _ => true)
          (fun _ => .data []))
        = .ok (.returned (.error (.errno_error "error forking" EAGAIN)) q) ∧
      q.os.open_set = [true, true, true, false, false, false, false, false]) ∧
    (∃ q, vm_backtick 5 [108, 115] (.failed EMFILE) (.created 8) 42 0 none
        (sample_proc sample_launch_os (fun _ => .failed ECHILD) (fun _ => true)
          (fun _ => .data []))
        = .ok (.returned (.error (.errno_error "error setting up pipes" EMFILE)) q) ∧
      q.os.trace = [.pipe] ∧
      q.os.open_set = [true, true, true, false, false, false, false, false]) ∧
    (∃ q, vm_spawn 5 .cNil [108, 115] [] (.failed EMFILE) 42 0 none
        (sample_proc sample_launch_os (fun _ => .failed ECHILD) (fun _ => true)
          (fun _ => .data []))
        = .ok (.returned (.error (.errno_error "error setting up pipes" EMFILE)) q) ∧
      q.os.trace = [.pipe] ∧
      q.os.open_set = [true, true, true, false, false, false, false, false]) :=
  ⟨rfl, ⟨_, rfl, rfl, rfl⟩, ⟨_, rfl, rfl, rfl⟩, ⟨_, rfl, rfl⟩, ⟨_, rfl, rfl, rfl⟩,
    ⟨_, rfl, rfl, rfl⟩⟩

theorem popcount_low_le (n m : Nat) : popcount_low n m ≤ n := by
  induction n generalizing m with
  | zero => simp [popcount_low]
  | succ n ih =>
    have := ih (m / 2)
    have := Nat.mod_lt m (show 0 < 2 by decide)
    simp only [popcount_low]
    omega

theorem popcount_low_add (a b m : Nat) :
    popcount_low (a + b) m = popcount_low a m + popcount_low b (m / 2 ^ a) := by
  induction a generalizing m with
  | zero => simp [popcount_low]
  | succ a ih =>
    have h : a + 1 + b = (a + b) + 1 := by omega
    rw [h]
    simp only [popcount_low]
    rw [ih (m / 2), Nat.div_div_eq_div_mul, Nat.pow_succ, Nat.mul_comm 2 (2 ^ a)]
    omega

theorem popcount_low_mod (k n m : Nat) (h : n ≤ k) :
    popcount_low n (m % 2 ^ k) = popcount_low n m := by
  induction n generalizing m k with
  | zero => simp [popcount_low]
  | succ n ih =>
    obtain ⟨j, rfl⟩ : ∃ j, k = j + 1 := ⟨k - 1, by omega⟩
    simp only [popcount_low]
    have h1 : m % 2 ^ (j + 1) % 2 = m % 2 := by
      rw [Nat.pow_succ, Nat.mul_comm]
      exact Nat.mod_mul_right_mod m 2 (2 ^ j)
    have h2 : m % 2 ^ (j + 1) / 2 = (m / 2) % 2 ^ j := by
      rw [Nat.pow_succ, Nat.mul_comm, Nat.mod_mul_right_div_self]
    rw [h1, h2, ih j (m / 2) (by omega)]

theorem popcount_low_small (k n m : Nat) (h : k ≤ n) :
    popcount_low n (m % 2 ^ k) = popcount_low k m := by
  obtain ⟨d, rfl⟩ : ∃ d, n = k + d := ⟨n - k, by omega⟩
  rw [popcount_low_add, popcount_low_mod k k m (Nat.le_refl k),
    Nat.div_eq_of_lt (Nat.mod_lt m (Nat.two_pow_pos k))]
  have hz : ∀ d, popcount_low d 0 = 0 := by
    intro d
    induction d with
    | zero => rfl
    | succ d ih => simp [popcount_low, ih]
  rw [hz]
  rfl

/-- The count of `popcount_low` is the number of positions below `n` at which
the bit of `m` is set. -/
theorem popcount_low_eq_countP (n m : Nat) :
    popcount_low n m = ((List.range n).filter (fun i => m.testBit i)).length := by
  induction n generalizing m with
  | zero => rfl
  | succ n ih =>
    simp only [popcount_low]
    rw [List.range_succ_eq_map, List.filter_cons, List.filter_map, ih (m / 2)]
    have hf : (fun i => (m / 2).testBit i) = ((fun i => m.testBit i) ∘ Nat.succ) := by
      funext i
      exact (Nat.testBit_succ m i).symm
    rw [hf]
    have h0 : m.testBit 0 = decide (m % 2 = 1) := Nat.testBit_zero m
    rcases Nat.mod_two_eq_zero_or_one m with h | h
    · rw [h0, h]
      simp
    · rw [h0, h]
      simp
      omega

theorem bytes_map_lt (f : Nat → Nat) (hf : ∀ b, b < 256 → f b < 256) (n m : Nat) :
    bytes_map f n m < 256 ^ n := by
  induction n generalizing m with
  | zero => simp [bytes_map]
  | succ n ih =>
    have h1 := hf (m % 256) (Nat.mod_lt m (by decide))
    have h2 := ih (m / 256)
    simp only [bytes_map, Nat.pow_succ]
    omega

theorem bytes_map_congr (f g : Nat → Nat) (h : ∀ b, b < 256 → f b = g b) (n m : Nat) :
    bytes_map f n m = bytes_map g n m := by
  induction n generalizing m with
  | zero => rfl
  | succ n ih =>
    simp only [bytes_map]
    rw [h (m % 256) (Nat.mod_lt m (by decide)), ih (m / 256)]

theorem bytes_map_id (n m : Nat) : bytes_map (fun b => b) n m = m % 256 ^ n := by
  induction n generalizing m with
  | zero => simp [bytes_map, Nat.mod_one]
  | succ n ih =>
    simp only [bytes_map]
    rw [ih (m / 256), Nat.pow_succ, Nat.mul_comm (256 ^ n) 256, Nat.mod_mul]

theorem bytes_map_add (f g : Nat → Nat) (n m : Nat) :
    bytes_map f n m + bytes_map g n m = bytes_map (fun b => f b + g b) n m := by
  induction n generalizing m with
  | zero => rfl
  | succ n ih =>
    simp only [bytes_map]
    rw [← ih (m / 256)]
    omega

theorem bytes_map_sub (f g : Nat → Nat) (h : ∀ b, b < 256 → g b ≤ f b) (n m : Nat) :
    bytes_map g n m ≤ bytes_map f n m ∧
    bytes_map f n m - bytes_map g n m = bytes_map (fun b => f b - g b) n m := by
  induction n generalizing m with
  | zero => exact ⟨Nat.le_refl _, rfl⟩
  | succ n ih =>
    obtain ⟨h1, h2⟩ := ih (m / 256)
    have h3 := h (m % 256) (Nat.mod_lt m (by decide))
    simp only [bytes_map]
    rw [← h2]
    omega

theorem bytes_map_comp (f g : Nat → Nat) (hf : ∀ b, b < 256 → f b < 256) (n m : Nat) :
    bytes_map g n (bytes_map f n m) = bytes_map (fun b => g (f b)) n m := by
  induction n generalizing m with
  | zero => rfl
  | succ n ih =>
    have h1 := hf (m % 256) (Nat.mod_lt m (by decide))
    simp only [bytes_map]
    have e1 : (f (m % 256) + 256 * bytes_map f n (m / 256)) % 256 = f (m % 256) := by omega
    have e2 : (f (m % 256) + 256 * bytes_map f n (m / 256)) / 256 = bytes_map f n (m / 256) := by
      omega
    rw [e1, e2, ih (m / 256)]

/-- Masking a shifted word with a repeated byte `c` works byte by byte when the
mask byte leaves out the `s` bits that the shift brings in from the next byte. -/
theorem shift_and_byte_mask (s c : Nat) (hs : s ≤ 8) (hc : c < 2 ^ (8 - s)) (n m : Nat) :
    (m >>> s) &&& byte_mask c n = bytes_map (fun b => (b >>> s) &&& c) n m := by
  induction n generalizing m with
  | zero => simp [byte_mask, bytes_map]
  | succ n ih =>
    simp only [byte_mask, bytes_map]
    rw [← ih (m / 256)]
    have hc8 : c < 2 ^ 8 := lt_of_lt_of_le hc (Nat.pow_le_pow_right (by decide) (by omega))
    have hx : ((m % 256) >>> s) &&& c < 2 ^ 8 := lt_of_le_of_lt Nat.and_le_right hc8
    apply Nat.eq_of_testBit_eq
    intro i
    have e1 : c + 256 * byte_mask c n = 2 ^ 8 * byte_mask c n + c := by omega
    have e2 : (((m % 256) >>> s) &&& c) + 256 * ((m / 256) >>> s &&& byte_mask c n)
        = 2 ^ 8 * ((m / 256) >>> s &&& byte_mask c n) + (((m % 256) >>> s) &&& c) := by omega
    rw [e1, e2, Nat.testBit_and, Nat.testBit_mul_pow_two_add _ hc8,
      Nat.testBit_mul_pow_two_add _ hx, Nat.testBit_shiftRight]
    by_cases hi : i < 8
    · rw [if_pos hi, if_pos hi, Nat.testBit_and, Nat.testBit_shiftRight]
      by_cases hci : c.testBit i = true
      · have hlt : i < 8 - s := by
          by_contra hge
          have : c < 2 ^ i := lt_of_lt_of_le hc (Nat.pow_le_pow_right (by decide) (by omega))
          rw [Nat.testBit_lt_two_pow this] at hci
          exact Bool.noConfusion hci
        have : (m % 256).testBit (s + i) = m.testBit (s + i) := by
          have h256 : (256 : Nat) = 2 ^ 8 := by decide
          rw [h256, Nat.testBit_mod_two_pow]
          simp
          omega
        rw [this]
      · simp only [Bool.not_eq_true] at hci
        rw [hci, Bool.and_false, Bool.and_false]
    · rw [if_neg hi, if_neg hi, Nat.testBit_and, Nat.testBit_shiftRight]
      have h256 : (256 : Nat) = 2 ^ 8 := by decide
      have : (m / 256).testBit (s + (i - 8)) = m.testBit (s + i) := by
        rw [h256, ← Nat.shiftRight_eq_div_pow, Nat.testBit_shiftRight]
        congr 1
        omega
      rw [this]

theorem and_byte_mask (c : Nat) (hc : c < 256) (n m : Nat) :
    m &&& byte_mask c n = bytes_map (fun b => b &&& c) n m := by
  have h := shift_and_byte_mask 0 c (by decide) hc n m
  simpa using h

theorem sk5_byte_mask : 0x5555555555555555 = byte_mask 0x55 8 := by decide

theorem sk3_byte_mask : 0x3333333333333333 = byte_mask 0x33 8 := by decide

theorem skf0_byte_mask : 0x0F0F0F0F0F0F0F0F = byte_mask 0x0F 8 := by decide

set_option maxRecDepth 100000 in
/-- The three bytewise steps of `hash_trie_index` count the bits of a byte. -/
theorem byte_steps_table : ∀ b, b < 256 →
    ((b >>> 1) &&& 0x55 ≤ b) ∧ byte_step1 b < 256 ∧ byte_step2 (byte_step1 b) < 256 ∧
    byte_step3 (byte_step2 (byte_step1 b)) = popcount_low 8 b := by
  decide

/-- The last three steps of `hash_trie_index` add up the eight byte counts. -/
theorem swar_fold (c0 c1 c2 c3 c4 c5 c6 c7 : Nat) (h0 : c0 ≤ 8) (h1 : c1 ≤ 8) (h2 : c2 ≤ 8)
    (h3 : c3 ≤ 8) (h4 : c4 ≤ 8) (h5 : c5 ≤ 8) (h6 : c6 ≤ 8) (h7 : c7 ≤ 8) (m3 m4 m5 : Nat)
    (hm3 : m3 = c0 + 256 * (c1 + 256 * (c2 + 256 * (c3 + 256 * (c4 + 256 * (c5 + 256 *
      (c6 + 256 * (c7 + 256 * 0))))))))
    (hm4 : m4 = (m3 + m3 / 256) % 18446744073709551616)
    (hm5 : m5 = (m4 + m4 / 65536) % 18446744073709551616) :
    ((m5 + m5 / 4294967296) % 18446744073709551616) % 256
      = c0 + c1 + c2 + c3 + c4 + c5 + c6 + c7 := by
  generalize ht7 : c7 + 256 * 0 = t7 at hm3
  generalize ht6 : c6 + 256 * t7 = t6 at hm3
  generalize ht5 : c5 + 256 * t6 = t5 at hm3
  generalize ht4 : c4 + 256 * t5 = t4 at hm3
  generalize ht3 : c3 + 256 * t4 = t3 at hm3
  generalize ht2 : c2 + 256 * t3 = t2 at hm3
  generalize ht1 : c1 + 256 * t2 = t1 at hm3
  have b7 : t7 ≤ 8 := by omega
  have b6 : t6 ≤ 2056 := by omega
  have b5 : t5 ≤ 526344 := by omega
  have b4 : t4 ≤ 134744072 := by omega
  have b3 : t3 ≤ 34494482440 := by omega
  have b2 : t2 ≤ 8830587504648 := by omega
  have b1 : t1 ≤ 2260630401189896 := by omega
  have d3 : m3 / 256 = t1 := by omega
  have e4 : m4 = m3 + t1 := by
    rw [hm4, d3]
    apply Nat.mod_eq_of_lt
    omega
  have d4 : m4 / 65536 = t2 + t3 := by
    clear hm4 hm5 d3 b7 b6 b5 b4 ht7 ht6 ht5 ht4 h4 h5 h6 h7
    omega
  have e5 : m5 = m3 + t1 + t2 + t3 := by
    rw [hm5, d4, e4, ← Nat.add_assoc]
    apply Nat.mod_eq_of_lt
    clear hm4 hm5 d3 d4 e4
    omega
  have d5 : m5 / 4294967296 = t4 + t5 + t6 + t7 := by
    clear hm4 hm5 d3 d4 e4
    omega
  rw [d5, e5]
  clear hm4 hm5 d3 d4 e4 d5 e5 b1 b2 b3 b4 b5 b6 b7
  omega

theorem popcount_low_byte (x : Nat) : popcount_low 8 (x % 256) = popcount_low 8 x :=
  popcount_low_mod 8 8 x (Nat.le_refl 8)

/-- The population count of a 64-bit word is the sum of the counts of its
eight bytes. -/
theorem popcount_bytes (m : Nat) :
    popcount m = popcount_low 8 (m % 256) + popcount_low 8 (m / 256 % 256) +
      popcount_low 8 (m / 256 / 256 % 256) + popcount_low 8 (m / 256 / 256 / 256 % 256) +
      popcount_low 8 (m / 256 / 256 / 256 / 256 % 256) +
      popcount_low 8 (m / 256 / 256 / 256 / 256 / 256 % 256) +
      popcount_low 8 (m / 256 / 256 / 256 / 256 / 256 / 256 % 256) +
      popcount_low 8 (m / 256 / 256 / 256 / 256 / 256 / 256 / 256 % 256) := by
  have step : ∀ k x, popcount_low (8 + k) x = popcount_low 8 (x % 256) + popcount_low k (x / 256) := by
    intro k x
    rw [popcount_low_add, popcount_low_byte]
    rfl
  have h8 : ∀ x, popcount_low 8 x = popcount_low 8 (x % 256) := fun x => (popcount_low_byte x).symm
  unfold popcount
  rw [show 64 = 8 + 56 by rfl, step, show 56 = 8 + 48 by rfl, step, show 48 = 8 + 40 by rfl, step,
    show 40 = 8 + 32 by rfl, step, show 32 = 8 + 24 by rfl, step, show 24 = 8 + 16 by rfl, step,
    show 16 = 8 + 8 by rfl, step, h8 (m / 256 / 256 / 256 / 256 / 256 / 256 / 256)]
  omega

/-- The function `hash_trie_index` with its intermediate values named; the
shifts are divisions by powers of two and the last mask is a remainder. -/
theorem hash_trie_index_steps (m m1 m2 m3 m4 m5 : Nat)
    (h1 : m1 = (m + SIZE_RANGE - ((m >>> 1) &&& 0x5555555555555555)) % SIZE_RANGE)
    (h2 : m2 = ((m1 &&& 0x3333333333333333) + ((m1 >>> 2) &&& 0x3333333333333333))
      % SIZE_RANGE)
    (h3 : m3 = ((m2 &&& 0x0F0F0F0F0F0F0F0F) + ((m2 >>> 4) &&& 0x0F0F0F0F0F0F0F0F))
      % SIZE_RANGE)
    (h4 : m4 = (m3 + m3 / 256) % 18446744073709551616)
    (h5 : m5 = (m4 + m4 / 65536) % 18446744073709551616) :
    hash_trie_index m = ((m5 + m5 / 4294967296) % 18446744073709551616) % 256 := by
  have hff : (0xFF : Nat) = 2 ^ 8 - 1 := by decide
  have s8 : ∀ x : Nat, x >>> 8 = x / 256 := fun x => Nat.shiftRight_eq_div_pow x 8
  have s16 : ∀ x : Nat, x >>> 16 = x / 65536 := fun x => Nat.shiftRight_eq_div_pow x 16
  have s32 : ∀ x : Nat, x >>> 32 = x / 4294967296 := fun x => Nat.shiftRight_eq_div_pow x 32
  subst h1 h2 h3 h4 h5
  unfold hash_trie_index
  simp only
  rw [hff, Nat.and_pow_two_sub_one_eq_mod]
  simp only [s8, s16, s32, SIZE_RANGE]

/-- The function `hash_trie_index` returns the population count of every
64-bit word. -/
theorem hash_trie_index_popcount (m : Nat) (hm : m < SIZE_RANGE) :
    hash_trie_index m = popcount m := by
  have hW : SIZE_RANGE = 256 ^ 8 := by decide
  have hT := byte_steps_table
  have hm0 : bytes_map (fun b => b) 8 m = m := by
    rw [bytes_map_id, ← hW]
    exact Nat.mod_eq_of_lt hm
  -- step 1
  have hx : (m >>> 1) &&& 0x5555555555555555 = bytes_map (fun b => (b >>> 1) &&& 0x55) 8 m := by
    rw [sk5_byte_mask]
    exact shift_and_byte_mask 1 0x55 (by decide) (by decide) 8 m
  obtain ⟨hle, hsub⟩ := bytes_map_sub (fun b => b) (fun b => (b >>> 1) &&& 0x55)
    (fun b hb => (hT b hb).1) 8 m
  rw [hm0] at hle hsub
  have l1 : ∀ b, b < 256 → byte_step1 b < 256 := fun b hb => (hT b hb).2.1
  have l2 : ∀ b, b < 256 → byte_step2 (byte_step1 b) < 256 := fun b hb => (hT b hb).2.2.1
  have hm1 : (m + SIZE_RANGE - ((m >>> 1) &&& 0x5555555555555555)) % SIZE_RANGE
      = bytes_map byte_step1 8 m := by
    rw [hx]
    have e : m + SIZE_RANGE - bytes_map (fun b => (b >>> 1) &&& 0x55) 8 m
        = (m - bytes_map (fun b => (b >>> 1) &&& 0x55) 8 m) + SIZE_RANGE := by omega
    rw [e, Nat.add_mod_right, hsub]
    have hlt := bytes_map_lt byte_step1 l1 8 m
    rw [← hW] at hlt
    exact Nat.mod_eq_of_lt hlt
  -- step 2
  have a2 : ∀ x : Nat, (x &&& 0x3333333333333333) + ((x >>> 2) &&& 0x3333333333333333)
      = bytes_map byte_step2 8 x := by
    intro x
    rw [sk3_byte_mask, and_byte_mask 0x33 (by decide),
      shift_and_byte_mask 2 0x33 (by decide) (by decide), bytes_map_add]
    exact bytes_map_congr _ _ (fun b _ => rfl) 8 x
  have hm2 : ((bytes_map byte_step1 8 m &&& 0x3333333333333333) +
      ((bytes_map byte_step1 8 m >>> 2) &&& 0x3333333333333333)) % SIZE_RANGE
        = bytes_map (fun b => byte_step2 (byte_step1 b)) 8 m := by
    rw [a2, bytes_map_comp byte_step1 byte_step2 l1]
    have hlt := bytes_map_lt (fun b => byte_step2 (byte_step1 b)) l2 8 m
    rw [← hW] at hlt
    exact Nat.mod_eq_of_lt hlt
  -- step 3
  have l3 : ∀ b, b < 256 → popcount_low 8 b < 256 := fun b _ =>
    lt_of_le_of_lt (popcount_low_le 8 b) (by decide)
  have a3 : ∀ x : Nat, (x &&& 0x0F0F0F0F0F0F0F0F) + ((x >>> 4) &&& 0x0F0F0F0F0F0F0F0F)
      = bytes_map byte_step3 8 x := by
    intro x
    rw [skf0_byte_mask, and_byte_mask 0x0F (by decide),
      shift_and_byte_mask 4 0x0F (by decide) (by decide), bytes_map_add]
    exact bytes_map_congr _ _ (fun b _ => rfl) 8 x
  have hm3 : ((bytes_map (fun b => byte_step2 (byte_step1 b)) 8 m &&& 0x0F0F0F0F0F0F0F0F) +
      ((bytes_map (fun b => byte_step2 (byte_step1 b)) 8 m >>> 4) &&& 0x0F0F0F0F0F0F0F0F))
        % SIZE_RANGE = bytes_map (popcount_low 8) 8 m := by
    rw [a3, bytes_map_comp (fun b => byte_step2 (byte_step1 b)) byte_step3 l2,
      bytes_map_congr (fun b => byte_step3 (byte_step2 (byte_step1 b))) (popcount_low 8)
        (fun b hb => (hT b hb).2.2.2) 8 m]
    have hlt := bytes_map_lt (popcount_low 8) l3 8 m
    rw [← hW] at hlt
    exact Nat.mod_eq_of_lt hlt
  have e3 : bytes_map (popcount_low 8) 8 m
      = popcount_low 8 (m % 256) + 256 * (popcount_low 8 (m / 256 % 256) + 256 *
        (popcount_low 8 (m / 256 / 256 % 256) + 256 *
        (popcount_low 8 (m / 256 / 256 / 256 % 256) + 256 *
        (popcount_low 8 (m / 256 / 256 / 256 / 256 % 256) + 256 *
        (popcount_low 8 (m / 256 / 256 / 256 / 256 / 256 % 256) + 256 *
        (popcount_low 8 (m / 256 / 256 / 256 / 256 / 256 / 256 % 256) + 256 *
        (popcount_low 8 (m / 256 / 256 / 256 / 256 / 256 / 256 / 256 % 256) + 256 * 0))))))) := by
    simp only [bytes_map]
  have hfold := swar_fold _ _ _ _ _ _ _ _ (popcount_low_le 8 (m % 256))
    (popcount_low_le 8 (m / 256 % 256)) (popcount_low_le 8 (m / 256 / 256 % 256))
    (popcount_low_le 8 (m / 256 / 256 / 256 % 256))
    (popcount_low_le 8 (m / 256 / 256 / 256 / 256 % 256))
    (popcount_low_le 8 (m / 256 / 256 / 256 / 256 / 256 % 256))
    (popcount_low_le 8 (m / 256 / 256 / 256 / 256 / 256 / 256 % 256))
    (popcount_low_le 8 (m / 256 / 256 / 256 / 256 / 256 / 256 / 256 % 256))
    (bytes_map (popcount_low 8) 8 m) _ _ e3 rfl rfl
  rw [← popcount_bytes] at hfold
  rw [← hfold]
  exact hash_trie_index_steps m _ _ _ _ _ hm1.symm hm2.symm hm3.symm rfl rfl

theorem shift_count_small (l : Int) (hl0 : 0 ≤ l) (hl9 : l ≤ 9) :
    ((l % ((18446744073709551616 : Nat) : Int)).toNat * 6 + 6) % 18446744073709551616
      = l.toNat * 6 + 6 := by
  omega

theorem low_six_bits (x : Int) :
    (x % ((18446744073709551616 : Nat) : Int)).toNat % 2 ^ 6 = (x % 64).toNat := by
  omega

theorem low_six_bits_lt (x : Int) : (x % 64).toNat < 64 := by
  omega

/-- The bit that `hash_trie_bit` selects at the levels whose shift count is
below 64. -/
theorem hash_trie_bit_spec (h l : Int) (hl0 : 0 ≤ l) (hl9 : l ≤ 9) :
    ((h >>> (l.toNat * 6 + 6)) % 64).toNat < 64 ∧
    hash_trie_bit h l = .ok (1 <<< ((h >>> (l.toNat * 6 + 6)) % 64).toNat) := by
  refine ⟨low_six_bits_lt _, ?_⟩
  have hlt : ¬ 64 ≤ l.toNat * 6 + 6 := by omega
  unfold hash_trie_bit
  simp only [HASH_TRIE_BIT_WIDTH, HASH_TRIE_BASE_SHIFT, HASH_TRIE_BIT_MASK, SIZE_RANGE]
  rw [shift_count_small l hl0 hl9, if_neg hlt]
  have h63 : (0x3f : Nat) = 2 ^ 6 - 1 := by decide
  rw [h63, Nat.and_pow_two_sub_one_eq_mod, low_six_bits]
  congr 1
  rw [Nat.one_shiftLeft]
  apply Nat.mod_eq_of_lt
  have hk := low_six_bits_lt (h >>> (l.toNat * 6 + 6))
  calc 2 ^ (h >>> (l.toNat * 6 + 6) % 64).toNat ≤ 2 ^ 63 :=
        Nat.pow_le_pow_right (by decide) (by omega)
    _ < 18446744073709551616 := by norm_num

/-- What `vm_hash_trie_item_index` returns once the bit `2 ^ k` is known. -/
theorem item_index_of_bit (hash level : Int) (m k : Nat) (hk : k < 64)
    (hb : hash_trie_bit hash level = .ok (1 <<< k)) :
    vm_hash_trie_item_index hash level m =
      (if m &&& (1 <<< k) ≠ 0 then .ok (.fixnum (popcount (m &&& (1 <<< k - 1))))
       else .ok .cNil) ∧
    popcount (m &&& (1 <<< k - 1)) = popcount_low k m := by
  have hpow : 2 ^ k < SIZE_RANGE := by
    have h63 : 2 ^ k ≤ 2 ^ 63 := Nat.pow_le_pow_right (by decide) (by omega)
    have hW : (2 : Nat) ^ 63 < SIZE_RANGE := by
      unfold SIZE_RANGE
      norm_num
    omega
  have hpos : 0 < 2 ^ k := Nat.two_pow_pos k
  have hmask : (2 ^ k + SIZE_RANGE - 1) % SIZE_RANGE = 2 ^ k - 1 := by
    have e : 2 ^ k + SIZE_RANGE - 1 = (2 ^ k - 1) + SIZE_RANGE := by omega
    rw [e, Nat.add_mod_right]
    exact Nat.mod_eq_of_lt (by omega)
  have hmod : m % 2 ^ k < SIZE_RANGE := lt_trans (Nat.mod_lt m hpos) hpow
  unfold vm_hash_trie_item_index
  rw [hb]
  simp only [Nat.one_shiftLeft]
  rw [hmask, Nat.and_comm (2 ^ k - 1) m, Nat.and_pow_two_sub_one_eq_mod,
    hash_trie_index_popcount _ hmod]
  refine ⟨rfl, ?_⟩
  unfold popcount
  exact popcount_low_small k 64 m (by omega)

/-- C26 (for the levels 0 to 9, whose shift count `level * 6 + 6` is below 64):
with `k` the six bits of `hash` at that shift and `b = 1 << k`,
`vm_hash_trie_item_index(hash, level, map)` returns nil exactly when `map & b`
is zero, and otherwise the Fixnum `popcount(map & (b - 1))`, which is the number
of set bits of `map` below position `k` and at most 63; and `hash_trie_index(m)`
is the population count of every 64-bit `m`. -/
theorem vm_hash_trie_item_index_spec (hash level : Int) (m : Nat) (hl0 : 0 ≤ level)
    (hl9 : level ≤ 9) (hm : m < SIZE_RANGE) :
    ((hash >>> (level.toNat * 6 + 6)) % 64).toNat < 64 ∧
    hash_trie_bit hash level = .ok (1 <<< ((hash >>> (level.toNat * 6 + 6)) % 64).toNat) ∧
    (vm_hash_trie_item_index hash level m = .ok .cNil ↔
      m &&& (1 <<< ((hash >>> (level.toNat * 6 + 6)) % 64).toNat) = 0) ∧
    (m &&& (1 <<< ((hash >>> (level.toNat * 6 + 6)) % 64).toNat) ≠ 0 →
      vm_hash_trie_item_index hash level m = .ok (.fixnum (popcount
        (m &&& (1 <<< ((hash >>> (level.toNat * 6 + 6)) % 64).toNat - 1))))) ∧
    popcount (m &&& (1 <<< ((hash >>> (level.toNat * 6 + 6)) % 64).toNat - 1))
      = ((List.range ((hash >>> (level.toNat * 6 + 6)) % 64).toNat).filter
          (fun i => m.testBit i)).length ∧
    popcount (m &&& (1 <<< ((hash >>> (level.toNat * 6 + 6)) % 64).toNat - 1)) ≤ 63 ∧
    hash_trie_index m = popcount m ∧
    popcount m = ((List.range 64).filter (fun i => m.testBit i)).length := by
  obtain ⟨hk, hb⟩ := hash_trie_bit_spec hash level hl0 hl9
  obtain ⟨hr, hp⟩ := item_index_of_bit hash level m _ hk hb
  refine ⟨hk, hb, ?_, ?_, ?_, ?_, hash_trie_index_popcount m hm, popcount_low_eq_countP 64 m⟩
  · rw [hr]
    by_cases hz : m &&& (1 <<< ((hash >>> (level.toNat * 6 + 6)) % 64).toNat) = 0
    · simp [hz]
    · simp [hz]
  · intro hz
    rw [hr, if_pos hz]
  · rw [hp]
    exact popcount_low_eq_countP _ m
  · rw [hp]
    have := popcount_low_le ((hash >>> (level.toNat * 6 + 6)) % 64).toNat m
    omega

theorem vm_hash_trie_item_index_spec_witness :
    (0 : Int) ≤ 0 ∧ (0 : Int) ≤ 9 ∧ 255 < SIZE_RANGE ∧
    vm_hash_trie_item_index 320 0 255 = .ok (.fixnum (popcount (255 &&& (1 <<< 5 - 1)))) ∧
    popcount (255 &&& (1 <<< 5 - 1)) = 5 ∧
    hash_trie_index 255 = popcount 255 ∧ popcount 255 = 8 :=
  ⟨by decide, by decide, by decide,
   (vm_hash_trie_item_index_spec 320 0 255 (by decide) (by decide) (by decide)).2.2.2.1
     (by decide),
   by decide,
   (vm_hash_trie_item_index_spec 320 0 255 (by decide) (by decide) (by decide)).2.2.2.2.2.2.1,
   by decide⟩

/-- C26 (counterexample): at level 10 the shift count is `10 * 6 + 6 = 66`;
the C shift of the 64-bit `hash` by 66 is undefined, so the call has no
defined result for hash 0 and map 1, where the claim promises 0. -/
theorem hash_trie_level_ten_undefined :
    (0 : Int) ≤ 10 ∧ 1 < SIZE_RANGE ∧
    hash_trie_bit 0 10 = .undefined ∧
    vm_hash_trie_item_index 0 10 1 = .undefined ∧
    (∀ r, vm_hash_trie_item_index 0 10 1 ≠ .ok r) ∧
    1 &&& (1 <<< (((0 : Int) >>> (10 * 6 + 6)) % 64).toNat) ≠ 0 :=
  ⟨by decide, by decide, rfl, rfl, fun r h => Run.noConfusion h, by decide⟩

theorem scan_metachar_terminated (l : List Nat) : ∃ b, scan_metachar (l ++ [0]) = .ok b := by
  induction l with
  | nil => exact ⟨false, rfl⟩
  | cons c rest ih =>
    simp only [List.cons_append, scan_metachar]
    split
    · exact ⟨false, rfl⟩
    · split
      · exact ⟨true, rfl⟩
      · exact ih

theorem take_takeWhile_length (f : Nat → Bool) (l : List Nat) :
    (l.takeWhile f).length ≤ l.length ∧ l.take (l.takeWhile f).length = l.takeWhile f := by
  induction l with
  | nil => exact ⟨Nat.le_refl _, rfl⟩
  | cons c rest ih =>
    simp only [List.takeWhile_cons]
    split
    · simp only [List.length_cons, List.take_succ_cons, ih.2]
      exact ⟨by omega, trivial⟩
    · exact ⟨Nat.zero_le _, rfl⟩

/-- The buffer that `make_string` builds: the bytes of the String before its
first NUL, and a terminating NUL. -/
theorem make_string_spec (source : List Nat) :
    strnlen (c_str_null_safe source) source.length
      = (source.takeWhile (fun c => c != 0)).length ∧
    make_string source = source.takeWhile (fun c => c != 0) ++ [0] := by
  have h1 : strnlen (c_str_null_safe source) source.length
      = (source.takeWhile (fun c => c != 0)).length := by
    unfold strnlen c_str_null_safe
    rw [List.take_left']
    rfl
  refine ⟨h1, ?_⟩
  unfold make_string
  simp only
  rw [h1]
  congr 1
  unfold c_str_null_safe
  rw [List.take_append_of_le_length (take_takeWhile_length _ source).1]
  exact (take_takeWhile_length _ source).2

theorem takeWhile_ne_zero (source : List Nat) :
    source.takeWhile (fun c => c != 0) = source ↔ 0 ∉ source := by
  induction source with
  | nil => simp
  | cons c rest ih =>
    by_cases hc : c = 0
    · subst hc
      simp
    · have hc2 : (c != 0) = true := by simpa using hc
      simp only [List.takeWhile_cons, hc2, if_true, List.cons.injEq, true_and, ih,
        List.mem_cons, not_or]
      constructor
      · intro h
        exact ⟨fun h0 => hc h0.symm, h⟩
      · intro h
        exact h.2

theorem cstr_terminated (l : List Nat) :
    cstr (l.takeWhile (fun c => c != 0) ++ [0]) 0 = l.takeWhile (fun c => c != 0) := by
  unfold cstr
  rw [List.drop_zero]
  induction l with
  | nil => rfl
  | cons c rest ih =>
    simp only [List.takeWhile_cons]
    by_cases hc : (c != 0) = true
    · simp only [hc, if_true, List.cons_append, List.takeWhile_cons, ih]
    · simp only [hc]
      rfl

/-- The function `exec_sh_fallback` returns when the size it is given is within
the buffer and the buffer holds a NUL or a metacharacter. -/
theorem exec_sh_fallback_returns (buf : List Nat) (c_len fuel : Nat)
    (hlen : c_len ≤ buf.length) (hfuel : c_len < fuel) (b : Bool)
    (hscan : scan_metachar buf = .ok b) :
    ∃ r, exec_sh_fallback fuel buf c_len = .ok r := by
  obtain ⟨buf1, args, hrun, hb, -, -⟩ :=
    tokenize_run fuel (c_len / 2 + 2) c_len (Nat.le_refl _) hfuel c_len fuel buf 0 []
      (by omega) hfuel (Nat.zero_le _) hlen (by simp) (fun h => absurd rfl h)
  cases b with
  | true =>
    exact ⟨{ buf := buf, call := some (.execl bin_sh [sh_arg0, sh_dash_c, cstr buf 0]) },
      by simp only [exec_sh_fallback, hscan]⟩
  | false =>
    have hlt : args.length < c_len / 2 + 2 := by omega
    cases hargs : args with
    | nil =>
      subst hargs
      exact ⟨{ buf := buf1, call := none },
        by simp only [exec_sh_fallback, hscan, hrun, if_pos hlt]⟩
    | cons a0 rest =>
      subst hargs
      exact ⟨{ buf := buf1,
               call := some (.execvp (cstr buf1 a0)
                 ((a0 :: rest).map (fun p => CharPtr.ptr (cstr buf1 p)) ++ [CharPtr.null])) },
        by simp only [exec_sh_fallback, hscan, hrun, if_pos hlt]⟩

/-- The command size of a String without a NUL byte: the buffer of
`make_string` is the bytes of the String and a terminating NUL,
`command_size()` is the length of that NUL-terminated string and one less than
the size of the buffer, and `exec_sh_fallback(command(), command_size())`
returns without an access outside the buffer (budget above the size). For every
String, `command_size()` is the length of the string in the buffer exactly when
the String holds no NUL byte. -/
theorem ExecCommand_size_without_nul (source : List Nat) (fuel : Nat) (hnul : 0 ∉ source)
    (hfuel : source.length < fuel) :
    (ExecCommand.from_command source).command_ = source ++ [0] ∧
    (ExecCommand.from_command source).command_size_
      = strnlen (c_str_null_safe source) source.length ∧
    (ExecCommand.from_command source).command_size_
      = (cstr (ExecCommand.from_command source).command_ 0).length ∧
    (ExecCommand.from_command source).command_.length
      = (ExecCommand.from_command source).command_size_ + 1 ∧
    (∃ r, exec_sh_fallback fuel (ExecCommand.from_command source).command_
      (ExecCommand.from_command source).command_size_ = .ok r) ∧
    (∃ r, launch_exec fuel (ExecCommand.from_command source) = .ok r) ∧
    ExecCommand.from_command_args source [] = .ok (ExecCommand.from_command source) ∧
    (∀ s : List Nat, (ExecCommand.from_command s).command_size_
      = (cstr (ExecCommand.from_command s).command_ 0).length ↔ 0 ∉ s) := by
  obtain ⟨h1, h2⟩ := make_string_spec source
  have htw := (takeWhile_ne_zero source).2 hnul
  have hcmd : (ExecCommand.from_command source).command_ = source ++ [0] := by
    show make_string source = _
    rw [h2, htw]
  have hsize : (ExecCommand.from_command source).command_size_ = source.length := rfl
  have hexec : ∃ r, exec_sh_fallback fuel (ExecCommand.from_command source).command_
      (ExecCommand.from_command source).command_size_ = .ok r := by
    rw [hcmd, hsize]
    obtain ⟨b, hb⟩ := scan_metachar_terminated source
    exact exec_sh_fallback_returns _ _ _ (by simp) hfuel b hb
  refine ⟨hcmd, ?_, ?_, ?_, hexec, ?_, rfl, ?_⟩
  · rw [hsize, h1, htw]
  · rw [hsize]
    show _ = (cstr (make_string source) 0).length
    rw [h2, cstr_terminated, htw]
  · rw [hcmd, hsize]
    simp
  · obtain ⟨r, hr⟩ := hexec
    exact ⟨r, by simpa [launch_exec, ExecCommand.from_command] using hr⟩
  · intro s
    show s.length = (cstr (make_string s) 0).length ↔ _
    rw [(make_string_spec s).2, cstr_terminated, ← takeWhile_ne_zero]
    constructor
    · intro h
      exact List.IsPrefix.eq_of_length (List.takeWhile_prefix _) h.symm
    · intro h
      rw [h]

theorem ExecCommand_size_without_nul_witness :
    (0 : Nat) ∉ [108, 115, 32, 45, 108] ∧ [108, 115, 32, 45, 108].length < 6 ∧
    (ExecCommand.from_command [108, 115, 32, 45, 108]).command_
      = [108, 115, 32, 45, 108] ++ [0] ∧
    (ExecCommand.from_command [108, 115, 32, 45, 108]).command_size_
      = (cstr (ExecCommand.from_command [108, 115, 32, 45, 108]).command_ 0).length ∧
    (∃ r, exec_sh_fallback 6 (ExecCommand.from_command [108, 115, 32, 45, 108]).command_
      (ExecCommand.from_command [108, 115, 32, 45, 108]).command_size_ = .ok r) :=
  ⟨by decide, by decide,
   (ExecCommand_size_without_nul [108, 115, 32, 45, 108] 6 (by decide) (by decide)).1,
   (ExecCommand_size_without_nul [108, 115, 32, 45, 108] 6 (by decide) (by decide)).2.2.1,
   (ExecCommand_size_without_nul [108, 115, 32, 45, 108] 6 (by decide) (by decide)).2.2.2.2.1⟩

/-- The descriptor flags `0 & ~FD_CLOEXEC`. -/
theorem ldiff_zero_one : Nat.ldiff 0 1 = 0 := by
  apply Nat.eq_of_testBit_eq
  intro i
  rw [Nat.testBit_ldiff]
  simp

/-- The pair `(1, 4)` of `redirect_fd`, applied where descriptor 4 is the
close-on-exec write end of a pipe: descriptor 1 becomes a duplicate of it with
`FD_CLOEXEC` clear. -/
theorem redirect_onto_channel (os : OS) (f : Nat) (h4 : os.descriptor 4 = some ⟨f, 1⟩)
    (hlen : 1 < os.fds.length) :
    (redirect_file_descriptor 1 4 os).descriptor 1 = some ⟨f, 0⟩ ∧
    (redirect_file_descriptor 1 4 os).descriptor 4 = some ⟨f, 1⟩ := by
  have hok : ¬ (dup2 4 1 os).1 < 0 := by
    unfold dup2
    rw [h4]
    simp only
    have hn : ¬ ((1 : Int) < 0 ∨ os.fds.length ≤ (1 : Int).toNat) := by
      intro h
      rcases h with h | h
      · exact absurd h (by decide)
      · have : (1 : Int).toNat = 1 := rfl
        omega
    rw [if_neg hn, if_neg (by decide)]
    show ¬ ((1 : Int) < 0)
    decide
  obtain ⟨dsrc, d1, d', hsrc, hd1, hd', hfile, hbit0, hbits, hother⟩ :=
    redirect_fd_pair_success 1 4 os hok
  obtain ⟨d, hd, -, -, hdesc⟩ := dup2_success 4 1 os hok
  rw [h4] at hsrc hd
  injection hsrc with hsrc
  injection hd with hd
  subst hsrc hd
  have hd1' := hdesc 1
  rw [if_pos rfl, if_neg (by decide), hd1] at hd1'
  injection hd1' with hd1'
  subst hd1'
  refine ⟨?_, ?_⟩
  · rw [hd']
    congr 1
    cases d' with
    | mk file flags =>
      simp only at hfile hbit0 hbits
      subst hfile
      congr 1
      apply Nat.eq_of_testBit_eq
      intro i
      by_cases hi : i = 0
      · subst hi
        rw [hbit0]
        rfl
      · rw [hbits i hi]
  · rw [hother 4 (by decide), h4]

/-- C11 (the code when a `redirect_fd` pair names the write end of the error
channel): `vm_spawn` is called with the pair `(1, 4)` in a process whose pipe
gets descriptors 3 and 4. The child duplicates descriptor 4 onto descriptor 1
and clears `FD_CLOEXEC` on the duplicate, writes nothing to the channel, and its
`exec` succeeds with descriptor 1 open on the pipe: what the new program prints
goes into the error channel. The three bytes `hi\n` are read as a count of 3,
and a parent whose read returns a count of 3 with `error_no` holding `v` raises
"execvp(2) failed" with `v`, whatever `v` is; with the channel at end-of-file
the same call returns the pid. -/
theorem error_channel_redirect_leak :
    (∃ q, vm_spawn 5 (SpawnConfig.to_table sample_channel_config) [108, 115] [] (.created 7)
        0 0 none (sample_proc sample_launch_os (fun _ => .failed ECHILD) (fun _ => true)
          (fun _ => .data []))
        = .ok (.replaced (.execvp [108, 115] [.ptr [108, 115], .null]) q) ∧
      q.os.descriptor 4 = some { file := 7, flags := 1 } ∧
      q.os.descriptor 1 = some { file := 7, flags := 0 } ∧
      written_to 4 q.os.trace = [] ∧ written_to 1 q.os.trace = []) ∧
    pipe_read [104, 105, 10] = .bytes 3 682344 ∧
    (∀ v : Int, ∃ q, vm_spawn 5 (SpawnConfig.to_table sample_channel_config) [108, 115] []
        (.created 7) 42 0 none
        (sample_proc { sample_launch_os with reads := fun _ => .bytes 3 v }
          (fun _ => .failed ECHILD) (fun _ => true) (fun _ => .data []))
        = .ok (.returned (.error (.errno_error "execvp(2) failed" v)) q) ∧
      q.os.is_open 3 = false ∧ q.os.is_open 4 = false) ∧
    (∃ q, vm_spawn 5 (SpawnConfig.to_table sample_channel_config) [108, 115] []
        (.created 7) 42 0 none
        (sample_proc sample_launch_os (fun _ => .failed ECHILD) (fun _ => true)
          (fun _ => .data []))
        = .ok (.returned (.ok (.fixnum 42)) q)) := by
  have hemit : ∀ (c : Proc) (call : Exec) (x : Int),
      (c.emit (.exec call)).os.descriptor x = c.os.descriptor x := fun _ _ _ => rfl
  have hdesc : ∀ (l : List Nat) (c : Proc) (call : Exec) (x : Int),
      ((default_signals l c).emit (.exec call)).os.descriptor x = c.os.descriptor x := by
    intro l c call x
    rw [hemit]
    exact descriptor_of_fds (default_signals l c).os c.os (default_signals_spec l c).1 x
  refine ⟨?_, rfl, fun _ => ⟨_, rfl, rfl, rfl⟩, ⟨_, rfl⟩⟩
  refine ⟨_, rfl, ?_⟩
  refine ⟨?_, ?_, ?_, ?_⟩
  · refine (hdesc _ _ _ 4).trans ?_
    refine (redirect_onto_channel _ 7 ?_ ?_).2
    · decide
    · decide
  · refine (hdesc _ _ _ 1).trans ?_
    refine (redirect_onto_channel _ 7 ?_ ?_).1
    · decide
    · decide
  · decide
  · decide

end Rubinius
